import Mathlib

/-!
# Prisma Cloud Compute Go SDK: request and authentication core

A shallow embedding of `pcc/client.go`, `auth/group.go` and
`settings/registry.go`, and theorems about it.

* A Go `string` is a byte sequence, so it is a list of bytes here (a byte is a
  natural number below 256); ASCII literals are written with `ascii`.
* A Go slice is `none` for nil and `some` of its elements otherwise.
* A Go `error` is a `GoError`; a call ends by returning an error value (nil is
  `none`) or by panicking (`Outcome`).
* `Client.Request` is a function of the client, its arguments and the answer of
  the transport; it returns how the call ended together with the response
  target, the client and the requests handed to the transport afterwards.
* The parts of the Go standard library that the client calls (`net/url`,
  `http.NewRequest`, `encoding/json`, `unicode/utf8`) are executable functions on
  bytes that follow the Go 1.22 library.  What `http.Client.Do` does with a
  request, the network, is a parameter.
* Loops of the library that advance by more than one byte take a fuel argument
  that bounds the number of rounds; each is called with a fuel it cannot use up.
-/

namespace Pcc

/-! ## Go strings -/

/-- A Go string: its bytes. -/
abbrev GoString := List Nat

/-- The bytes of an ASCII literal. -/
def ascii (s : String) : GoString := s.toList.map Char.toNat

/-- Go strings.HasPrefix. -/
def hasPrefix : GoString → GoString → Bool
  | _, [] => true
  | [], _ :: _ => false
  | a :: s, b :: p => a == b && hasPrefix s p

/-- Go strings.HasSuffix. -/
def hasSuffix (s suffix : GoString) : Bool := hasPrefix s.reverse suffix.reverse

/-- Go strings.Cut for a one-byte separator: the text before the first
separator, the text after it, and whether the separator was found. -/
def cut (s : GoString) (sep : Nat) : GoString × GoString × Bool :=
  match s with
  | [] => ([], [], false)
  | b :: rest =>
    if b = sep then ([], rest, true)
    else
      let r := cut rest sep
      (b :: r.1, r.2.1, r.2.2)

/-- Go strings.LastIndex for a one-byte separator, as a split: the text before
the last separator and the text from that separator on; none when absent. -/
def cutLast (s : GoString) (sep : Nat) : Option (GoString × GoString) :=
  match s with
  | [] => none
  | b :: rest =>
    match cutLast rest sep with
    | some (x, y) => some (b :: x, y)
    | none => if b = sep then some ([], b :: rest) else none

/-- Go strings.Index, as a split: the text before the first occurrence of
sub and the text from that occurrence on; none when absent. -/
def cutAt (s sub : GoString) : Option (GoString × GoString) :=
  if hasPrefix s sub then some ([], s)
  else
    match s with
    | [] => none
    | b :: rest =>
      match cutAt rest sub with
      | some (x, y) => some (b :: x, y)
      | none => none

/-- Go strings.LastIndex for a one-byte separator: -1 when absent. -/
def lastIndex (s : GoString) (sep : Nat) : Int :=
  match cutLast s sep with
  | none => -1
  | some (before, _) => before.length

/-- Go strings.TrimSuffix for a one-byte suffix. -/
def trimSuffix (s : GoString) (c : Nat) : GoString :=
  if hasSuffix s [c] then s.dropLast else s

/-- Go strings.Split for a one-byte separator. -/
def splitBy (s : GoString) (sep : Nat) : List GoString :=
  match s with
  | [] => [[]]
  | b :: rest =>
    match splitBy rest sep with
    | [] => [[]]
    | x :: xs => if b = sep then [] :: x :: xs else (b :: x) :: xs

def isLower (c : Nat) : Bool := 97 ≤ c && c ≤ 122
def isUpper (c : Nat) : Bool := 65 ≤ c && c ≤ 90
def isDigit (c : Nat) : Bool := 48 ≤ c && c ≤ 57
def isAlnum (c : Nat) : Bool := isLower c || isUpper c || isDigit c

/-- Go strings.ToLower on ASCII text (used on URL schemes, which are ASCII). -/
def toLower (s : GoString) : GoString := s.map fun c => if isUpper c then c + 32 else c

/-! ## Errors -/

/-- Go error values that can come out of the client.  Library errors keep their
kind; errors made with fmt.Errorf keep their message. -/
inductive GoError where
  /-- An error of net/url. -/
  | urlParse
  /-- An error of json.Marshal. -/
  | jsonMarshal
  /-- The "net/http: invalid method" error of http.NewRequest. -/
  | invalidMethod (method : GoString)
  /-- An error returned by http.Client.Do. -/
  | transport (msg : String)
  /-- An error while reading the response body. -/
  | readBody (msg : String)
  /-- A json.SyntaxError. -/
  | jsonSyntax
  /-- A json.InvalidUnmarshalError (nil or non-pointer target). -/
  | jsonInvalidUnmarshal
  /-- A json.UnmarshalTypeError. -/
  | jsonType
  /-- An error made by fmt.Errorf, with its message. -/
  | errorf (msg : String)
  deriving DecidableEq, Repr

/-! ## net/url -/

namespace url

/-- The encoding modes of net/url. -/
inductive encoding where
  | encodePath | encodePathSegment | encodeHost | encodeZone
  | encodeUserPassword | encodeQueryComponent | encodeFragment
  deriving DecidableEq, Repr

open encoding

def ishex (c : Nat) : Bool :=
  isDigit c || (97 ≤ c && c ≤ 102) || (65 ≤ c && c ≤ 70)

def unhex (c : Nat) : Nat :=
  if isDigit c then c - 48
  else if 97 ≤ c && c ≤ 102 then c - 97 + 10
  else if 65 ≤ c && c ≤ 70 then c - 65 + 10
  else 0

/-- The digit of "0123456789ABCDEF" at index n. -/
def upperhex (n : Nat) : Nat := if n < 10 then 48 + n else 55 + n

/-- Go url.shouldEscape. -/
def shouldEscape (c : Nat) (mode : encoding) : Bool :=
  if isAlnum c then false
  else if (mode = encodeHost ∨ mode = encodeZone) ∧
      c ∈ [33, 36, 38, 39, 40, 41, 42, 43, 44, 59, 61, 58, 91, 93, 60, 62, 34] then false
  else if c ∈ [45, 95, 46, 126] then false
  else if c ∈ [36, 38, 43, 44, 47, 58, 59, 61, 63, 64] ∧ mode = encodePath then c == 63
  else if c ∈ [36, 38, 43, 44, 47, 58, 59, 61, 63, 64] ∧ mode = encodePathSegment then
    c == 47 || c == 59 || c == 44 || c == 63
  else if c ∈ [36, 38, 43, 44, 47, 58, 59, 61, 63, 64] ∧ mode = encodeUserPassword then
    c == 64 || c == 47 || c == 63 || c == 58
  else if c ∈ [36, 38, 43, 44, 47, 58, 59, 61, 63, 64] ∧ mode = encodeQueryComponent then true
  else if c ∈ [36, 38, 43, 44, 47, 58, 59, 61, 63, 64] ∧ mode = encodeFragment then false
  else if mode = encodeFragment ∧ c ∈ [33, 40, 41, 42] then false
  else true

/-- Go url.unescape: none stands for an EscapeError or InvalidHostError. -/
def unescape (s : GoString) (mode : encoding) : Option GoString :=
  match s with
  | [] => some []
  | 37 :: h1 :: h2 :: rest =>
    if !ishex h1 || !ishex h2 then none
    else if mode = encodeHost ∧ unhex h1 < 8 ∧ ¬ (h1 = 50 ∧ h2 = 53) then none
    else if mode = encodeZone ∧ ¬ (h1 = 50 ∧ h2 = 53) ∧ unhex h1 * 16 + unhex h2 ≠ 32 ∧
        shouldEscape (unhex h1 * 16 + unhex h2) encodeHost then none
    else (unescape rest mode).map fun t => (unhex h1 * 16 + unhex h2) :: t
  | c :: rest =>
    if c = 37 then none
    else if c = 43 then
      (unescape rest mode).map fun t => (if mode = encodeQueryComponent then 32 else 43) :: t
    else if (mode = encodeHost ∨ mode = encodeZone) ∧ c < 128 ∧ shouldEscape c encodeHost then none
    else (unescape rest mode).map fun t => c :: t

/-- Go url.escape. -/
def escape (s : GoString) (mode : encoding) : GoString :=
  match s with
  | [] => []
  | c :: rest =>
    if c = 32 ∧ mode = encodeQueryComponent then 43 :: escape rest mode
    else if shouldEscape c mode then 37 :: upperhex (c / 16) :: upperhex (c % 16) :: escape rest mode
    else c :: escape rest mode

/-- Go url.validEncoded. -/
def validEncoded (s : GoString) (mode : encoding) : Bool :=
  s.all fun c =>
    c ∈ [33, 36, 38, 39, 40, 41, 42, 43, 44, 59, 61, 58, 64, 91, 93, 37] || !shouldEscape c mode

/-- Go url.validOptionalPort. -/
def validOptionalPort (port : GoString) : Bool :=
  match port with
  | [] => true
  | c :: digits => c == 58 && digits.all isDigit

/-- Go url.validUserinfo. -/
def validUserinfo (s : GoString) : Bool :=
  s.all fun r =>
    isAlnum r || r ∈ [45, 46, 95, 58, 126, 33, 36, 38, 39, 40, 41, 42, 43, 44, 59, 61, 37, 64]

/-- Go url.stringContainsCTLByte. -/
def stringContainsCTLByte (s : GoString) : Bool := s.any fun b => b < 32 || b == 127

/-- Go url.Userinfo. -/
structure Userinfo where
  username : GoString
  password : GoString
  passwordSet : Bool
  deriving DecidableEq, Repr

/-- Go url.URL. -/
structure URL where
  Scheme : GoString := []
  Opaque : GoString := []
  User : Option Userinfo := none
  Host : GoString := []
  Path : GoString := []
  RawPath : GoString := []
  OmitHost : Bool := false
  ForceQuery : Bool := false
  RawQuery : GoString := []
  Fragment : GoString := []
  RawFragment : GoString := []
  deriving DecidableEq, Repr

/-- Go url.getScheme: the scheme and the rest, or none for "missing protocol
scheme".  The argument acc holds the bytes already scanned, in reverse. -/
def getSchemeFrom (whole : GoString) (acc : GoString) (s : GoString) :
    Option (GoString × GoString) :=
  match s with
  | [] => some ([], whole)
  | c :: rest =>
    if isLower c || isUpper c then getSchemeFrom whole (c :: acc) rest
    else if isDigit c || c == 43 || c == 45 || c == 46 then
      if acc.isEmpty then some ([], whole) else getSchemeFrom whole (c :: acc) rest
    else if c == 58 then
      if acc.isEmpty then none else some (acc.reverse, rest)
    else some ([], whole)

def getScheme (rawURL : GoString) : Option (GoString × GoString) :=
  getSchemeFrom rawURL [] rawURL

/-- Go url.parseHost. -/
def parseHost (host : GoString) : Option GoString :=
  if hasPrefix host [91] then
    match cutLast host 93 with
    | none => none
    | some (before, fromBracket) =>
      if !validOptionalPort (fromBracket.drop 1) then none
      else
        match cutAt before (ascii "%25") with
        | some (h1, zone) =>
          match unescape h1 encodeHost, unescape zone encodeZone,
              unescape fromBracket encodeHost with
          | some host1, some host2, some host3 => some (host1 ++ host2 ++ host3)
          | _, _, _ => none
        | none => unescape host encodeHost
  else
    match cutLast host 58 with
    | some (_, colonPort) =>
      if !validOptionalPort colonPort then none else unescape host encodeHost
    | none => unescape host encodeHost

/-- Go url.parseAuthority. -/
def parseAuthority (authority : GoString) : Option (Option Userinfo × GoString) :=
  match cutLast authority 64 with
  | none => (parseHost authority).map fun h => (none, h)
  | some (userinfo, atHost) =>
    match parseHost (atHost.drop 1) with
    | none => none
    | some host =>
      if !validUserinfo userinfo then none
      else if !userinfo.contains 58 then
        (unescape userinfo encodeUserPassword).map fun u => (some ⟨u, [], false⟩, host)
      else
        let c := cut userinfo 58
        match unescape c.1 encodeUserPassword, unescape c.2.1 encodeUserPassword with
        | some username, some password => some (some ⟨username, password, true⟩, host)
        | _, _ => none

/-- Go URL.setPath; none when the path does not unescape. -/
def URL.setPath (u : URL) (p : GoString) : Option URL :=
  match unescape p encodePath with
  | none => none
  | some path =>
    some { u with Path := path, RawPath := if p = escape path encodePath then [] else p }

/-- Go URL.EscapedPath. -/
def URL.EscapedPath (u : URL) : GoString :=
  if u.RawPath ≠ [] ∧ validEncoded u.RawPath encodePath = true ∧
      unescape u.RawPath encodePath = some u.Path then u.RawPath
  else if u.Path = [42] then [42]
  else escape u.Path encodePath

/-- Go URL.setFragment. -/
def URL.setFragment (u : URL) (f : GoString) : Option URL :=
  match unescape f encodeFragment with
  | none => none
  | some frag =>
    some { u with Fragment := frag,
                  RawFragment := if f = escape frag encodeFragment then [] else f }

/-- Go URL.EscapedFragment. -/
def URL.EscapedFragment (u : URL) : GoString :=
  if u.RawFragment ≠ [] ∧ validEncoded u.RawFragment encodeFragment = true ∧
      unescape u.RawFragment encodeFragment = some u.Fragment then u.RawFragment
  else escape u.Fragment encodeFragment

/-- Go url.parse with viaRequest = false. -/
def parse (rawURL : GoString) : Option URL :=
  if stringContainsCTLByte rawURL then none
  else if rawURL = [42] then some { Path := [42] }
  else
    match getScheme rawURL with
    | none => none
    | some (scheme0, rest0) =>
      let scheme := toLower scheme0
      let forceQuery : Bool := hasSuffix rest0 [63] && rest0.count 63 == 1
      let rest1 := if forceQuery then rest0.dropLast else (cut rest0 63).1
      let rawQuery := if forceQuery then [] else (cut rest0 63).2.1
      let u : URL := { Scheme := scheme, ForceQuery := forceQuery, RawQuery := rawQuery }
      if !hasPrefix rest1 [47] && scheme ≠ [] then some { u with Opaque := rest1 }
      else if !hasPrefix rest1 [47] && (cut rest1 47).1.contains 58 then none
      else if (scheme ≠ [] || !hasPrefix rest1 [47, 47, 47]) && hasPrefix rest1 [47, 47] then
        let a := cut (rest1.drop 2) 47
        let authority := a.1
        let rest2 := if a.2.2 then 47 :: a.2.1 else []
        match parseAuthority authority with
        | none => none
        | some (user, host) => { u with User := user, Host := host }.setPath rest2
      else if scheme ≠ [] && hasPrefix rest1 [47] then
        { u with OmitHost := true }.setPath rest1
      else u.setPath rest1

/-- Go url.Parse. -/
def Parse (rawURL : GoString) : Except GoError URL :=
  let c := cut rawURL 35
  match parse c.1 with
  | none => .error .urlParse
  | some u =>
    if c.2.1 = [] then .ok u
    else
      match u.setFragment c.2.1 with
      | none => .error .urlParse
      | some u1 => .ok u1

/-- One round of the loop of Go url.resolvePath: dst is the text written so
far (with its leading slash), first the flag of the same name. -/
def resolveStep (st : GoString × Bool) (elem : GoString) : GoString × Bool :=
  if elem = [46] then (st.1, false)
  else if elem = [46, 46] then
    match cutLast (st.1.drop 1) 47 with
    | none => ([47], true)
    | some (before, _) => (47 :: before, st.2)
  else ((if st.2 then st.1 else st.1 ++ [47]) ++ elem, false)

/-- The second half of Go url.resolvePath: the loop over the elements of the
joined path, which drops the dot segments, and the fixing of the two ends. -/
def removeDots (full : GoString) : GoString :=
  let elems := splitBy full 47
  let dst := (elems.foldl resolveStep ([47], true)).1
  let last := elems.getLast?.getD []
  let r := if last = [46] ∨ last = [46, 46] then dst ++ [47] else dst
  if r.length > 1 ∧ (r.drop 1).head? = some 47 then r.drop 1 else r

/-- Go url.resolvePath. -/
def resolvePath (base ref : GoString) : GoString :=
  let full :=
    if ref = [] then base
    else if ref.head? ≠ some 47 then
      (match cutLast base 47 with
        | none => []
        | some (before, _) => before ++ [47]) ++ ref
    else ref
  if full = [] then [] else removeDots full

/-- Go URL.ResolveReference. -/
def URL.ResolveReference (u ref : URL) : URL :=
  let url0 : URL := if ref.Scheme = [] then { ref with Scheme := u.Scheme } else ref
  if ref.Scheme ≠ [] ∨ ref.Host ≠ [] ∨ ref.User ≠ none then
    (url0.setPath (resolvePath ref.EscapedPath [])).getD url0
  else if ref.Opaque ≠ [] then { url0 with User := none, Host := [], Path := [] }
  else
    let url1 : URL :=
      if ref.Path = [] ∧ ref.ForceQuery = false ∧ ref.RawQuery = [] then
        if ref.Fragment = [] then
          { url0 with RawQuery := u.RawQuery, Fragment := u.Fragment,
                      RawFragment := u.RawFragment }
        else { url0 with RawQuery := u.RawQuery }
      else url0
    if ref.Path = [] ∧ u.Opaque ≠ [] then
      { url1 with Opaque := u.Opaque, User := none, Host := [], Path := [] }
    else
      let url2 : URL := { url1 with Host := u.Host, User := u.User }
      (url2.setPath (resolvePath u.EscapedPath ref.EscapedPath)).getD url2

/-- Go Userinfo.String. -/
def Userinfo.String (ui : Userinfo) : GoString :=
  escape ui.username encodeUserPassword ++
    (if ui.passwordSet then 58 :: escape ui.password encodeUserPassword else [])

/-- Go URL.String. -/
def URL.String (u : URL) : GoString :=
  let schemePart := if u.Scheme ≠ [] then u.Scheme ++ [58] else []
  let body :=
    if u.Opaque ≠ [] then schemePart ++ u.Opaque
    else
      let authPart :=
        if u.Scheme ≠ [] ∨ u.Host ≠ [] ∨ u.User ≠ none then
          if u.OmitHost = true ∧ u.Host = [] ∧ u.User = none then []
          else
            (if u.Host ≠ [] ∨ u.Path ≠ [] ∨ u.User ≠ none then [47, 47] else []) ++
            (match u.User with
              | some ui => ui.String ++ [64]
              | none => []) ++
            (if u.Host ≠ [] then escape u.Host encodeHost else [])
        else []
      let path := u.EscapedPath
      let slash := if path ≠ [] ∧ path.head? ≠ some 47 ∧ u.Host ≠ [] then [47] else []
      let buf := schemePart ++ authPart ++ slash
      let dot := if buf = [] ∧ (cut path 47).1.contains 58 then [46, 47] else []
      buf ++ dot ++ path
  body ++
    (if u.ForceQuery = true ∨ u.RawQuery ≠ [] then 63 :: u.RawQuery else []) ++
    (if u.Fragment ≠ [] then 35 :: u.EscapedFragment else [])

end url

end Pcc

namespace Pcc

/-! ## unicode/utf8 -/

namespace utf8

/-- Go utf8.RuneError, U+FFFD. -/
def RuneError : Nat := 65533

/-- A UTF-8 continuation byte. -/
def isCont (b : Nat) : Bool := 128 ≤ b && b ≤ 191

/-- Go utf8.DecodeRune: the rune at the start of the text and its width in
bytes; (RuneError, 1) for a byte that starts no valid encoding. -/
def DecodeRune (s : GoString) : Nat × Nat :=
  match s with
  | [] => (RuneError, 0)
  | b0 :: rest =>
    if b0 < 128 then (b0, 1)
    else if 194 ≤ b0 ∧ b0 ≤ 223 then
      match rest with
      | b1 :: _ => if isCont b1 then ((b0 % 32) * 64 + b1 % 64, 2) else (RuneError, 1)
      | _ => (RuneError, 1)
    else if 224 ≤ b0 ∧ b0 ≤ 239 then
      match rest with
      | b1 :: b2 :: _ =>
        if (if b0 = 224 then 160 else 128) ≤ b1 ∧ b1 ≤ (if b0 = 237 then 159 else 191) ∧
            isCont b2 then (((b0 % 16) * 64 + b1 % 64) * 64 + b2 % 64, 3)
        else (RuneError, 1)
      | _ => (RuneError, 1)
    else if 240 ≤ b0 ∧ b0 ≤ 244 then
      match rest with
      | b1 :: b2 :: b3 :: _ =>
        if (if b0 = 240 then 144 else 128) ≤ b1 ∧ b1 ≤ (if b0 = 244 then 143 else 191) ∧
            isCont b2 ∧ isCont b3 then
          ((((b0 % 8) * 64 + b1 % 64) * 64 + b2 % 64) * 64 + b3 % 64, 4)
        else (RuneError, 1)
      | _ => (RuneError, 1)
    else (RuneError, 1)

/-- Go utf8.AppendRune / EncodeRune: the UTF-8 bytes of a rune; surrogates and
values above U+10FFFF encode as U+FFFD. -/
def EncodeRune (r : Nat) : GoString :=
  if r < 128 then [r]
  else if r < 2048 then [192 + r / 64, 128 + r % 64]
  else if 1114111 < r ∨ (55296 ≤ r ∧ r ≤ 57343) then [239, 191, 189]
  else if r < 65536 then [224 + r / 4096, 128 + r / 64 % 64, 128 + r % 64]
  else [240 + r / 262144, 128 + r / 4096 % 64, 128 + r / 64 % 64, 128 + r % 64]

/-- A Unicode scalar value: what a valid UTF-8 sequence can encode. -/
def isScalar (r : Nat) : Bool := r < 55296 || (57343 < r && r ≤ 1114111)

/-- The UTF-8 encoding of a sequence of runes. -/
def encodeAll (rs : List Nat) : GoString := rs.flatMap EncodeRune

end utf8

/-! ## encoding/json: encoding -/

namespace json

/-- The digit of "0123456789abcdef" at index n. -/
def hex (n : Nat) : Nat := if n < 10 then 48 + n else 87 + n

/-- The escape written by appendString (with escapeHTML set) for an ASCII byte
outside htmlSafeSet, or the byte itself when it is in the set. -/
def escapeASCII (b : Nat) : GoString :=
  if b = 92 ∨ b = 34 then [92, b]
  else if b = 8 then [92, 98]
  else if b = 12 then [92, 102]
  else if b = 10 then [92, 110]
  else if b = 13 then [92, 114]
  else if b = 9 then [92, 116]
  else if b < 32 ∨ b = 60 ∨ b = 62 ∨ b = 38 then [92, 117, 48, 48, hex (b / 16), hex (b % 16)]
  else [b]

/-- The loop of Go json.appendString: the escaped form of a string, without
the surrounding quotes.  Each round consumes at least one byte, so a fuel of
the length of the string is never used up. -/
def appendStringFrom : Nat → GoString → GoString
  | 0, _ => []
  | _ + 1, [] => []
  | fuel + 1, b :: rest =>
    if b < 128 then escapeASCII b ++ appendStringFrom fuel rest
    else
      let d := utf8.DecodeRune (b :: rest)
      if d.1 = utf8.RuneError ∧ d.2 = 1 then
        [92, 117, 102, 102, 102, 100] ++ appendStringFrom fuel rest
      else if d.1 = 8232 ∨ d.1 = 8233 then
        [92, 117, 50, 48, 50, hex (d.1 % 16)] ++ appendStringFrom fuel ((b :: rest).drop d.2)
      else (b :: rest).take d.2 ++ appendStringFrom fuel ((b :: rest).drop d.2)

/-- Go json.appendString with escapeHTML set: a string as a JSON string. -/
def appendString (s : GoString) : GoString :=
  34 :: (appendStringFrom s.length s ++ [34])

/-- The decimal digits of a natural number, most significant first, in front
of acc.  Each round divides by ten, so a fuel of n is never used up. -/
def formatNatFrom : Nat → Nat → GoString → GoString
  | 0, n, acc => (48 + n % 10) :: acc
  | fuel + 1, n, acc =>
    if n < 10 then (48 + n) :: acc else formatNatFrom fuel (n / 10) ((48 + n % 10) :: acc)

/-- Go strconv.AppendInt in base 10. -/
def formatInt (i : Int) : GoString :=
  if i < 0 then 45 :: formatNatFrom i.natAbs i.natAbs [] else formatNatFrom i.natAbs i.natAbs []

/-- Encoded elements or members, separated by commas. -/
def joinComma : List GoString → GoString
  | [] => []
  | [x] => x
  | x :: y :: rest => x ++ 44 :: joinComma (y :: rest)

/-- A JSON array of already encoded elements. -/
def encodeArray (elems : List GoString) : GoString := 91 :: (joinComma elems ++ [93])

/-- A JSON object of already encoded members. -/
def encodeObject (members : List GoString) : GoString := 123 :: (joinComma members ++ [125])

/-- A member of an encoded struct: the quoted field name, a colon, the value.
Field names here are plain ASCII, which appendString leaves as they are. -/
def member (name : String) (value : GoString) : GoString :=
  appendString (ascii name) ++ 58 :: value

/-! ## encoding/json: decoding -/

/-- A parsed JSON value.  A number keeps its literal text, a string is already
unquoted, an object keeps its members in order, duplicates included. -/
inductive JVal where
  | null
  | bool (b : Bool)
  | num (lit : GoString)
  | str (s : GoString)
  | arr (xs : List JVal)
  | obj (ms : List (GoString × JVal))

/-- JSON whitespace, as in the scanner isSpace. -/
def isSpace (c : Nat) : Bool := c == 32 || c == 9 || c == 13 || c == 10

/-- Drop leading JSON whitespace. -/
def skipSpace : GoString → GoString
  | [] => []
  | c :: rest => if isSpace c then skipSpace rest else c :: rest

/-- The value of a hexadecimal digit, none for another byte. -/
def hexVal (c : Nat) : Option Nat :=
  if 48 ≤ c ∧ c ≤ 57 then some (c - 48)
  else if 97 ≤ c ∧ c ≤ 102 then some (c - 97 + 10)
  else if 65 ≤ c ∧ c ≤ 70 then some (c - 65 + 10)
  else none

/-- Go json.getu4: the value of a leading backslash-u escape and the text after
it; none when the text does not start with one. -/
def getu4 (s : GoString) : Option (Nat × GoString) :=
  match s with
  | 92 :: 117 :: a :: b :: c :: d :: rest =>
    match hexVal a, hexVal b, hexVal c, hexVal d with
    | some x, some y, some z, some w => some (((x * 16 + y) * 16 + z) * 16 + w, rest)
    | _, _, _, _ => none
  | _ => none

/-- Go utf16.IsSurrogate. -/
def isSurrogate (r : Nat) : Bool := 55296 ≤ r && r < 57344

/-- Go utf16.DecodeRune: the rune of a surrogate pair, U+FFFD for a pair that
is not a high surrogate followed by a low one. -/
def decodeSurrogates (r1 r2 : Nat) : Nat :=
  if 55296 ≤ r1 ∧ r1 < 56320 ∧ 56320 ≤ r2 ∧ r2 < 57344 then
    (r1 - 55296) * 1024 + (r2 - 56320) + 65536
  else utf8.RuneError

/-- The scanner and json.unquote on the inside of a string literal: the
unquoted text up to the closing quote, and the input after that quote.  None
for an unterminated string, a raw control character or an invalid escape.
Each round consumes at least one byte, so a fuel of the length of the input is
never used up. -/
def unquoteFrom : Nat → GoString → Option (GoString × GoString)
  | 0, _ => none
  | _ + 1, [] => none
  | fuel + 1, c :: rest =>
    if c = 34 then some ([], rest)
    else if c = 92 then
      match rest with
      | [] => none
      | e :: rest1 =>
        let simple (b : Nat) := (unquoteFrom fuel rest1).map fun r => (b :: r.1, r.2)
        if e = 34 ∨ e = 92 ∨ e = 47 then simple e
        else if e = 98 then simple 8
        else if e = 102 then simple 12
        else if e = 110 then simple 10
        else if e = 114 then simple 13
        else if e = 116 then simple 9
        else if e = 117 then
          match getu4 (c :: rest) with
          | none => none
          | some (rr, rest2) =>
            if isSurrogate rr then
              match getu4 rest2 with
              | some (rr1, rest3) =>
                if decodeSurrogates rr rr1 ≠ utf8.RuneError then
                  (unquoteFrom fuel rest3).map fun r =>
                    (utf8.EncodeRune (decodeSurrogates rr rr1) ++ r.1, r.2)
                else (unquoteFrom fuel rest2).map fun r => ([239, 191, 189] ++ r.1, r.2)
              | none => (unquoteFrom fuel rest2).map fun r => ([239, 191, 189] ++ r.1, r.2)
            else (unquoteFrom fuel rest2).map fun r => (utf8.EncodeRune rr ++ r.1, r.2)
        else none
    else if c < 32 then none
    else if c < 128 then (unquoteFrom fuel rest).map fun r => (c :: r.1, r.2)
    else
      let d := utf8.DecodeRune (c :: rest)
      (unquoteFrom fuel ((c :: rest).drop d.2)).map fun r => (utf8.EncodeRune d.1 ++ r.1, r.2)

/-- A string literal after its opening quote. -/
def scanString (s : GoString) : Option (GoString × GoString) := unquoteFrom s.length s

/-- The leading decimal digits of the input and the rest. -/
def spanDigits : GoString → GoString × GoString
  | [] => ([], [])
  | c :: rest =>
    if isDigit c then ((c :: (spanDigits rest).1), (spanDigits rest).2) else ([], c :: rest)

/-- The scanner on a number literal: an optional minus sign, an integer part
(a single 0, or a non-zero digit and more digits), an optional fraction, an
optional exponent.  The literal and the input after it. -/
def scanNumber (s : GoString) : Option (GoString × GoString) :=
  let sign : GoString := if s.head? = some 45 then [45] else []
  let s1 := if s.head? = some 45 then s.drop 1 else s
  match s1 with
  | [] => none
  | c :: rest =>
    if !isDigit c then none
    else
      let intPart : GoString := if c = 48 then [48] else c :: (spanDigits rest).1
      let s2 := if c = 48 then rest else (spanDigits rest).2
      let fracOk : Bool := s2.head? = some 46 && (spanDigits (s2.drop 1)).1 ≠ []
      if s2.head? = some 46 ∧ fracOk = false then none
      else
        let frac : GoString := if fracOk then 46 :: (spanDigits (s2.drop 1)).1 else []
        let s3 := if fracOk then (spanDigits (s2.drop 1)).2 else s2
        match s3 with
        | e :: rest3 =>
          if e = 101 ∨ e = 69 then
            let esign : GoString :=
              if rest3.head? = some 43 ∨ rest3.head? = some 45 then rest3.take 1 else []
            let s4 := if rest3.head? = some 43 ∨ rest3.head? = some 45 then rest3.drop 1 else rest3
            if (spanDigits s4).1 = [] then none
            else some (sign ++ intPart ++ frac ++ e :: esign ++ (spanDigits s4).1, (spanDigits s4).2)
          else some (sign ++ intPart ++ frac, s3)
        | [] => some (sign ++ intPart ++ frac, s3)

/-- The nesting depth the scanner accepts (maxNestingDepth). -/
def maxNestingDepth : Nat := 10000

mutual

/-- One JSON value at the start of the input, after optional whitespace, and
the input after it; none for a syntax error.  The argument depth is the number
of further nesting levels allowed. -/
def scanValue : Nat → Nat → GoString → Option (JVal × GoString)
  | 0, _, _ => none
  | fuel + 1, depth, inp =>
    match skipSpace inp with
    | [] => none
    | c :: rest =>
      if c = 123 then
        match depth with
        | 0 => none
        | d + 1 =>
          match skipSpace rest with
          | 125 :: rest1 => some (.obj [], rest1)
          | _ => (scanMembers fuel d rest).map fun r => (.obj r.1, r.2)
      else if c = 91 then
        match depth with
        | 0 => none
        | d + 1 =>
          match skipSpace rest with
          | 93 :: rest1 => some (.arr [], rest1)
          | _ => (scanElems fuel d rest).map fun r => (.arr r.1, r.2)
      else if c = 34 then (scanString rest).map fun r => (.str r.1, r.2)
      else if hasPrefix (c :: rest) (ascii "true") then some (.bool true, rest.drop 3)
      else if hasPrefix (c :: rest) (ascii "false") then some (.bool false, rest.drop 4)
      else if hasPrefix (c :: rest) (ascii "null") then some (.null, rest.drop 3)
      else (scanNumber (c :: rest)).map fun r => (.num r.1, r.2)

/-- The elements of a non-empty array, up to and including the closing
bracket. -/
def scanElems : Nat → Nat → GoString → Option (List JVal × GoString)
  | 0, _, _ => none
  | fuel + 1, depth, inp =>
    match scanValue fuel depth inp with
    | none => none
    | some (v, rest) =>
      match skipSpace rest with
      | c :: rest1 =>
        if c = 44 then (scanElems fuel depth rest1).map fun r => (v :: r.1, r.2)
        else if c = 93 then some ([v], rest1)
        else none
      | [] => none

/-- The members of a non-empty object, up to and including the closing
brace. -/
def scanMembers : Nat → Nat → GoString → Option (List (GoString × JVal) × GoString)
  | 0, _, _ => none
  | fuel + 1, depth, inp =>
    match skipSpace inp with
    | 34 :: rest =>
      match scanString rest with
      | none => none
      | some (key, rest1) =>
        match skipSpace rest1 with
        | 58 :: rest2 =>
          match scanValue fuel depth rest2 with
          | none => none
          | some (v, rest3) =>
            match skipSpace rest3 with
            | c :: rest4 =>
              if c = 44 then (scanMembers fuel depth rest4).map fun r => ((key, v) :: r.1, r.2)
              else if c = 125 then some ([(key, v)], rest4)
              else none
            | [] => none
        | _ => none
    | _ => none

end

/-- A whole JSON text (json.checkValid and the reading of its one value): none
for a syntax error.  Every call of the scanner on a nested value has consumed
a byte since the call two levels up, so the fuel is never used up. -/
def parse (data : GoString) : Option JVal :=
  match scanValue (2 * data.length + 2) maxNestingDepth data with
  | none => none
  | some (v, rest) => if skipSpace rest = [] then some v else none

end json

end Pcc

namespace Pcc

namespace json

/-- A Go slice: nil, or its elements. -/
abbrev Slice (α : Type) := Option (List α)

/-- The result of decoding one JSON value into a Go value: the value
afterwards, and whether an UnmarshalTypeError was saved on the way (the decoder
saves the first such error, goes on, and returns it at the end). -/
abbrev Dec (α : Type) := JVal → α → α × Bool

/-- The decimal value of a non-empty run of digits. -/
def parseDigits (s : GoString) : Option Nat :=
  if s = [] ∨ s.all isDigit = false then none
  else some (s.foldl (fun acc c => acc * 10 + (c - 48)) 0)

/-- Go strconv.ParseInt with base 10 and 64 bits; none for a syntax or range
error. -/
def ParseInt (s : GoString) : Option Int :=
  let neg : Bool := s.head? = some 45
  let digits := if s.head? = some 45 ∨ s.head? = some 43 then s.drop 1 else s
  match parseDigits digits with
  | none => none
  | some n =>
    if neg then (if n ≤ 2 ^ 63 then some (-(n : Int)) else none)
    else if n < 2 ^ 63 then some (n : Int) else none

/-- Decoding into a Go string. -/
def decString : Dec GoString
  | .null, cur => (cur, false)
  | .str s, _ => (s, false)
  | _, cur => (cur, true)

/-- Decoding into a Go bool. -/
def decBool : Dec Bool
  | .null, cur => (cur, false)
  | .bool b, _ => (b, false)
  | _, cur => (cur, true)

/-- Decoding into a Go int (64 bits). -/
def decInt : Dec Int
  | .null, cur => (cur, false)
  | .num lit, cur =>
    match ParseInt lit with
    | some n => (n, false)
    | none => (cur, true)
  | _, cur => (cur, true)

/-- The loop of the array decoder: the value at index i is decoded into the
element the target has at index i, and into a zero element past the length of
the target. -/
def decElems {α : Type} (zero : α) (d : Dec α) : List JVal → List α → List (α × Bool)
  | [], _ => []
  | j :: js, [] => d j zero :: decElems zero d js []
  | j :: js, e :: es => d j e :: decElems zero d js es

/-- Decoding into a Go slice whose elements are not bytes: null gives nil; an
array gives a slice of as many elements as it has values, each decoded by
decElems; anything else is a type error.  (A target is its elements here, so
the elements the decoder finds past the length of the target are zero.) -/
def decSlice {α : Type} (zero : α) (d : Dec α) : Dec (Slice α)
  | .null, _ => (none, false)
  | .arr xs, cur =>
    (some ((decElems zero d xs (cur.getD [])).map Prod.fst),
      (decElems zero d xs (cur.getD [])).any Prod.snd)
  | _, cur => (cur, true)

/-- A field of a Go struct as the decoder sees it: its JSON name and the
decoding of a value into it. -/
structure Field (α : Type) where
  name : GoString
  set : JVal → α → α × Bool

/-- Go json.foldName as far as it matters for ASCII field names: ASCII letters
go to upper case, and the two other runes that fold to an ASCII letter, KELVIN
SIGN and LATIN SMALL LETTER LONG S, go to K and S.  Other bytes stay. -/
def foldName : GoString → GoString
  | [] => []
  | 226 :: 132 :: 170 :: rest => 75 :: foldName rest
  | 197 :: 191 :: rest => 83 :: foldName rest
  | c :: rest => (if isLower c then c - 32 else c) :: foldName rest

/-- The field a key stands for: the one of that exact name, else the first one
whose name matches under case folding. -/
def findField {α : Type} (fields : List (Field α)) (key : GoString) : Option (Field α) :=
  match fields.find? fun f => f.name == key with
  | some f => some f
  | none => fields.find? fun f => foldName f.name == foldName key

/-- Decoding one member of an object into a Go struct: a member with no field
is skipped; acc is the struct so far and whether a type error was saved. -/
def decMember {α : Type} (fields : List (Field α)) (acc : α × Bool) (kv : GoString × JVal) :
    α × Bool :=
  match findField fields kv.1 with
  | none => acc
  | some f => ((f.set kv.2 acc.1).1, acc.2 || (f.set kv.2 acc.1).2)

/-- Decoding into a Go struct: null changes nothing; the members of an object
are taken in order. -/
def decStruct {α : Type} (fields : List (Field α)) : Dec α
  | .null, cur => (cur, false)
  | .obj ms, cur => ms.foldl (decMember fields) (cur, false)
  | _, cur => (cur, true)

/-- Go json.Unmarshal into a pointer to a value decoded by d: a syntax error
leaves the value alone; otherwise the value is decoded and the saved type
error, if any, returned. -/
def Unmarshal {α : Type} (d : Dec α) (data : GoString) (cur : α) : α × Option GoError :=
  match parse data with
  | none => (cur, some .jsonSyntax)
  | some j => ((d j cur).1, if (d j cur).2 then some .jsonType else none)

/-- Go json.Unmarshal with a nil target: a syntax error for invalid JSON, an
InvalidUnmarshalError otherwise. -/
def UnmarshalNil (data : GoString) : GoError :=
  match parse data with
  | none => .jsonSyntax
  | some _ => .jsonInvalidUnmarshal

/-- A struct member with omitempty, for a string field. -/
def omitString (name : String) (s : GoString) : List GoString :=
  if s = [] then [] else [member name (appendString s)]

/-- A struct member with omitempty, for a bool field. -/
def omitBool (name : String) (b : Bool) : List GoString :=
  if b then [member name (ascii "true")] else []

/-- A struct member with omitempty, for an int field. -/
def omitInt (name : String) (i : Int) : List GoString :=
  if i = 0 then [] else [member name (formatInt i)]

/-- A struct member with omitempty, for a slice field: nil and empty slices
are both left out. -/
def omitSlice {α : Type} (name : String) (enc : α → GoString) (s : Slice α) : List GoString :=
  match s with
  | none => []
  | some [] => []
  | some (x :: xs) => [member name (encodeArray ((x :: xs).map enc))]

end json

/-! ## auth/group.go: the request types -/

namespace auth

open json

/-- Go auth.GroupPermission. -/
structure GroupPermission where
  Collections : Slice GoString := none
  Project : GoString := []
  deriving DecidableEq, Repr

/-- Go auth.GroupUser. -/
structure GroupUser where
  Username : GoString := []
  deriving DecidableEq, Repr

/-- Go auth.Group. -/
structure Group where
  Id : GoString := []
  LdapGroup : Bool := false
  Name : GoString := []
  OauthGroup : Bool := false
  OidcGroup : Bool := false
  Permissions : Slice GroupPermission := none
  Role : GoString := []
  SamlGroup : Bool := false
  Users : Slice GroupUser := none
  deriving DecidableEq, Repr

/-- Go json.Marshal of a GroupPermission. -/
def marshalGroupPermission (p : GroupPermission) : GoString :=
  encodeObject (omitSlice "collections" appendString p.Collections ++ omitString "project" p.Project)

/-- Go json.Marshal of a GroupUser. -/
def marshalGroupUser (u : GroupUser) : GoString :=
  encodeObject (omitString "username" u.Username)

/-- Go json.Marshal of a Group. -/
def marshalGroup (g : Group) : GoString :=
  encodeObject
    (omitString "groupId" g.Id ++ omitBool "ldapGroup" g.LdapGroup ++
     omitString "groupName" g.Name ++ omitBool "oauthGroup" g.OauthGroup ++
     omitBool "oidcGroup" g.OidcGroup ++
     omitSlice "permissions" marshalGroupPermission g.Permissions ++
     omitString "role" g.Role ++ omitBool "samlGroup" g.SamlGroup ++
     omitSlice "user" marshalGroupUser g.Users)

/-- The fields of a GroupPermission as the decoder sees them. -/
def fieldsGroupPermission : List (json.Field GroupPermission) :=
  [⟨ascii "collections", fun j p =>
      ({ p with Collections := (decSlice [] decString j p.Collections).1 },
       (decSlice [] decString j p.Collections).2)⟩,
   ⟨ascii "project", fun j p =>
      ({ p with Project := (decString j p.Project).1 }, (decString j p.Project).2)⟩]

/-- The decoder of json.Unmarshal for a GroupPermission. -/
def decGroupPermission : Dec GroupPermission := decStruct fieldsGroupPermission

/-- The fields of a GroupUser as the decoder sees them. -/
def fieldsGroupUser : List (json.Field GroupUser) :=
  [⟨ascii "username", fun j u =>
      ({ u with Username := (decString j u.Username).1 }, (decString j u.Username).2)⟩]

/-- The decoder of json.Unmarshal for a GroupUser. -/
def decGroupUser : Dec GroupUser := decStruct fieldsGroupUser

end auth

/-! ## settings/registry.go: the request types -/

namespace settings

open json

/-- Go settings.RegistrySpecification. -/
structure RegistrySpecification where
  Cap : Int := 0
  Collections : Slice GoString := none
  Credential : GoString := []
  ExcludedRepositories : Slice GoString := none
  ExcludedTags : Slice GoString := none
  HarborDeploymentSecurity : Bool := false
  JfrogRepoTypes : Slice GoString := none
  Namespace : GoString := []
  Os : GoString := []
  Tag : GoString := []
  Registry : GoString := []
  Repository : GoString := []
  Scanners : Int := 0
  Version : GoString := []
  VersionPattern : GoString := []
  deriving DecidableEq, Repr

/-- Go settings.RegistrySettings. -/
structure RegistrySettings where
  Specifications : Slice RegistrySpecification := none
  deriving DecidableEq, Repr

/-- Go json.Marshal of a RegistrySpecification. -/
def marshalRegistrySpecification (s : RegistrySpecification) : GoString :=
  encodeObject
    (omitInt "cap" s.Cap ++ omitSlice "collections" appendString s.Collections ++
     omitString "credentialID" s.Credential ++
     omitSlice "excludedRepositories" appendString s.ExcludedRepositories ++
     omitSlice "excludedTags" appendString s.ExcludedTags ++
     omitBool "harborDeploymentSecurity" s.HarborDeploymentSecurity ++
     omitSlice "jfrogRepoTypes" appendString s.JfrogRepoTypes ++
     omitString "namespace" s.Namespace ++ omitString "os" s.Os ++ omitString "tag" s.Tag ++
     omitString "registry" s.Registry ++ omitString "repository" s.Repository ++
     omitInt "scanners" s.Scanners ++ omitString "version" s.Version ++
     omitString "versionPattern" s.VersionPattern)

/-- Go json.Marshal of a RegistrySettings. -/
def marshalRegistrySettings (r : RegistrySettings) : GoString :=
  encodeObject (omitSlice "specifications" marshalRegistrySpecification r.Specifications)

/-- The fields of a RegistrySpecification as the decoder sees them. -/
def fieldsRegistrySpecification : List (json.Field RegistrySpecification) :=
  [⟨ascii "cap", fun j s => ({ s with Cap := (decInt j s.Cap).1 }, (decInt j s.Cap).2)⟩,
   ⟨ascii "collections", fun j s =>
      ({ s with Collections := (decSlice [] decString j s.Collections).1 },
       (decSlice [] decString j s.Collections).2)⟩,
   ⟨ascii "credentialID", fun j s =>
      ({ s with Credential := (decString j s.Credential).1 }, (decString j s.Credential).2)⟩,
   ⟨ascii "excludedRepositories", fun j s =>
      ({ s with ExcludedRepositories := (decSlice [] decString j s.ExcludedRepositories).1 },
       (decSlice [] decString j s.ExcludedRepositories).2)⟩,
   ⟨ascii "excludedTags", fun j s =>
      ({ s with ExcludedTags := (decSlice [] decString j s.ExcludedTags).1 },
       (decSlice [] decString j s.ExcludedTags).2)⟩,
   ⟨ascii "harborDeploymentSecurity", fun j s =>
      ({ s with HarborDeploymentSecurity := (decBool j s.HarborDeploymentSecurity).1 },
       (decBool j s.HarborDeploymentSecurity).2)⟩,
   ⟨ascii "jfrogRepoTypes", fun j s =>
      ({ s with JfrogRepoTypes := (decSlice [] decString j s.JfrogRepoTypes).1 },
       (decSlice [] decString j s.JfrogRepoTypes).2)⟩,
   ⟨ascii "namespace", fun j s =>
      ({ s with Namespace := (decString j s.Namespace).1 }, (decString j s.Namespace).2)⟩,
   ⟨ascii "os", fun j s => ({ s with Os := (decString j s.Os).1 }, (decString j s.Os).2)⟩,
   ⟨ascii "tag", fun j s => ({ s with Tag := (decString j s.Tag).1 }, (decString j s.Tag).2)⟩,
   ⟨ascii "registry", fun j s =>
      ({ s with Registry := (decString j s.Registry).1 }, (decString j s.Registry).2)⟩,
   ⟨ascii "repository", fun j s =>
      ({ s with Repository := (decString j s.Repository).1 }, (decString j s.Repository).2)⟩,
   ⟨ascii "scanners", fun j s =>
      ({ s with Scanners := (decInt j s.Scanners).1 }, (decInt j s.Scanners).2)⟩,
   ⟨ascii "version", fun j s =>
      ({ s with Version := (decString j s.Version).1 }, (decString j s.Version).2)⟩,
   ⟨ascii "versionPattern", fun j s =>
      ({ s with VersionPattern := (decString j s.VersionPattern).1 },
       (decString j s.VersionPattern).2)⟩]

/-- The decoder of json.Unmarshal for a RegistrySpecification. -/
def decRegistrySpecification : Dec RegistrySpecification := decStruct fieldsRegistrySpecification

end settings

/-! ## net/http -/

namespace http

/-- The token bytes of an HTTP method (httpguts.IsTokenRune). -/
def isTokenByte (c : Nat) : Bool :=
  isAlnum c || c ∈ [33, 35, 36, 37, 38, 39, 42, 43, 45, 46, 94, 95, 96, 124, 126]

/-- Go http.validMethod. -/
def validMethod (method : GoString) : Bool := method ≠ [] && method.all isTokenByte

/-- An outbound request as http.NewRequest builds it and the client sends it.
URL is the parsed URL the request goes to, Host the host of that URL; Header
maps a canonical key to its value; Body is the payload. -/
structure Request where
  Method : GoString
  URL : url.URL
  Host : GoString
  Header : List (GoString × GoString)
  Body : GoString
  deriving DecidableEq, Repr

/-- Go Header.Set on canonical keys: the key now has this one value. -/
def Request.setHeader (r : Request) (key value : GoString) : Request :=
  { r with Header := (r.Header.filter fun kv => kv.1 ≠ key) ++ [(key, value)] }

/-- Go Header.Get on canonical keys. -/
def Request.getHeader (r : Request) (key : GoString) : Option GoString :=
  (r.Header.find? fun kv => kv.1 == key).map Prod.snd

/-- Go http.hasPort: whether the last colon of the host comes after its last
closing bracket. -/
def hasPort (s : GoString) : Bool := lastIndex s 58 > lastIndex s 93

/-- Go http.removeEmptyPort: a host that ends with a colon and no port loses
the colon. -/
def removeEmptyPort (host : GoString) : GoString :=
  if hasPort host then trimSuffix host 58 else host

/-- Go http.NewRequest with a bytes.Buffer as body: an empty method means GET;
the method has to be a token and the URL has to parse; an empty port is taken
off the host of the parsed URL. -/
def NewRequest (method rawurl body : GoString) : Except GoError Request :=
  let m := if method = [] then ascii "GET" else method
  if !validMethod m then .error (.invalidMethod m)
  else
    match url.Parse rawurl with
    | .error e => .error e
    | .ok u =>
      .ok { Method := m, URL := { u with Host := removeEmptyPort u.Host },
            Host := removeEmptyPort u.Host, Header := [], Body := body }

/-- A response as the client receives it: the status code, and what
io.ReadAll gives for the body. -/
structure Response where
  StatusCode : Int
  Body : Except GoError GoString

/-- Go http.Client, as far as APIClient configures it. -/
structure Client where
  InsecureSkipVerify : Bool
  deriving DecidableEq, Repr

/-- What http.Client.Do does with a request: the world outside the program. -/
abbrev Transport := Client → Request → Except GoError Response

end http

/-! ## pcc/client.go -/

/-- How a Go call ends: it returns an error value (nil is none), or it
panics. -/
inductive Outcome where
  | returned (err : Option GoError)
  | panicked
  deriving DecidableEq, Repr

/-- Go pcc.Client.  HTTPClient is a pointer: none is nil. -/
structure Client where
  ConsoleURL : GoString := []
  Username : GoString := []
  Password : GoString := []
  HTTPClient : Option http.Client := none
  JWT : GoString := []
  deriving DecidableEq, Repr

/-- What a call of Client.Request leaves behind: how it ended, the caller's
response target, the requests handed to the transport, and the client. -/
structure RequestResult (T : Type) where
  outcome : Outcome
  response : Option T
  sent : List http.Request
  client : Client

/-- The buffer Client.Request fills before it builds the request: empty for a
nil body, else the json.Marshal of the body. -/
def payload {D : Type} (marshal : D → Except GoError GoString) (data : Option D) :
    Except GoError GoString :=
  match data with
  | none => .ok []
  | some d => marshal d

/-- The second half of Client.Request, from the return of HTTPClient.Do on:
the transport error, the status check, the reading of the body and its
decoding into the response target.  The argument req is the request that was
sent, answer what Do returned. -/
def Client.receive {T : Type} (unmarshal : GoString → T → T × Option GoError) (c : Client)
    (response : Option T) (req : http.Request) (answer : Except GoError http.Response) :
    RequestResult T :=
  match answer with
  | .error err => ⟨.returned (some err), response, [req], c⟩
  | .ok res =>
    if res.StatusCode ≠ 200 then
      ⟨.returned (some (.errorf ("Non-OK status: " ++ toString res.StatusCode))),
        response, [req], c⟩
    else
      match res.Body with
      | .error err => ⟨.returned (some err), response, [req], c⟩
      | .ok body =>
        if body.length > 0 then
          match response with
          | none => ⟨.returned (some (json.UnmarshalNil body)), none, [req], c⟩
          | some t => ⟨.returned (unmarshal body t).2, some (unmarshal body t).1, [req], c⟩
        else ⟨.returned none, response, [req], c⟩

/-- Go Client.Request.  The first half, up to the call of HTTPClient.Do; the
second half is receive.  The argument data is the request body (none is a nil
interface) with its json.Marshal; response is the response target (none is
nil, some t a pointer to t) with its json.Unmarshal; query is never read. -/
def Client.Request {D T : Type} (do_ : http.Transport)
    (marshal : D → Except GoError GoString) (unmarshal : GoString → T → T × Option GoError)
    (c : Client) (method endpoint : GoString) (_query : Option Unit) (data : Option D)
    (response : Option T) : RequestResult T :=
  match url.Parse c.ConsoleURL with
  | .error err => ⟨.returned (some err), response, [], c⟩
  | .ok parsedURL =>
    match url.Parse endpoint with
    | .error err => ⟨.returned (some err), response, [], c⟩
    | .ok parsedEndpoint =>
      let completeURL := parsedURL.ResolveReference parsedEndpoint
      match payload marshal data with
      | .error err => ⟨.returned (some err), response, [], c⟩
      | .ok buf =>
        match http.NewRequest method completeURL.String buf with
        | .error _ =>
          -- err is not looked at; req is nil and req.Header dereferences it
          ⟨.panicked, response, [], c⟩
        | .ok req0 =>
          let req1 := req0.setHeader (ascii "Authorization") (ascii "Bearer " ++ c.JWT)
          let req := req1.setHeader (ascii "Content-Type") (ascii "application/json")
          match c.HTTPClient with
          | none => ⟨.panicked, response, [], c⟩
          | some hc =>
            c.receive unmarshal response req (do_ hc req)

/-- The AuthRequest type of authenticate. -/
structure AuthRequest where
  Username : GoString
  Password : GoString
  deriving DecidableEq, Repr

/-- The AuthResponse type of authenticate. -/
structure AuthResponse where
  Token : GoString := []
  deriving DecidableEq, Repr

/-- Go json.Marshal of an AuthRequest. -/
def marshalAuthRequest (a : AuthRequest) : GoString :=
  json.encodeObject
    [json.member "username" (json.appendString a.Username),
     json.member "password" (json.appendString a.Password)]

/-- The decoder of json.Unmarshal for an AuthResponse. -/
def decAuthResponse : json.Dec AuthResponse :=
  json.decStruct
    [⟨ascii "token", fun j r =>
        ({ r with Token := (json.decString j r.Token).1 }, (json.decString j r.Token).2)⟩]

/-- What a call of authenticate leaves behind. -/
structure AuthResult where
  outcome : Outcome
  client : Client
  sent : List http.Request

/-- Go Client.authenticate. -/
def Client.authenticate (do_ : http.Transport) (c : Client) : AuthResult :=
  let res : AuthResponse := {}
  if c.Username ≠ [] ∧ c.Password ≠ [] then
    let r := c.Request do_ (fun a => .ok (marshalAuthRequest a)) (json.Unmarshal decAuthResponse)
      (ascii "POST") (ascii "/api/v1/authenticate") none
      (some (⟨c.Username, c.Password⟩ : AuthRequest)) (some res)
    match r.outcome with
    | .returned none => ⟨.returned none, { r.client with JWT := (r.response.getD res).Token }, r.sent⟩
    | other => ⟨other, r.client, r.sent⟩
  else ⟨.returned (some (.errorf "username and/or password missing")), c, []⟩

/-- What a call of APIClient gives: the client (none is nil), how the call
ended, and the requests sent. -/
structure APIClientResult where
  client : Option Client
  outcome : Outcome
  sent : List http.Request

/-- The client APIClient builds before it authenticates. -/
def newClient (console_url username password : GoString) (skip_cert_verification : Bool) : Client :=
  { ConsoleURL := if !hasSuffix console_url [47] then console_url ++ [47] else console_url,
    Username := username,
    Password := password,
    HTTPClient := some ⟨skip_cert_verification⟩ }

/-- Go pcc.APIClient. -/
def APIClient (do_ : http.Transport) (console_url username password : GoString)
    (skip_cert_verification : Bool) : APIClientResult :=
  let r := (newClient console_url username password skip_cert_verification).authenticate do_
  match r.outcome with
  | .returned none => ⟨some r.client, .returned none, r.sent⟩
  | other => ⟨none, other, r.sent⟩

namespace auth

/-- Go auth.GroupsEndpoint. -/
def GroupsEndpoint : GoString := ascii "api/v1/groups"

/-- No response target: the nil passed by the calls that expect no body. -/
def noTarget : Option Unit := none

/-- Decoding into a target that is never there. -/
def noUnmarshal : GoString → Unit → Unit × Option GoError := fun _ u => (u, none)

/-- No request body: the nil passed by the calls that send none. -/
def noMarshal : Unit → Except GoError GoString := fun _ => .ok []

/-- Go auth.CreateGroup. -/
def CreateGroup (do_ : http.Transport) (c : Client) (group : Group) : RequestResult Unit :=
  c.Request do_ (fun g => .ok (marshalGroup g)) noUnmarshal (ascii "POST") GroupsEndpoint none
    (some group) noTarget

/-- Go auth.UpdateGroup. -/
def UpdateGroup (do_ : http.Transport) (c : Client) (group : Group) : RequestResult Unit :=
  c.Request do_ (fun g => .ok (marshalGroup g)) noUnmarshal (ascii "PUT")
    (GroupsEndpoint ++ [47] ++ group.Name) none (some group) noTarget

/-- Go auth.DeleteGroup. -/
def DeleteGroup (do_ : http.Transport) (c : Client) (name : GoString) : RequestResult Unit :=
  c.Request do_ noMarshal noUnmarshal (ascii "DELETE") (GroupsEndpoint ++ [47] ++ name) none
    (none : Option Unit) noTarget

end auth

namespace settings

/-- Go settings.SettingsRegistryEndpoint. -/
def SettingsRegistryEndpoint : GoString := ascii "api/v1/settings/registry"

/-- Go settings.UpdateRegistrySettings. -/
def UpdateRegistrySettings (do_ : http.Transport) (c : Client) (registry : RegistrySettings) :
    RequestResult Unit :=
  c.Request do_ (fun r => .ok (marshalRegistrySettings r)) auth.noUnmarshal (ascii "PUT")
    SettingsRegistryEndpoint none (some registry) auth.noTarget

end settings

/-! ## Sample values -/

/-- A transport that answers every request with this status and body. -/
def http.answering (code : Int) (body : GoString) : http.Transport :=
  fun _ _ => .ok ⟨code, .ok body⟩

/-- A client as APIClient leaves it after a login that gave the token "tok". -/
def sampleClient : Client :=
  { ConsoleURL := ascii "https://console.example.com/", Username := ascii "admin",
    Password := ascii "secret", HTTPClient := some ⟨false⟩, JWT := ascii "tok" }

/-- A client whose console URL has a port and a path, as for a tenant of a
hosted console. -/
def tenantClient : Client :=
  { sampleClient with ConsoleURL := ascii "https://console.example.com:8083/tenant/" }

/-- A group to create. -/
def sampleGroup : auth.Group := { Name := ascii "devs", Role := ascii "auditor" }

/-- The request CreateGroup sends for sampleGroup on sampleClient. -/
def sampleCreateRequest : http.Request :=
  { Method := ascii "POST",
    URL := { Scheme := ascii "https", Host := ascii "console.example.com",
             Path := ascii "/api/v1/groups" },
    Host := ascii "console.example.com",
    Header := [(ascii "Authorization", ascii "Bearer tok"),
               (ascii "Content-Type", ascii "application/json")],
    Body := ascii "\x7b\"groupName\":\"devs\",\"role\":\"auditor\"\x7d" }

/-- The request UpdateGroup sends for sampleGroup on sampleClient. -/
def sampleUpdateRequest : http.Request :=
  { sampleCreateRequest with
    Method := ascii "PUT",
    URL := { sampleCreateRequest.URL with Path := ascii "/api/v1/groups/devs" } }

/-- The request DeleteGroup sends for the name "devs" on sampleClient. -/
def sampleDeleteRequest : http.Request :=
  { sampleUpdateRequest with Method := ascii "DELETE", Body := [] }

/-- Registry settings with one specification. -/
def sampleRegistry : settings.RegistrySettings :=
  { Specifications := some [{ Cap := 5, Os := ascii "linux", Registry := ascii "docker.io",
                               Collections := some [ascii "All"], Scanners := 2 }] }

/-- The request UpdateRegistrySettings sends for sampleRegistry on
sampleClient. -/
def sampleRegistryRequest : http.Request :=
  { sampleCreateRequest with
    Method := ascii "PUT",
    URL := { sampleCreateRequest.URL with Path := ascii "/api/v1/settings/registry" },
    Body := settings.marshalRegistrySettings sampleRegistry }

/-- The login request authenticate sends on sampleClient without a token. -/
def sampleLoginRequest : http.Request :=
  { Method := ascii "POST",
    URL := { Scheme := ascii "https", Host := ascii "console.example.com",
             Path := ascii "/api/v1/authenticate" },
    Host := ascii "console.example.com",
    Header := [(ascii "Authorization", ascii "Bearer "),
               (ascii "Content-Type", ascii "application/json")],
    Body := ascii "\x7b\"username\":\"admin\",\"password\":\"secret\"\x7d" }

end Pcc

namespace Pcc

/-! ## Definitions for the statements -/

/-- What appendString writes for one rune of a valid UTF-8 string. -/
def json.escapeRune (r : Nat) : GoString :=
  if r < 128 then json.escapeASCII r
  else if r = 8232 ∨ r = 8233 then [92, 117, 50, 48, 50, json.hex (r % 16)]
  else utf8.EncodeRune r

/-- A valid UTF-8 string: the encoding of a sequence of Unicode scalar values
(what Go utf8.ValidString accepts). -/
def utf8.Valid (s : GoString) : Prop :=
  ∃ rs : List Nat, (∀ r ∈ rs, utf8.isScalar r = true) ∧ s = utf8.encodeAll rs

/-- A text that can follow a JSON value inside an array or object, or at the
end of the input: nothing, a comma, a closing bracket or a closing brace. -/
def json.Delim (rest : GoString) : Prop :=
  rest = [] ∨ ∃ c r, rest = c :: r ∧ (c = 44 ∨ c = 93 ∨ c = 125)

/-- The values of a Go int on a 64-bit platform. -/
def json.isInt64 (i : Int) : Prop := -(2 ^ 63 : Int) ≤ i ∧ i < (2 ^ 63 : Int)

/-- The scanner reads the text as the value j at any nesting depth that leaves
room for depth more levels, whatever follows the text: the text starts with a
byte that is neither whitespace nor a closing bracket or brace, and with fuel
for its length the scanner returns j and what follows. -/
def json.Scans (text : GoString) (j : json.JVal) (depth : Nat) : Prop :=
  (∃ c t, text = c :: t ∧ json.isSpace c = false ∧ c ≠ 93 ∧ c ≠ 125) ∧
  ∀ fuel d rest, text.length ≤ fuel → depth ≤ d → json.Delim rest →
    json.scanValue fuel d (text ++ rest) = some (j, rest)

/-- A member of an encoded object: its name, the text of its value, and the
value the text stands for. -/
abbrev json.Member := GoString × GoString × json.JVal

/-- The text of a member: the quoted name, a colon, the value. -/
def json.Member.text (m : json.Member) : GoString := json.appendString m.1 ++ 58 :: m.2.1

/-- The member as the scanner reads it. -/
def json.Member.pair (m : json.Member) : GoString × json.JVal := (m.1, m.2.2)

/-- A member with a valid name whose value text is read as its value. -/
def json.Member.Good (depth : Nat) (m : json.Member) : Prop :=
  utf8.Valid m.1 ∧ json.Scans m.2.1 m.2.2 depth

/-- A slice as it comes back from encoding with omitempty and decoding: nil for
a nil or empty slice, else its elements, each as f says. -/
def json.normSlice {α : Type} (f : α → α) : json.Slice α → json.Slice α
  | none => none
  | some [] => none
  | some (x :: xs) => some ((x :: xs).map f)

/-- The member an omitempty string field contributes. -/
def json.memString (name : String) (s : GoString) : List json.Member :=
  if s = [] then [] else [(ascii name, json.appendString s, .str s)]

/-- The member an omitempty bool field contributes. -/
def json.memBool (name : String) (b : Bool) : List json.Member :=
  if b then [(ascii name, ascii "true", .bool true)] else []

/-- The member an omitempty int field contributes. -/
def json.memInt (name : String) (i : Int) : List json.Member :=
  if i = 0 then [] else [(ascii name, json.formatInt i, .num (json.formatInt i))]

/-- The member an omitempty slice field contributes. -/
def json.memSlice {α : Type} (name : String) (enc : α → GoString) (toJ : α → json.JVal) :
    json.Slice α → List json.Member
  | none => []
  | some [] => []
  | some (x :: xs) =>
    [(ascii name, json.encodeArray ((x :: xs).map enc), .arr ((x :: xs).map toJ))]

/-- The unreserved bytes of RFC 3986: letters, digits, and - _ . ~ -/
def url.isUnreserved (c : Nat) : Bool := isAlnum c || c == 45 || c == 95 || c == 46 || c == 126

/-- The sub-delims of RFC 3986: ! $ & ' ( ) * + , ; = -/
def url.isSubDelim (c : Nat) : Bool :=
  c == 33 || c == 36 || c == 38 || c == 39 || c == 40 || c == 41 || c == 42 || c == 43 ||
    c == 44 || c == 59 || c == 61

/-- The pchar bytes of RFC 3986 outside percent escapes: unreserved,
sub-delims, the colon and the at sign. -/
def url.isPchar (c : Nat) : Bool :=
  url.isUnreserved c || url.isSubDelim c || c == 58 || c == 64

/-- The bytes of a path segment outside percent escapes: pchar, and the square
brackets, which net/url leaves alone in a path. -/
def url.isSegmentByte (c : Nat) : Bool := url.isPchar c || c == 91 || c == 93

/-- The bytes of a path: those of a segment, the percent sign and the slash. -/
def url.isPathByte (c : Nat) : Bool := url.isSegmentByte c || c == 37 || c == 47

/-- The bytes of a fragment outside percent escapes: those of a segment, the
slash and the question mark. -/
def url.isFragmentByte (c : Nat) : Bool := url.isSegmentByte c || c == 47 || c == 63

/-- A text of bytes that ok accepts and of percent escapes, a percent sign
followed by two hex digits. -/
def url.escapedText (ok : Nat → Bool) : GoString → Bool
  | [] => true
  | 37 :: h1 :: h2 :: rest => url.ishex h1 && url.ishex h2 && url.escapedText ok rest
  | c :: rest => ok c && url.escapedText ok rest

/-- A path segment, possibly empty: segment bytes and percent escapes. -/
def url.isSegment (s : GoString) : Bool := url.escapedText url.isSegmentByte s

/-- A path segment that url.ResolveReference leaves in place: a segment that
is neither of the dot segments "." and "..". -/
def url.PlainSegment (s : GoString) : Prop :=
  url.isSegment s = true ∧ s ≠ [46] ∧ s ≠ [46, 46]

/-- A scheme in lower case: a lower-case letter, then lower-case letters,
digits, and + - . -/
def url.IsScheme (s : GoString) : Prop :=
  ∃ c rest, s = c :: rest ∧ isLower c = true ∧
    ∀ b ∈ rest, isLower b = true ∨ isDigit b = true ∨ b = 43 ∨ b = 45 ∨ b = 46

/-- The bytes of a user name or password that net/url writes without escaping
them: unreserved, and $ & + , ; = -/
def url.isUserByte (c : Nat) : Bool :=
  url.isUnreserved c || c == 36 || c == 38 || c == 43 || c == 44 || c == 59 || c == 61

/-- A user name with an optional password, both of such bytes. -/
def url.IsUser (u : GoString × Option GoString) : Prop :=
  (∀ b ∈ u.1, url.isUserByte b = true) ∧ ∀ pw ∈ u.2, ∀ b ∈ pw, url.isUserByte b = true

/-- The text of an optional user: nothing, or the name, a colon and the
password if there is one, and the at sign. -/
def url.userText : Option (GoString × Option GoString) → GoString
  | none => []
  | some (name, none) => name ++ [64]
  | some (name, some pw) => name ++ 58 :: (pw ++ [64])

/-- The user of the URL that has this text for its user. -/
def url.userOf : Option (GoString × Option GoString) → Option url.Userinfo
  | none => none
  | some (name, none) => some ⟨name, [], false⟩
  | some (name, some pw) => some ⟨name, pw, true⟩

/-- The bytes of a registered name of RFC 3986 outside percent escapes:
unreserved and sub-delims. -/
def url.isRegNameByte (c : Nat) : Bool := url.isUnreserved c || url.isSubDelim c

/-- A registered name without escapes: not empty, of such bytes. -/
def url.RegName (h : GoString) : Prop :=
  h ≠ [] ∧ ∀ b ∈ h, url.isRegNameByte b = true

/-- A group of an IPv6 address: one to four hex digits. -/
def url.isGroup (g : GoString) : Bool :=
  decide (1 ≤ g.length) && decide (g.length ≤ 4) && g.all url.ishex

/-- Groups with a colon between them. -/
def url.joinColon : List GoString → GoString
  | [] => []
  | [g] => g
  | g :: h :: rest => g ++ 58 :: url.joinColon (h :: rest)

/-- The text of an IPv6 address: eight groups, or up to seven groups with "::"
at the place of the groups left out. -/
def url.IsIPv6 (a : GoString) : Prop :=
  ∃ gs hs : List GoString, (∀ g ∈ gs ++ hs, url.isGroup g = true) ∧
    ((gs.length = 8 ∧ hs = [] ∧ a = url.joinColon gs) ∨
      (gs.length + hs.length ≤ 7 ∧ a = url.joinColon gs ++ 58 :: 58 :: url.joinColon hs))

/-- An IP literal: an IPv6 address between square brackets. -/
def url.IPLiteral (h : GoString) : Prop :=
  ∃ a, h = 91 :: (a ++ [93]) ∧ url.IsIPv6 a

/-- A host: a registered name or an IP literal. -/
def url.IsHost (h : GoString) : Prop := url.RegName h ∨ url.IPLiteral h

/-- An optional port: nothing, or a colon and one or more digits. -/
def url.CleanPort (port : GoString) : Prop :=
  port = [] ∨ ∃ d ds, port = 58 :: d :: ds ∧ (d :: ds).all isDigit = true

/-- A query: no control byte and no number sign. -/
def url.IsQuery (q : GoString) : Prop := ∀ b ∈ q, 32 ≤ b ∧ b ≠ 127 ∧ b ≠ 35

/-- The text of an optional query: nothing, or a question mark and the
query. -/
def url.queryText : Option GoString → GoString
  | none => []
  | some q => 63 :: q

/-- A fragment: not empty, of fragment bytes and percent escapes. -/
def url.IsFragment (f : GoString) : Prop :=
  f ≠ [] ∧ url.escapedText url.isFragmentByte f = true

/-- The text of an optional fragment: nothing, or a number sign and the
fragment. -/
def url.fragmentText : Option GoString → GoString
  | none => []
  | some f => 35 :: f

/-- Path segments with a slash between them. -/
def url.joinPath : List GoString → GoString
  | [] => []
  | [s] => s
  | s :: t :: rest => s ++ 47 :: url.joinPath (t :: rest)

/-- Path segments, each with a slash in front. -/
def url.slashed (segs : List GoString) : GoString := segs.flatMap fun s => 47 :: s

/-- The members json.Marshal writes for a GroupPermission, field by field: name,
value text, and the value the text stands for. -/
def auth.GroupPermission.members (p : auth.GroupPermission) : List json.Member :=
  json.memSlice "collections" json.appendString json.JVal.str p.Collections ++
    (json.memString "project" p.Project)

/-- The JSON value json.Marshal writes for a GroupPermission. -/
def auth.GroupPermission.toJ (p : auth.GroupPermission) : json.JVal := .obj (p.members.map json.Member.pair)

/-- A GroupPermission whose strings are valid UTF-8. -/
def auth.GroupPermission.Valid (p : auth.GroupPermission) : Prop :=
  (∀ y ∈ p.Collections.getD [], utf8.Valid y) ∧
  utf8.Valid p.Project

/-- A GroupPermission with nil in the place of every empty slice. -/
def auth.GroupPermission.norm (p : auth.GroupPermission) : auth.GroupPermission :=
  { Collections := json.normSlice id p.Collections,
    Project := p.Project }

/-- The JSON names of the fields of a GroupPermission that are not empty, in the order
of the struct: the members omitempty keeps. -/
def auth.GroupPermission.nonEmptyFields (p : auth.GroupPermission) : List GoString :=
  (if (p.Collections.getD []).isEmpty = true then [] else [ascii "collections"]) ++
    ((if p.Project = [] then [] else [ascii "project"]))

/-- The members json.Marshal writes for a GroupUser, field by field: name,
value text, and the value the text stands for. -/
def auth.GroupUser.members (u : auth.GroupUser) : List json.Member :=
  json.memString "username" u.Username

/-- The JSON value json.Marshal writes for a GroupUser. -/
def auth.GroupUser.toJ (u : auth.GroupUser) : json.JVal := .obj (u.members.map json.Member.pair)

/-- A GroupUser whose strings are valid UTF-8. -/
def auth.GroupUser.Valid (u : auth.GroupUser) : Prop :=
  utf8.Valid u.Username

/-- A GroupUser with nil in the place of every empty slice. -/
def auth.GroupUser.norm (u : auth.GroupUser) : auth.GroupUser :=
  { Username := u.Username }

/-- The JSON names of the fields of a GroupUser that are not empty, in the order
of the struct: the members omitempty keeps. -/
def auth.GroupUser.nonEmptyFields (u : auth.GroupUser) : List GoString :=
  (if u.Username = [] then [] else [ascii "username"])

/-- The members json.Marshal writes for a Group, field by field: name,
value text, and the value the text stands for. -/
def auth.Group.members (g : auth.Group) : List json.Member :=
  json.memString "groupId" g.Id ++
    (json.memBool "ldapGroup" g.LdapGroup ++
    (json.memString "groupName" g.Name ++
    (json.memBool "oauthGroup" g.OauthGroup ++
    (json.memBool "oidcGroup" g.OidcGroup ++
    (json.memSlice "permissions" auth.marshalGroupPermission auth.GroupPermission.toJ g.Permissions ++
    (json.memString "role" g.Role ++
    (json.memBool "samlGroup" g.SamlGroup ++
    (json.memSlice "user" auth.marshalGroupUser auth.GroupUser.toJ g.Users))))))))

/-- The JSON value json.Marshal writes for a Group. -/
def auth.Group.toJ (g : auth.Group) : json.JVal := .obj (g.members.map json.Member.pair)

/-- A Group whose strings are valid UTF-8. -/
def auth.Group.Valid (g : auth.Group) : Prop :=
  utf8.Valid g.Id ∧
  utf8.Valid g.Name ∧
  (∀ y ∈ g.Permissions.getD [], auth.GroupPermission.Valid y) ∧
  utf8.Valid g.Role ∧
  (∀ y ∈ g.Users.getD [], auth.GroupUser.Valid y)

/-- A Group with nil in the place of every empty slice. -/
def auth.Group.norm (g : auth.Group) : auth.Group :=
  { Id := g.Id,
    LdapGroup := g.LdapGroup,
    Name := g.Name,
    OauthGroup := g.OauthGroup,
    OidcGroup := g.OidcGroup,
    Permissions := json.normSlice auth.GroupPermission.norm g.Permissions,
    Role := g.Role,
    SamlGroup := g.SamlGroup,
    Users := json.normSlice auth.GroupUser.norm g.Users }

/-- The JSON names of the fields of a Group that are not empty, in the order
of the struct: the members omitempty keeps. -/
def auth.Group.nonEmptyFields (g : auth.Group) : List GoString :=
  (if g.Id = [] then [] else [ascii "groupId"]) ++
    ((if g.LdapGroup = true then [ascii "ldapGroup"] else []) ++
    ((if g.Name = [] then [] else [ascii "groupName"]) ++
    ((if g.OauthGroup = true then [ascii "oauthGroup"] else []) ++
    ((if g.OidcGroup = true then [ascii "oidcGroup"] else []) ++
    ((if (g.Permissions.getD []).isEmpty = true then [] else [ascii "permissions"]) ++
    ((if g.Role = [] then [] else [ascii "role"]) ++
    ((if g.SamlGroup = true then [ascii "samlGroup"] else []) ++
    ((if (g.Users.getD []).isEmpty = true then [] else [ascii "user"])))))))))

/-- The members json.Marshal writes for a RegistrySpecification, field by field: name,
value text, and the value the text stands for. -/
def settings.RegistrySpecification.members (s : settings.RegistrySpecification) : List json.Member :=
  json.memInt "cap" s.Cap ++
    (json.memSlice "collections" json.appendString json.JVal.str s.Collections ++
    (json.memString "credentialID" s.Credential ++
    (json.memSlice "excludedRepositories" json.appendString json.JVal.str s.ExcludedRepositories ++
    (json.memSlice "excludedTags" json.appendString json.JVal.str s.ExcludedTags ++
    (json.memBool "harborDeploymentSecurity" s.HarborDeploymentSecurity ++
    (json.memSlice "jfrogRepoTypes" json.appendString json.JVal.str s.JfrogRepoTypes ++
    (json.memString "namespace" s.Namespace ++
    (json.memString "os" s.Os ++
    (json.memString "tag" s.Tag ++
    (json.memString "registry" s.Registry ++
    (json.memString "repository" s.Repository ++
    (json.memInt "scanners" s.Scanners ++
    (json.memString "version" s.Version ++
    (json.memString "versionPattern" s.VersionPattern))))))))))))))

/-- The JSON value json.Marshal writes for a RegistrySpecification. -/
def settings.RegistrySpecification.toJ (s : settings.RegistrySpecification) : json.JVal := .obj (s.members.map json.Member.pair)

/-- A RegistrySpecification whose strings are valid UTF-8 and whose ints fit 64 bits. -/
def settings.RegistrySpecification.Valid (s : settings.RegistrySpecification) : Prop :=
  json.isInt64 s.Cap ∧
  (∀ y ∈ s.Collections.getD [], utf8.Valid y) ∧
  utf8.Valid s.Credential ∧
  (∀ y ∈ s.ExcludedRepositories.getD [], utf8.Valid y) ∧
  (∀ y ∈ s.ExcludedTags.getD [], utf8.Valid y) ∧
  (∀ y ∈ s.JfrogRepoTypes.getD [], utf8.Valid y) ∧
  utf8.Valid s.Namespace ∧
  utf8.Valid s.Os ∧
  utf8.Valid s.Tag ∧
  utf8.Valid s.Registry ∧
  utf8.Valid s.Repository ∧
  json.isInt64 s.Scanners ∧
  utf8.Valid s.Version ∧
  utf8.Valid s.VersionPattern

/-- A RegistrySpecification with nil in the place of every empty slice. -/
def settings.RegistrySpecification.norm (s : settings.RegistrySpecification) : settings.RegistrySpecification :=
  { Cap := s.Cap,
    Collections := json.normSlice id s.Collections,
    Credential := s.Credential,
    ExcludedRepositories := json.normSlice id s.ExcludedRepositories,
    ExcludedTags := json.normSlice id s.ExcludedTags,
    HarborDeploymentSecurity := s.HarborDeploymentSecurity,
    JfrogRepoTypes := json.normSlice id s.JfrogRepoTypes,
    Namespace := s.Namespace,
    Os := s.Os,
    Tag := s.Tag,
    Registry := s.Registry,
    Repository := s.Repository,
    Scanners := s.Scanners,
    Version := s.Version,
    VersionPattern := s.VersionPattern }

/-- The JSON names of the fields of a RegistrySpecification that are not empty, in the order
of the struct: the members omitempty keeps. -/
def settings.RegistrySpecification.nonEmptyFields (s : settings.RegistrySpecification) : List GoString :=
  (if s.Cap = 0 then [] else [ascii "cap"]) ++
    ((if (s.Collections.getD []).isEmpty = true then [] else [ascii "collections"]) ++
    ((if s.Credential = [] then [] else [ascii "credentialID"]) ++
    ((if (s.ExcludedRepositories.getD []).isEmpty = true then [] else [ascii "excludedRepositories"]) ++
    ((if (s.ExcludedTags.getD []).isEmpty = true then [] else [ascii "excludedTags"]) ++
    ((if s.HarborDeploymentSecurity = true then [ascii "harborDeploymentSecurity"] else []) ++
    ((if (s.JfrogRepoTypes.getD []).isEmpty = true then [] else [ascii "jfrogRepoTypes"]) ++
    ((if s.Namespace = [] then [] else [ascii "namespace"]) ++
    ((if s.Os = [] then [] else [ascii "os"]) ++
    ((if s.Tag = [] then [] else [ascii "tag"]) ++
    ((if s.Registry = [] then [] else [ascii "registry"]) ++
    ((if s.Repository = [] then [] else [ascii "repository"]) ++
    ((if s.Scanners = 0 then [] else [ascii "scanners"]) ++
    ((if s.Version = [] then [] else [ascii "version"]) ++
    ((if s.VersionPattern = [] then [] else [ascii "versionPattern"])))))))))))))))

/-- The members json.Marshal writes for a RegistrySettings, field by field: name,
value text, and the value the text stands for. -/
def settings.RegistrySettings.members (r : settings.RegistrySettings) : List json.Member :=
  json.memSlice "specifications" settings.marshalRegistrySpecification settings.RegistrySpecification.toJ r.Specifications

/-- The JSON value json.Marshal writes for a RegistrySettings. -/
def settings.RegistrySettings.toJ (r : settings.RegistrySettings) : json.JVal := .obj (r.members.map json.Member.pair)

/-- A RegistrySettings whose strings are valid UTF-8. -/
def settings.RegistrySettings.Valid (r : settings.RegistrySettings) : Prop :=
  (∀ y ∈ r.Specifications.getD [], settings.RegistrySpecification.Valid y)

/-- A RegistrySettings with nil in the place of every empty slice. -/
def settings.RegistrySettings.norm (r : settings.RegistrySettings) : settings.RegistrySettings :=
  { Specifications := json.normSlice settings.RegistrySpecification.norm r.Specifications }

/-- The JSON names of the fields of a RegistrySettings that are not empty, in the order
of the struct: the members omitempty keeps. -/
def settings.RegistrySettings.nonEmptyFields (r : settings.RegistrySettings) : List GoString :=
  (if (r.Specifications.getD []).isEmpty = true then [] else [ascii "specifications"])

/-! ## Theorems -/

/-- The second half of Request reports the request it was given and leaves the
client alone. -/
theorem receive_sent {T : Type} (unmarshal : GoString → T → T × Option GoError) (c : Client)
    (response : Option T) (req : http.Request) (answer : Except GoError http.Response) :
    (c.receive unmarshal response req answer).sent = [req] ∧
    (c.receive unmarshal response req answer).client = c := by
  unfold Client.receive
  split
  · exact ⟨rfl, rfl⟩
  · split
    · exact ⟨rfl, rfl⟩
    · split
      · exact ⟨rfl, rfl⟩
      · split
        · split <;> exact ⟨rfl, rfl⟩
        · exact ⟨rfl, rfl⟩

/-- What http.NewRequest puts into the request it builds. -/
theorem NewRequest_body (method rawurl body : GoString) (req0 : http.Request)
    (h : http.NewRequest method rawurl body = .ok req0) :
    req0.Body = body ∧ req0.Header = [] ∧
      ∃ u, url.Parse rawurl = .ok u ∧ req0.URL = { u with Host := http.removeEmptyPort u.Host } := by
  unfold http.NewRequest at h
  generalize (if method = [] then ascii "GET" else method) = m at h
  dsimp only at h
  split at h
  · simp at h
  · split at h
    · simp at h
    · rename_i u hu
      simp only [Except.ok.injEq] at h; subst h; exact ⟨rfl, rfl, u, hu, rfl⟩

/-- A header that was just set has the value it was set to. -/
theorem getHeader_setHeader_same (r : http.Request) (k v : GoString) :
    (r.setHeader k v).getHeader k = some v := by
  have h : ∀ l : List (GoString × GoString),
      List.find? (fun kv => kv.1 == k) (l.filter (fun kv => kv.1 ≠ k) ++ [(k, v)]) = some (k, v) := by
    intro l
    induction l with
    | nil => simp
    | cons a l ih =>
      rw [List.filter_cons]
      by_cases ha : a.1 = k
      · rw [if_neg (by simpa using ha)]; exact ih
      · have hak : (a.1 == k) = false := by simpa using ha
        rw [if_pos (by simpa using ha), List.cons_append]
        simp only [List.find?_cons, hak]
        exact ih
  simp only [http.Request.getHeader, http.Request.setHeader, h, Option.map_some']

/-- Setting a header leaves the other headers alone. -/
theorem getHeader_setHeader_other (r : http.Request) (k k1 v : GoString) (hk : k ≠ k1) :
    (r.setHeader k1 v).getHeader k = r.getHeader k := by
  have hk1 : (k1 == k) = false := by simpa using Ne.symm hk
  have h : ∀ l : List (GoString × GoString),
      List.find? (fun kv => kv.1 == k) (l.filter (fun kv => kv.1 ≠ k1) ++ [(k1, v)]) =
        List.find? (fun kv => kv.1 == k) l := by
    intro l
    induction l with
    | nil => simp only [List.filter_nil, List.nil_append, List.find?_cons, hk1, List.find?_nil]
    | cons a l ih =>
      rw [List.filter_cons]
      by_cases ha : a.1 = k1
      · have hak : (a.1 == k) = false := by simpa using fun h => hk (h.symm.trans ha)
        rw [if_neg (by simpa using ha), ih]
        simp only [List.find?_cons, hak]
      · rw [if_pos (by simpa using ha), List.cons_append]
        simp only [List.find?_cons, ih]
  simp only [http.Request.getHeader, http.Request.setHeader, h]

/-- A call of Request that handed a request to the transport: the client had
an HTTP client, the request carries the two headers and the payload, and the
call ends as receive does on the answer of the transport. -/
theorem Request_reached {D T : Type} (do_ : http.Transport)
    (marshal : D → Except GoError GoString) (unmarshal : GoString → T → T × Option GoError)
    (c : Client) (method endpoint : GoString) (query : Option Unit) (data : Option D)
    (response : Option T) (req : http.Request)
    (hsent : (c.Request do_ marshal unmarshal method endpoint query data response).sent = [req]) :
    ∃ hc, c.HTTPClient = some hc ∧
      req.getHeader (ascii "Authorization") = some (ascii "Bearer " ++ c.JWT) ∧
      req.getHeader (ascii "Content-Type") = some (ascii "application/json") ∧
      payload marshal data = .ok req.Body ∧
      c.Request do_ marshal unmarshal method endpoint query data response =
        c.receive unmarshal response req (do_ hc req) := by
  cases h1 : url.Parse c.ConsoleURL with
  | error e => simp [Client.Request, h1] at hsent
  | ok parsedURL =>
  cases h2 : url.Parse endpoint with
  | error e => simp [Client.Request, h1, h2] at hsent
  | ok parsedEndpoint =>
  cases h3 : payload marshal data with
  | error e => simp [Client.Request, h1, h2, h3] at hsent
  | ok buf =>
  cases h4 : http.NewRequest method (parsedURL.ResolveReference parsedEndpoint).String buf with
  | error e => simp [Client.Request, h1, h2, h3, h4] at hsent
  | ok req0 =>
  cases h5 : c.HTTPClient with
  | none => simp [Client.Request, h1, h2, h3, h4, h5] at hsent
  | some hc =>
  have heq : c.Request do_ marshal unmarshal method endpoint query data response =
      c.receive unmarshal response
        ((req0.setHeader (ascii "Authorization") (ascii "Bearer " ++ c.JWT)).setHeader
          (ascii "Content-Type") (ascii "application/json"))
        (do_ hc ((req0.setHeader (ascii "Authorization") (ascii "Bearer " ++ c.JWT)).setHeader
          (ascii "Content-Type") (ascii "application/json"))) := by
    simp only [Client.Request, h1, h2, h3, h4, h5]
  have hreq : req = (req0.setHeader (ascii "Authorization") (ascii "Bearer " ++ c.JWT)).setHeader
      (ascii "Content-Type") (ascii "application/json") := by
    rw [heq, (receive_sent _ _ _ _ _).1] at hsent
    simpa using hsent.symm
  obtain ⟨hb, hh, _⟩ := NewRequest_body _ _ _ _ h4
  refine ⟨hc, rfl, ?_, ?_, ?_, ?_⟩
  · subst hreq
    rw [getHeader_setHeader_other _ _ _ _ (by decide), getHeader_setHeader_same]
  · subst hreq; rw [getHeader_setHeader_same]
  · subst hreq; simp [http.Request.setHeader, hb]
  · subst hreq; exact heq

/-- A call of Request that returns no error has sent a request. -/
theorem Request_ok_sent {D T : Type} (do_ : http.Transport)
    (marshal : D → Except GoError GoString) (unmarshal : GoString → T → T × Option GoError)
    (c : Client) (method endpoint : GoString) (query : Option Unit) (data : Option D)
    (response : Option T)
    (hok : (c.Request do_ marshal unmarshal method endpoint query data response).outcome =
      .returned none) :
    ∃ req, (c.Request do_ marshal unmarshal method endpoint query data response).sent = [req] := by
  cases h1 : url.Parse c.ConsoleURL with
  | error e => simp [Client.Request, h1] at hok
  | ok parsedURL =>
  cases h2 : url.Parse endpoint with
  | error e => simp [Client.Request, h1, h2] at hok
  | ok parsedEndpoint =>
  cases h3 : payload marshal data with
  | error e => simp [Client.Request, h1, h2, h3] at hok
  | ok buf =>
  cases h4 : http.NewRequest method (parsedURL.ResolveReference parsedEndpoint).String buf with
  | error e => simp [Client.Request, h1, h2, h3, h4] at hok
  | ok req0 =>
  cases h5 : c.HTTPClient with
  | none => simp [Client.Request, h1, h2, h3, h4, h5] at hok
  | some hc =>
  refine ⟨(req0.setHeader (ascii "Authorization") (ascii "Bearer " ++ c.JWT)).setHeader
    (ascii "Content-Type") (ascii "application/json"), ?_⟩
  simp only [Client.Request, h1, h2, h3, h4, h5]
  exact (receive_sent _ _ _ _ _).1

/-- C1: when the transport answers a request with a status code other than
200 (201 and 204 included), whatever the body of the answer, Client.Request
returns the error "Non-OK status: " followed by the code in decimal, a message
made from the code alone, and the response target and the client are as they
were before the call. -/
theorem Request_non_OK_status {D T : Type} (do_ : http.Transport)
    (marshal : D → Except GoError GoString) (unmarshal : GoString → T → T × Option GoError)
    (c : Client) (method endpoint : GoString) (query : Option Unit) (data : Option D)
    (response : Option T) (hc : http.Client) (req : http.Request) (res : http.Response)
    (hsent : (c.Request do_ marshal unmarshal method endpoint query data response).sent = [req])
    (hclient : c.HTTPClient = some hc) (hanswer : do_ hc req = .ok res)
    (hcode : res.StatusCode ≠ 200) :
    (c.Request do_ marshal unmarshal method endpoint query data response).outcome =
      .returned (some (.errorf ("Non-OK status: " ++ toString res.StatusCode))) ∧
    (c.Request do_ marshal unmarshal method endpoint query data response).response = response ∧
    (c.Request do_ marshal unmarshal method endpoint query data response).client = c := by
  obtain ⟨hc1, h5, _, _, _, heq⟩ := Request_reached do_ marshal unmarshal c method endpoint query
    data response req hsent
  have : hc1 = hc := by rw [h5] at hclient; exact Option.some.inj hclient
  subst this
  rw [heq, hanswer]
  simp [Client.receive, hcode]

/-- C2: when the transport answers with status 200 and an empty body,
Client.Request returns no error and the response target, nil or not, and the
client are as they were before the call. -/
theorem Request_OK_empty_body {D T : Type} (do_ : http.Transport)
    (marshal : D → Except GoError GoString) (unmarshal : GoString → T → T × Option GoError)
    (c : Client) (method endpoint : GoString) (query : Option Unit) (data : Option D)
    (response : Option T) (hc : http.Client) (req : http.Request) (res : http.Response)
    (hsent : (c.Request do_ marshal unmarshal method endpoint query data response).sent = [req])
    (hclient : c.HTTPClient = some hc) (hanswer : do_ hc req = .ok res)
    (hcode : res.StatusCode = 200) (hbody : res.Body = .ok []) :
    (c.Request do_ marshal unmarshal method endpoint query data response).outcome =
      .returned none ∧
    (c.Request do_ marshal unmarshal method endpoint query data response).response = response ∧
    (c.Request do_ marshal unmarshal method endpoint query data response).client = c := by
  obtain ⟨hc1, h5, _, _, _, heq⟩ := Request_reached do_ marshal unmarshal c method endpoint query
    data response req hsent
  have : hc1 = hc := by rw [h5] at hclient; exact Option.some.inj hclient
  subst this
  rw [heq, hanswer]
  simp [Client.receive, hcode, hbody]

/-- C7: the request a call of Client.Request hands to the transport has the
header Authorization set to "Bearer " followed by the stored token and the
header Content-Type set to application/json, its payload is the json.Marshal of
the body when one is supplied, and the call leaves the client as it was. -/
theorem Request_outbound {D T : Type} (do_ : http.Transport)
    (marshal : D → Except GoError GoString) (unmarshal : GoString → T → T × Option GoError)
    (c : Client) (method endpoint : GoString) (query : Option Unit) (data : Option D)
    (response : Option T) (req : http.Request)
    (hsent : (c.Request do_ marshal unmarshal method endpoint query data response).sent = [req]) :
    req.getHeader (ascii "Authorization") = some (ascii "Bearer " ++ c.JWT) ∧
    req.getHeader (ascii "Content-Type") = some (ascii "application/json") ∧
    (∀ d, data = some d → marshal d = .ok req.Body) ∧
    (c.Request do_ marshal unmarshal method endpoint query data response).client = c := by
  obtain ⟨hc1, h5, ha, hct, hp, heq⟩ := Request_reached do_ marshal unmarshal c method endpoint
    query data response req hsent
  refine ⟨ha, hct, ?_, ?_⟩
  · intro d hd; subst hd; exact hp
  · rw [heq]; exact (receive_sent _ _ _ _ _).2

/-- C3: for a client with an empty username or an empty password,
authenticate returns the error "username and/or password missing", sends no
request and leaves the client, its token included, as it was; APIClient called
with such credentials starts from an unset token, returns that error and no
client, and sends nothing. -/
theorem authenticate_missing_credentials (do_ : http.Transport) (c : Client)
    (h : c.Username = [] ∨ c.Password = []) :
    (c.authenticate do_).outcome =
      .returned (some (.errorf "username and/or password missing")) ∧
    (c.authenticate do_).sent = [] ∧ (c.authenticate do_).client = c ∧
    ∀ (console_url : GoString) (skip_cert_verification : Bool),
      (newClient console_url c.Username c.Password skip_cert_verification).JWT = [] ∧
      (APIClient do_ console_url c.Username c.Password skip_cert_verification).client = none ∧
      (APIClient do_ console_url c.Username c.Password skip_cert_verification).outcome =
        .returned (some (.errorf "username and/or password missing")) ∧
      (APIClient do_ console_url c.Username c.Password skip_cert_verification).sent = [] := by
  have key : ∀ c1 : Client, (c1.Username = [] ∨ c1.Password = []) →
      c1.authenticate do_ =
        ⟨.returned (some (.errorf "username and/or password missing")), c1, []⟩ := by
    intro c1 h1
    unfold Client.authenticate
    rw [if_neg]
    intro hh
    rcases h1 with h1 | h1
    · exact hh.1 h1
    · exact hh.2 h1
  rw [key c h]
  refine ⟨rfl, rfl, rfl, ?_⟩
  intro console_url skip
  unfold APIClient
  rw [key _ (by simpa [newClient] using h)]
  exact ⟨rfl, rfl, rfl, rfl⟩

/-- When the second half of Request returns no error, the answer had status
200 and a readable body, empty, or decoded without error into the target. -/
theorem receive_ok {T : Type} (unmarshal : GoString → T → T × Option GoError) (c : Client)
    (response : Option T) (req : http.Request) (answer : Except GoError http.Response)
    (hok : (c.receive unmarshal response req answer).outcome = .returned none) :
    ∃ res body, answer = .ok res ∧ res.StatusCode = 200 ∧ res.Body = .ok body ∧
      ((body = [] ∧ (c.receive unmarshal response req answer).response = response) ∨
       (body ≠ [] ∧ ∃ t, response = some t ∧ (unmarshal body t).2 = none ∧
          (c.receive unmarshal response req answer).response = some (unmarshal body t).1)) := by
  cases answer with
  | error e => simp [Client.receive] at hok
  | ok res =>
    by_cases hcode : res.StatusCode = 200
    · cases hb : res.Body with
      | error e => simp [Client.receive, hcode, hb] at hok
      | ok body =>
        refine ⟨res, body, rfl, hcode, hb, ?_⟩
        cases body with
        | nil => left; simp [Client.receive, hcode, hb]
        | cons b bs =>
          right
          refine ⟨by simp, ?_⟩
          cases response with
          | none => simp [Client.receive, hcode, hb] at hok
          | some t =>
            refine ⟨t, rfl, ?_, ?_⟩
            · simpa [Client.receive, hcode, hb] using hok
            · simp [Client.receive, hcode, hb]
    · simp [Client.receive, hcode] at hok

/-- C5, as amended: for a non-empty username and password, when authenticate
returns no error the login request was sent and answered with status 200 and a
readable body, a non-empty body decoded without error, and the stored token is
the token field decoded from that body into a fresh AuthResponse, the empty
string when the body is empty.  The token is not checked for emptiness. -/
theorem authenticate_success_token (do_ : http.Transport) (c : Client)
    (_hu : c.Username ≠ []) (_hp : c.Password ≠ [])
    (hok : (c.authenticate do_).outcome = .returned none) :
    ∃ hc req res body, c.HTTPClient = some hc ∧ (c.authenticate do_).sent = [req] ∧
      do_ hc req = .ok res ∧ res.StatusCode = 200 ∧ res.Body = .ok body ∧
      (body ≠ [] → (json.Unmarshal decAuthResponse body {}).2 = none) ∧
      (c.authenticate do_).client =
        { c with JWT :=
            if body = [] then [] else (json.Unmarshal decAuthResponse body {}).1.Token } := by
  unfold Client.authenticate at hok ⊢
  by_cases hcred : c.Username ≠ [] ∧ c.Password ≠ []
  · rw [if_pos hcred] at hok ⊢
    generalize hr : c.Request do_ (fun a => Except.ok (marshalAuthRequest a))
      (json.Unmarshal decAuthResponse) (ascii "POST") (ascii "/api/v1/authenticate") none
      (some (⟨c.Username, c.Password⟩ : AuthRequest)) (some ({} : AuthResponse)) = r at hok ⊢
    have hro : r.outcome = .returned none := by
      revert hok
      dsimp only
      cases r.outcome with
      | panicked => intro h; simp at h
      | returned e =>
        cases e with
        | none => intro _; rfl
        | some e => intro h; simp at h
    obtain ⟨req, hsent⟩ := Request_ok_sent _ _ _ _ _ _ _ _ _ (hr ▸ hro)
    obtain ⟨hc, h5, _, _, _, heq⟩ := Request_reached _ _ _ _ _ _ _ _ _ req hsent
    rw [hr] at heq hsent
    obtain ⟨res, body, hans, hcode, hbody, hcases⟩ := receive_ok _ _ _ _ _ (heq ▸ hro)
    refine ⟨hc, req, res, body, h5, ?_, hans, hcode, hbody, ?_, ?_⟩
    · simp only [hro]; exact hsent
    · intro hne
      rcases hcases with ⟨he, _⟩ | ⟨_, t, ht, hu, _⟩
      · exact absurd he hne
      · cases ht; exact hu
    · have hcl : r.client = c := by rw [heq]; exact (receive_sent _ _ _ _ _).2
      simp only [hro, hcl]
      rcases hcases with ⟨he, hresp⟩ | ⟨hne, t, ht, _, hresp⟩
      · rw [← heq] at hresp
        simp [he, hresp]
      · cases ht
        rw [← heq] at hresp
        simp [hne, hresp]
  · rw [if_neg hcred] at hok
    simp at hok

/-- C5 fails as stated: a login answered with status 200 and an empty body
makes authenticate return no error and store the empty token; so do the bodies
"{}", an object without a token field, and "{"token":""}", an empty token. -/
theorem authenticate_empty_token :
    (¬ ∀ (do_ : http.Transport) (c : Client), c.Username ≠ [] → c.Password ≠ [] →
      (c.authenticate do_).outcome = .returned none → (c.authenticate do_).client.JWT ≠ []) ∧
    (∀ body ∈ [[], ascii "\x7b\x7d", ascii "\x7b\"token\":\"\"\x7d"],
      (({ sampleClient with JWT := [] } : Client).authenticate
          (http.answering 200 body)).outcome = .returned none ∧
      (({ sampleClient with JWT := [] } : Client).authenticate
          (http.answering 200 body)).client.JWT = []) := by
  constructor
  · intro h
    exact h (http.answering 200 []) { sampleClient with JWT := [] } (by decide) (by decide)
      (by decide) (by decide)
  · decide

/-- C9: for the method "GET POST" http.NewRequest returns an invalid-method
error, and Client.Request does not return it: it goes on to set a header on
the request that was not built, and panics. -/
theorem Request_invalid_method :
    http.NewRequest (ascii "GET POST") (ascii "https://console.example.com/api/v1/groups") [] =
      .error (.invalidMethod (ascii "GET POST")) ∧
    (sampleClient.Request (http.answering 200 []) auth.noMarshal auth.noUnmarshal
      (ascii "GET POST") auth.GroupsEndpoint none none auth.noTarget).outcome = .panicked :=
  ⟨rfl, rfl⟩

/-- A call of Request with a nil response target that returns no error has
sent one request, which the transport answered with status 200 and an empty
body. -/
theorem Request_nil_ok {D T : Type} (do_ : http.Transport)
    (marshal : D → Except GoError GoString) (unmarshal : GoString → T → T × Option GoError)
    (c : Client) (method endpoint : GoString) (query : Option Unit) (data : Option D)
    (hok : (c.Request do_ marshal unmarshal method endpoint query data (none : Option T)).outcome =
      .returned none) :
    ∃ hc req res, c.HTTPClient = some hc ∧
      (c.Request do_ marshal unmarshal method endpoint query data (none : Option T)).sent =
        [req] ∧
      do_ hc req = .ok res ∧ res.StatusCode = 200 ∧ res.Body = .ok [] := by
  obtain ⟨req, hsent⟩ := Request_ok_sent do_ marshal unmarshal c method endpoint query data
    none hok
  obtain ⟨hc, h5, _, _, _, heq⟩ := Request_reached do_ marshal unmarshal c method endpoint
    query data none req hsent
  rw [heq] at hok
  obtain ⟨res, body, ha, hcode, hb, hcases⟩ := receive_ok unmarshal c none req _ hok
  refine ⟨hc, req, res, h5, hsent, ha, hcode, ?_⟩
  rcases hcases with ⟨h, _⟩ | ⟨_, t, ht, _⟩
  · rw [hb, h]
  · exact absurd ht (by simp)

/-- C10: when a request made with a nil response target is answered with
status 200, Client.Request returns no error exactly when the body is empty; for
a non-empty body it returns an error and the target stays nil.  CreateGroup,
UpdateGroup, DeleteGroup and UpdateRegistrySettings pass a nil target: each
returns no error only if it sent one request and that request was answered with
status 200 and an empty body, so none of them returns no error when every
answer is 200 with a non-empty body. -/
theorem Request_nil_target (do_ : http.Transport) (c : Client) (hc : http.Client)
    (req : http.Request) (res : http.Response) (body : GoString)
    (hclient : c.HTTPClient = some hc) (hanswer : do_ hc req = .ok res)
    (hcode : res.StatusCode = 200) (hbody : res.Body = .ok body) :
    (∀ (D T : Type) (marshal : D → Except GoError GoString)
        (unmarshal : GoString → T → T × Option GoError) (method endpoint : GoString)
        (query : Option Unit) (data : Option D),
        (c.Request do_ marshal unmarshal method endpoint query data (none : Option T)).sent =
          [req] →
        ((c.Request do_ marshal unmarshal method endpoint query data (none : Option T)).outcome =
            .returned none ↔ body = []) ∧
        (body ≠ [] →
          ∃ err,
            (c.Request do_ marshal unmarshal method endpoint query data
              (none : Option T)).outcome = .returned (some err)) ∧
        (c.Request do_ marshal unmarshal method endpoint query data (none : Option T)).response =
          none) ∧
    (∀ group, (auth.CreateGroup do_ c group).outcome = .returned none →
        ∃ hc1 req1 res1, c.HTTPClient = some hc1 ∧ (auth.CreateGroup do_ c group).sent = [req1] ∧
          do_ hc1 req1 = .ok res1 ∧ res1.StatusCode = 200 ∧ res1.Body = .ok []) ∧
    (∀ group, (auth.UpdateGroup do_ c group).outcome = .returned none →
        ∃ hc1 req1 res1, c.HTTPClient = some hc1 ∧ (auth.UpdateGroup do_ c group).sent = [req1] ∧
          do_ hc1 req1 = .ok res1 ∧ res1.StatusCode = 200 ∧ res1.Body = .ok []) ∧
    (∀ name, (auth.DeleteGroup do_ c name).outcome = .returned none →
        ∃ hc1 req1 res1, c.HTTPClient = some hc1 ∧ (auth.DeleteGroup do_ c name).sent = [req1] ∧
          do_ hc1 req1 = .ok res1 ∧ res1.StatusCode = 200 ∧ res1.Body = .ok []) ∧
    (∀ registry, (settings.UpdateRegistrySettings do_ c registry).outcome = .returned none →
        ∃ hc1 req1 res1, c.HTTPClient = some hc1 ∧
          (settings.UpdateRegistrySettings do_ c registry).sent = [req1] ∧
          do_ hc1 req1 = .ok res1 ∧ res1.StatusCode = 200 ∧ res1.Body = .ok []) ∧
    (∀ (c1 : Client) (b : GoString), b ≠ [] →
        (∀ group, (auth.CreateGroup (http.answering 200 b) c1 group).outcome ≠ .returned none) ∧
        (∀ group, (auth.UpdateGroup (http.answering 200 b) c1 group).outcome ≠ .returned none) ∧
        (∀ name, (auth.DeleteGroup (http.answering 200 b) c1 name).outcome ≠ .returned none) ∧
        (∀ registry, (settings.UpdateRegistrySettings (http.answering 200 b) c1 registry).outcome ≠
          .returned none)) := by
  have key : ∀ (D T : Type) (marshal : D → Except GoError GoString)
        (unmarshal : GoString → T → T × Option GoError) (method endpoint : GoString)
        (query : Option Unit) (data : Option D),
        (c.Request do_ marshal unmarshal method endpoint query data (none : Option T)).sent =
          [req] →
        ((c.Request do_ marshal unmarshal method endpoint query data (none : Option T)).outcome =
            .returned none ↔ body = []) ∧
        (body ≠ [] →
          ∃ err,
            (c.Request do_ marshal unmarshal method endpoint query data
              (none : Option T)).outcome = .returned (some err)) ∧
        (c.Request do_ marshal unmarshal method endpoint query data (none : Option T)).response =
          none := by
    intro D T marshal unmarshal method endpoint query data hsent
    obtain ⟨hc1, h5, _, _, _, heq⟩ := Request_reached do_ marshal unmarshal c method endpoint
      query data none req hsent
    have : hc1 = hc := by rw [h5] at hclient; exact Option.some.inj hclient
    subst this
    rw [heq, hanswer]
    cases body with
    | nil => simp [Client.receive, hcode, hbody]
    | cons b bs => simp [Client.receive, hcode, hbody]
  have answered : ∀ (b : GoString), b ≠ [] → ∀ (hc1 : http.Client) (req1 : http.Request)
      (res1 : http.Response), http.answering 200 b hc1 req1 = .ok res1 →
      res1.Body = .ok [] → False := by
    intro b hb hc1 req1 res1 h1 h2
    simp only [http.answering, Except.ok.injEq] at h1
    subst h1
    simp only [Except.ok.injEq] at h2
    exact hb h2
  refine ⟨key, ?_, ?_, ?_, ?_, ?_⟩
  · intro g hok; exact Request_nil_ok _ _ _ _ _ _ _ _ hok
  · intro g hok; exact Request_nil_ok _ _ _ _ _ _ _ _ hok
  · intro g hok; exact Request_nil_ok _ _ _ _ _ _ _ _ hok
  · intro g hok; exact Request_nil_ok _ _ _ _ _ _ _ _ hok
  · intro c1 b hb
    refine ⟨?_, ?_, ?_, ?_⟩
    · intro g hok
      obtain ⟨hc1, req1, res1, _, _, h1, _, h2⟩ := Request_nil_ok _ _ _ _ _ _ _ _ hok
      exact answered b hb hc1 req1 res1 h1 h2
    · intro g hok
      obtain ⟨hc1, req1, res1, _, _, h1, _, h2⟩ := Request_nil_ok _ _ _ _ _ _ _ _ hok
      exact answered b hb hc1 req1 res1 h1 h2
    · intro g hok
      obtain ⟨hc1, req1, res1, _, _, h1, _, h2⟩ := Request_nil_ok _ _ _ _ _ _ _ _ hok
      exact answered b hb hc1 req1 res1 h1 h2
    · intro g hok
      obtain ⟨hc1, req1, res1, _, _, h1, _, h2⟩ := Request_nil_ok _ _ _ _ _ _ _ _ hok
      exact answered b hb hc1 req1 res1 h1 h2

/-- Decoding what EncodeRune wrote gives the rune back, with its width. -/
theorem utf8.DecodeRune_EncodeRune (r : Nat) (h : utf8.isScalar r = true) (tail : GoString) :
    utf8.DecodeRune (utf8.EncodeRune r ++ tail) = (r, (utf8.EncodeRune r).length) := by
  simp only [utf8.isScalar, Bool.or_eq_true, Bool.and_eq_true, decide_eq_true_eq] at h
  unfold utf8.EncodeRune
  by_cases h1 : r < 128
  · simp [h1, utf8.DecodeRune]
  · by_cases h2 : r < 2048
    · have ha : 194 ≤ 192 + r / 64 ∧ 192 + r / 64 ≤ 223 := by omega
      have hb : utf8.isCont (128 + r % 64) = true := by simp [utf8.isCont]; omega
      have hc : ¬ (192 + r / 64 < 128) := by omega
      simp only [h1, h2, if_false, if_true, List.cons_append, List.nil_append, utf8.DecodeRune,
        hc, ha, and_self, hb, List.length_cons, List.length_nil]
      congr 1
      omega
    · have h3 : ¬ (1114111 < r ∨ (55296 ≤ r ∧ r ≤ 57343)) := by omega
      by_cases h4 : r < 65536
      · have ha : 224 ≤ 224 + r / 4096 ∧ 224 + r / 4096 ≤ 239 := by omega
        have hc : ¬ (224 + r / 4096 < 128) := by omega
        have hd : ¬ (194 ≤ 224 + r / 4096 ∧ 224 + r / 4096 ≤ 223) := by omega
        have hb : utf8.isCont (128 + r % 64) = true := by simp [utf8.isCont]; omega
        have he : (if 224 + r / 4096 = 224 then 160 else 128) ≤ 128 + r / 64 % 64 ∧
            128 + r / 64 % 64 ≤ (if 224 + r / 4096 = 237 then 159 else 191) := by
          split_ifs <;> omega
        simp only [h1, h2, h3, h4, if_false, if_true, List.cons_append, List.nil_append,
          utf8.DecodeRune, hc, hd, ha, and_self, hb, he, List.length_cons, List.length_nil]
        congr 1
        omega
      · have ha : 240 ≤ 240 + r / 262144 ∧ 240 + r / 262144 ≤ 244 := by omega
        have hc : ¬ (240 + r / 262144 < 128) := by omega
        have hd : ¬ (194 ≤ 240 + r / 262144 ∧ 240 + r / 262144 ≤ 223) := by omega
        have hd2 : ¬ (224 ≤ 240 + r / 262144 ∧ 240 + r / 262144 ≤ 239) := by omega
        have hb : utf8.isCont (128 + r % 64) = true := by simp [utf8.isCont]; omega
        have hb2 : utf8.isCont (128 + r / 64 % 64) = true := by simp [utf8.isCont]; omega
        have he : (if 240 + r / 262144 = 240 then 144 else 128) ≤ 128 + r / 4096 % 64 ∧
            128 + r / 4096 % 64 ≤ (if 240 + r / 262144 = 244 then 143 else 191) := by
          split_ifs <;> omega
        simp only [h1, h2, h3, h4, if_false, if_true, List.cons_append, List.nil_append,
          utf8.DecodeRune, hc, hd, hd2, ha, and_self, hb, hb2, he, List.length_cons,
          List.length_nil]
        congr 1
        omega

/-- The encoding of a rune from 128 on starts with a byte from 128 on and has
at least two bytes. -/
theorem utf8.EncodeRune_head (r : Nat) (h : 128 ≤ r) :
    ∃ b bs, utf8.EncodeRune r = b :: bs ∧ 128 ≤ b ∧ bs ≠ [] := by
  unfold utf8.EncodeRune
  split_ifs
  · omega
  · exact ⟨_, _, rfl, by omega, by simp⟩
  · exact ⟨_, _, rfl, by omega, by simp⟩
  · exact ⟨_, _, rfl, by omega, by simp⟩
  · exact ⟨_, _, rfl, by omega, by simp⟩

/-- The encoding of a rune is not empty. -/
theorem utf8.EncodeRune_length_pos (r : Nat) : 0 < (utf8.EncodeRune r).length := by
  unfold utf8.EncodeRune
  split_ifs <;> simp

/-- What appendString writes for a rune is not empty. -/
theorem json.escapeRune_length_pos (r : Nat) : 0 < (json.escapeRune r).length := by
  unfold json.escapeRune json.escapeASCII
  split_ifs <;> simp [utf8.EncodeRune_length_pos]

/-- The loop of appendString on a valid string writes, rune by rune, what
escapeRune says. -/
theorem json.appendStringFrom_valid (rs : List Nat) (h : ∀ r ∈ rs, utf8.isScalar r = true) :
    ∀ fuel, rs.length ≤ fuel →
      json.appendStringFrom fuel (utf8.encodeAll rs) = rs.flatMap json.escapeRune := by
  induction rs with
  | nil => intro fuel _; cases fuel <;> rfl
  | cons r rs ih =>
    intro fuel hf
    have hr := h r (List.mem_cons_self _ _)
    have ih' := ih (fun x hx => h x (List.mem_cons_of_mem _ hx))
    cases fuel with
    | zero => simp at hf
    | succ f =>
      have hf' : rs.length ≤ f := by simpa using hf
      simp only [utf8.encodeAll, List.flatMap_cons] at ih' ⊢
      by_cases h1 : r < 128
      · have he : utf8.EncodeRune r = [r] := by simp [utf8.EncodeRune, h1]
        rw [he, List.singleton_append]
        simp only [json.appendStringFrom, h1, if_true, json.escapeRune]
        rw [ih' f hf']
      · obtain ⟨b, bs, hb, hb128, hbs⟩ := utf8.EncodeRune_head r (by omega)
        have hd := utf8.DecodeRune_EncodeRune r hr (List.flatMap rs utf8.EncodeRune)
        rw [hb] at hd ⊢
        have hlen : 2 ≤ (b :: bs).length := by
          cases bs with
          | nil => exact absurd rfl hbs
          | cons _ _ => simp
        have hnb : ¬ b < 128 := by omega
        simp only [List.cons_append] at hd ⊢
        simp only [json.appendStringFrom, hnb, if_false, hd]
        have hne : ¬ (r = utf8.RuneError ∧ (b :: bs).length = 1) := by
          intro hh; omega
        rw [if_neg hne]
        have hdrop : List.drop (b :: bs).length (b :: (bs ++ List.flatMap rs utf8.EncodeRune)) =
            List.flatMap rs utf8.EncodeRune := by
          rw [← List.cons_append, List.drop_left]
        have htake : List.take (b :: bs).length (b :: (bs ++ List.flatMap rs utf8.EncodeRune)) =
            b :: bs := by
          rw [← List.cons_append, List.take_left]
        rw [hdrop, htake, ih' f hf']
        by_cases h2 : r = 8232 ∨ r = 8233
        · simp [h2, json.escapeRune, h1]
        · simp [h2, json.escapeRune, h1, hb]

/-- Reading back a hexadecimal digit. -/
theorem json.hexVal_hex (n : Nat) (h : n < 16) : json.hexVal (json.hex n) = some n := by
  interval_cases n <;> rfl

/-- One round of unquote on what appendString wrote for a rune. -/
theorem json.unquoteFrom_escapeRune (r : Nat) (hr : utf8.isScalar r = true) (f : Nat)
    (tail : GoString) :
    json.unquoteFrom (f + 1) (json.escapeRune r ++ tail) =
      (json.unquoteFrom f tail).map fun p => (utf8.EncodeRune r ++ p.1, p.2) := by
  have hu : ∀ b : Nat, b < 128 →
      json.getu4 (92 :: 117 :: 48 :: 48 :: json.hex (b / 16) :: json.hex (b % 16) :: tail) =
        some (b, tail) := by
    intro b hb
    have h1 := json.hexVal_hex (b / 16) (by omega)
    have h2 := json.hexVal_hex (b % 16) (by omega)
    have h0 : json.hexVal 48 = some 0 := rfl
    simp only [json.getu4, h0, h1, h2]
    congr 2
    omega
  by_cases h1 : r < 128
  · have he : utf8.EncodeRune r = [r] := by simp [utf8.EncodeRune, h1]
    have hns : json.isSurrogate r = false := by simp [json.isSurrogate]; omega
    simp only [json.escapeRune, h1, if_true, json.escapeASCII, he]
    split_ifs with c1 c2 c3 c4 c5 c6 c7
    · rcases c1 with c1 | c1 <;> subst c1 <;> simp [json.unquoteFrom]
    · subst c2; simp [json.unquoteFrom]
    · subst c3; simp [json.unquoteFrom]
    · subst c4; simp [json.unquoteFrom]
    · subst c5; simp [json.unquoteFrom]
    · subst c6; simp [json.unquoteFrom]
    · show json.unquoteFrom (f + 1)
          (92 :: 117 :: 48 :: 48 :: json.hex (r / 16) :: json.hex (r % 16) :: tail) = _
      rw [json.unquoteFrom]
      simp only [hu r h1]
      simp [hns, he]
    · have c8 : ¬ r < 32 := by omega
      have c9 : r ≠ 34 ∧ r ≠ 92 := by omega
      simp [json.unquoteFrom, c8, c9.1, c9.2, h1]
  · simp only [json.escapeRune, h1, if_false]
    by_cases h2 : r = 8232 ∨ r = 8233
    · rcases h2 with h2 | h2 <;> subst h2 <;> rfl
    · obtain ⟨b, bs, hb, hb128, _⟩ := utf8.EncodeRune_head r (by omega)
      have hd := utf8.DecodeRune_EncodeRune r hr tail
      rw [if_neg h2]
      rw [hb] at hd ⊢
      have c1 : b ≠ 34 ∧ b ≠ 92 ∧ ¬ b < 32 ∧ ¬ b < 128 := by omega
      simp only [List.cons_append] at hd ⊢
      simp only [json.unquoteFrom, c1.1, c1.2.1, c1.2.2.1, c1.2.2.2, if_false, hd]
      have hdrop : List.drop (b :: bs).length (b :: (bs ++ tail)) = tail := by
        rw [← List.cons_append, List.drop_left]
      rw [hdrop, hb]
      rfl

/-- Unquote reads back what appendString wrote for a valid string, up to the
closing quote. -/
theorem json.unquoteFrom_valid (rs : List Nat) (h : ∀ r ∈ rs, utf8.isScalar r = true)
    (rest : GoString) :
    ∀ fuel, rs.length < fuel →
      json.unquoteFrom fuel (rs.flatMap json.escapeRune ++ 34 :: rest) =
        some (utf8.encodeAll rs, rest) := by
  induction rs with
  | nil =>
    intro fuel hf
    cases fuel with
    | zero => simp at hf
    | succ f => simp [json.unquoteFrom, utf8.encodeAll]
  | cons r rs ih =>
    intro fuel hf
    cases fuel with
    | zero => simp at hf
    | succ f =>
      have hf' : rs.length < f := by simpa using hf
      rw [List.flatMap_cons, List.append_assoc,
        json.unquoteFrom_escapeRune r (h r (List.mem_cons_self _ _)),
        ih (fun x hx => h x (List.mem_cons_of_mem _ hx)) f hf']
      simp [utf8.encodeAll]

/-- A string literal written by appendString for a valid string is read back
as that string. -/
theorem json.scanString_appendString (s : GoString) (hs : utf8.Valid s) (rest : GoString) :
    ∃ body, json.appendString s ++ rest = 34 :: body ∧ json.scanString body = some (s, rest) := by
  obtain ⟨rs, hrs, rfl⟩ := hs
  refine ⟨rs.flatMap json.escapeRune ++ 34 :: rest, ?_, ?_⟩
  · have hlen : rs.length ≤ (utf8.encodeAll rs).length := by
      clear hrs
      induction rs with
      | nil => simp
      | cons r rs ih =>
        have := utf8.EncodeRune_length_pos r
        simp only [utf8.encodeAll, List.flatMap_cons, List.length_append, List.length_cons] at ih ⊢
        omega
    simp [json.appendString, json.appendStringFrom_valid rs hrs _ hlen]
  · unfold json.scanString
    apply json.unquoteFrom_valid rs hrs
    have hlen : rs.length ≤ (rs.flatMap json.escapeRune).length := by
      clear hrs
      induction rs with
      | nil => simp
      | cons r rs ih =>
        have := json.escapeRune_length_pos r
        simp only [List.flatMap_cons, List.length_append, List.length_cons] at ih ⊢
        omega
    simp only [List.length_append, List.length_cons]
    omega

/-- The digits formatNatFrom writes: all decimal, not empty, without a leading
zero unless the number is zero, and with the number as their value. -/
theorem json.formatNatFrom_spec : ∀ (fuel n : Nat) (acc : GoString), n ≤ fuel →
    ∃ ds : GoString, json.formatNatFrom fuel n acc = ds ++ acc ∧ ds ≠ [] ∧
      ds.all isDigit = true ∧ ds.foldl (fun a c => a * 10 + (c - 48)) 0 = n ∧
      (ds.head? = some 48 → ds = [48]) := by
  intro fuel
  induction fuel with
  | zero =>
    intro n acc hn
    have : n = 0 := by omega
    subst this
    exact ⟨[48], rfl, by simp, by decide, by simp, fun _ => rfl⟩
  | succ f ih =>
    intro n acc hn
    by_cases h : n < 10
    · refine ⟨[48 + n], by simp [json.formatNatFrom, h], by simp, ?_, by simp, ?_⟩
      · simp [isDigit]; omega
      · intro hh
        have : 48 + n = 48 := by simpa using hh
        have : n = 0 := by omega
        subst this; rfl
    · obtain ⟨ds, h1, h2, h3, h4, h5⟩ := ih (n / 10) ((48 + n % 10) :: acc) (by omega)
      refine ⟨ds ++ [48 + n % 10], ?_, by simp, ?_, ?_, ?_⟩
      · simp [json.formatNatFrom, h, h1]
      · simp only [List.all_append, h3, Bool.true_and, List.all_cons, List.all_nil, Bool.and_true]
        simp [isDigit]; omega
      · simp only [List.foldl_append, h4, List.foldl_cons, List.foldl_nil]
        omega
      · intro hh
        cases ds with
        | nil => exact absurd rfl h2
        | cons d ds' =>
          have hd : d = 48 := by simpa using hh
          subst hd
          have h6 := h5 rfl
          rw [h6] at h4
          simp at h4
          omega

/-- The leading digits of a run of digits followed by something that is not a
digit. -/
theorem json.spanDigits_append (ds rest : GoString) (hds : ds.all isDigit = true)
    (hrest : ∀ c r, rest = c :: r → isDigit c = false) :
    json.spanDigits (ds ++ rest) = (ds, rest) := by
  induction ds with
  | nil =>
    cases rest with
    | nil => rfl
    | cons c r => simp [json.spanDigits, hrest c r rfl]
  | cons d ds ih =>
    simp only [List.all_cons, Bool.and_eq_true] at hds
    simp [json.spanDigits, hds.1, ih hds.2]

/-- What can follow a value is no part of a number. -/
theorem json.Delim.not_number {rest : GoString} (h : json.Delim rest) :
    (∀ c r, rest = c :: r → isDigit c = false) ∧ rest.head? ≠ some 46 ∧
      (∀ c r, rest = c :: r → c ≠ 101 ∧ c ≠ 69) := by
  rcases h with h | ⟨c, r, h, hc⟩
  · subst h; simp
  · subst h
    refine ⟨?_, ?_, ?_⟩
    · intro c1 r1 h1
      cases h1
      rcases hc with hc | hc | hc <;> subst hc <;> rfl
    · rcases hc with hc | hc | hc <;> subst hc <;> simp
    · intro c1 r1 h1
      cases h1
      omega

/-- The shape of what formatInt writes. -/
theorem json.formatInt_spec (i : Int) :
    ∃ ds : GoString, json.formatInt i = (if i < 0 then [45] else []) ++ ds ∧ ds ≠ [] ∧
      ds.all isDigit = true ∧ ds.foldl (fun a c => a * 10 + (c - 48)) 0 = i.natAbs ∧
      (ds.head? = some 48 → ds = [48]) := by
  obtain ⟨ds, h1, h2, h3, h4, h5⟩ := json.formatNatFrom_spec i.natAbs i.natAbs [] (le_refl _)
  refine ⟨ds, ?_, h2, h3, h4, h5⟩
  unfold json.formatInt
  split_ifs <;> simp [h1]

/-- The scanner reads a number written by formatInt whole. -/
theorem json.scanNumber_formatInt (i : Int) (rest : GoString) (hrest : json.Delim rest) :
    json.scanNumber (json.formatInt i ++ rest) = some (json.formatInt i, rest) := by
  obtain ⟨ds, h1, h2, h3, h4, h5⟩ := json.formatInt_spec i
  obtain ⟨hr1, hr2, hr3⟩ := hrest.not_number
  rw [h1]
  cases ds with
  | nil => exact absurd rfl h2
  | cons d ds' =>
    simp only [List.all_cons, Bool.and_eq_true] at h3
    have hd45 : d ≠ 45 := by
      have := h3.1
      simp [isDigit] at this
      omega
    have hspan := json.spanDigits_append ds' rest h3.2 hr1
    have key : json.scanNumber (d :: ds' ++ rest) = some (d :: ds', rest) ∧
        json.scanNumber (45 :: (d :: ds' ++ rest)) = some (45 :: d :: ds', rest) := by
      by_cases hz : d = 48
      · subst hz
        have := h5 rfl
        simp only [List.cons.injEq, true_and] at this
        subst this
        cases rest with
        | nil => exact ⟨rfl, rfl⟩
        | cons c r =>
          have hc := hr3 c r rfl
          have hc2 : c ≠ 46 := by simpa using hr2
          simp [json.scanNumber, isDigit, hc.1, hc.2, hc2]
      · cases rest with
        | nil =>
          simp only [List.append_nil] at hspan ⊢
          simp [json.scanNumber, h3.1, hz, hspan, hd45]
        | cons c r =>
          have hc := hr3 c r rfl
          have hc2 : c ≠ 46 := by simpa using hr2
          simp [json.scanNumber, h3.1, hz, hspan, hd45, hc.1, hc.2, hc2]
    split_ifs
    · simpa using key.2
    · simpa using key.1

/-- ParseInt reads back what formatInt wrote, for a 64-bit int. -/
theorem json.ParseInt_formatInt (i : Int) (hi : json.isInt64 i) :
    json.ParseInt (json.formatInt i) = some i := by
  obtain ⟨ds, h1, h2, h3, h4, h5⟩ := json.formatInt_spec i
  have hp : json.parseDigits ds = some i.natAbs := by
    simp [json.parseDigits, h2, h3, h4]
  cases ds with
  | nil => exact absurd rfl h2
  | cons d ds' =>
    simp only [List.all_cons, Bool.and_eq_true] at h3
    have hd : d ≠ 45 ∧ d ≠ 43 := by
      have := h3.1
      simp [isDigit] at this
      omega
    rw [h1]
    unfold json.isInt64 at hi
    by_cases hneg : i < 0
    · simp only [hneg, if_true, json.ParseInt, List.singleton_append, List.head?_cons,
        List.drop_one, List.tail_cons, true_or, hp]
      have hle : i.natAbs ≤ 2 ^ 63 := by omega
      have hval : -(i.natAbs : Int) = i := by omega
      simp [hle, hval]
      exact ⟨by omega, by rw [abs_of_neg hneg]; omega⟩
    · simp only [hneg, if_false, json.ParseInt, List.nil_append, List.head?_cons]
      have hlt : i.natAbs < 2 ^ 63 := by omega
      have hval : (i.natAbs : Int) = i := by omega
      simp [hd.1, hd.2, hp, hlt, hval]
      omega

/-- ASCII text is valid UTF-8. -/
theorem utf8.Valid_of_ascii (s : GoString) (h : ∀ b ∈ s, b < 128) : utf8.Valid s := by
  refine ⟨s, fun r hr => by simp [utf8.isScalar]; have := h r hr; omega, ?_⟩
  induction s with
  | nil => rfl
  | cons b s ih =>
    have hb : b < 128 := h b (List.mem_cons_self _ _)
    have := ih (fun x hx => h x (List.mem_cons_of_mem _ hx))
    simp only [utf8.encodeAll, List.flatMap_cons] at this ⊢
    rw [← this]
    simp [utf8.EncodeRune, hb]

/-- What can follow a value does not start with whitespace. -/
theorem json.Delim.skipSpace_eq {rest : GoString} (h : json.Delim rest) :
    json.skipSpace rest = rest := by
  rcases h with h | ⟨c, r, h, hc⟩
  · subst h; rfl
  · subst h
    rcases hc with hc | hc | hc <;> subst hc <;> rfl

/-- A string written by appendString is read as that string. -/
theorem json.Scans_string (s : GoString) (hs : utf8.Valid s) :
    json.Scans (json.appendString s) (.str s) 0 := by
  refine ⟨⟨34, _, rfl, by decide, by decide, by decide⟩, ?_⟩
  intro fuel d rest hf _ _
  obtain ⟨body, hb, hscan⟩ := json.scanString_appendString s hs rest
  cases fuel with
  | zero => simp [json.appendString] at hf
  | succ f =>
    rw [hb]
    simp [json.scanValue, json.skipSpace, json.isSpace, hscan]

/-- The text true is read as the boolean true. -/
theorem json.Scans_true : json.Scans (ascii "true") (.bool true) 0 := by
  refine ⟨⟨116, _, rfl, by decide, by decide, by decide⟩, ?_⟩
  intro fuel d rest hf _ _
  cases fuel with
  | zero => simp [ascii] at hf
  | succ f =>
    show json.scanValue (f + 1) d (116 :: 114 :: 117 :: 101 :: rest) = _
    simp [json.scanValue, json.skipSpace, json.isSpace, hasPrefix, ascii]

/-- A number written by formatInt is read as a number with that literal. -/
theorem json.Scans_int (i : Int) : json.Scans (json.formatInt i) (.num (json.formatInt i)) 0 := by
  obtain ⟨ds, h1, h2, h3, _, _⟩ := json.formatInt_spec i
  have hhead : ∃ c t, json.formatInt i = c :: t ∧ (c = 45 ∨ isDigit c = true) := by
    rw [h1]
    cases ds with
    | nil => exact absurd rfl h2
    | cons d ds' =>
      simp only [List.all_cons, Bool.and_eq_true] at h3
      split_ifs
      · exact ⟨45, _, rfl, Or.inl rfl⟩
      · exact ⟨d, _, rfl, Or.inr h3.1⟩
  obtain ⟨c, t, hct, hc⟩ := hhead
  have hc' : (c = 45 ∨ (48 ≤ c ∧ c ≤ 57)) := by
    rcases hc with hc | hc
    · exact Or.inl hc
    · right; simpa [isDigit] using hc
  refine ⟨⟨c, t, hct, ?_, by omega, by omega⟩, ?_⟩
  · simp [json.isSpace]; omega
  · intro fuel d rest hf _ hrest
    have hnum := json.scanNumber_formatInt i rest hrest
    cases fuel with
    | zero => simp [hct] at hf
    | succ f =>
      rw [hct] at hnum ⊢
      have hsp : json.isSpace c = false := by simp [json.isSpace]; omega
      have e1 : c ≠ 123 ∧ c ≠ 91 ∧ c ≠ 34 ∧ c ≠ 116 ∧ c ≠ 102 ∧ c ≠ 110 := by omega
      simp only [List.cons_append] at hnum ⊢
      simp [json.scanValue, json.skipSpace, hsp, e1, hasPrefix, ascii, hnum]

/-- The elements of an array written with commas are read one by one. -/
theorem json.scanElems_joinComma (D : Nat) :
    ∀ (texts : List GoString) (js : List json.JVal),
      List.Forall₂ (fun t j => json.Scans t j D) texts js → texts ≠ [] →
      ∀ fuel d rest, (json.joinComma texts).length + 1 ≤ fuel → D ≤ d →
        json.scanElems fuel d (json.joinComma texts ++ 93 :: rest) = some (js, rest) := by
  intro texts js hall
  induction hall with
  | nil => intro h; exact absurd rfl h
  | @cons t j ts js' htj hrest ih =>
    intro _ fuel d rest hf hd
    cases fuel with
    | zero => simp at hf
    | succ f =>
      obtain ⟨⟨c0, t0, ht0, _⟩, hscan⟩ := htj
      cases ts with
      | nil =>
        cases hrest
        simp only [json.joinComma] at hf ⊢
        have h1 := hscan f d (93 :: rest) (by omega) hd (Or.inr ⟨93, rest, rfl, by simp⟩)
        simp [json.scanElems, h1, json.skipSpace, json.isSpace]
      | cons t2 ts' =>
        simp only [json.joinComma, List.length_append, List.length_cons] at hf ⊢
        have hlen : 0 < t.length := by rw [ht0]; simp
        have h1 := hscan f d (44 :: (json.joinComma (t2 :: ts') ++ 93 :: rest)) (by omega) hd
          (Or.inr ⟨44, _, rfl, by simp⟩)
        have h2 := ih (by simp) f d rest (by omega) hd
        simp only [List.append_assoc, List.cons_append]
        simp [json.scanElems, h1, json.skipSpace, json.isSpace, h2]

/-- An array written from texts that are read as values is read as the array
of those values. -/
theorem json.Scans_array (D : Nat) (texts : List GoString) (js : List json.JVal)
    (hall : List.Forall₂ (fun t j => json.Scans t j D) texts js) (hne : texts ≠ []) :
    json.Scans (json.encodeArray texts) (.arr js) (D + 1) := by
  refine ⟨⟨91, _, rfl, by decide, by decide, by decide⟩, ?_⟩
  intro fuel d rest hf hd _
  cases fuel with
  | zero => simp [json.encodeArray] at hf
  | succ f =>
    cases d with
    | zero => omega
    | succ d' =>
      have hfirst : ∃ c t, json.joinComma texts ++ 93 :: rest = c :: t ∧
          json.isSpace c = false ∧ c ≠ 93 := by
        cases hall with
        | nil => exact absurd rfl hne
        | @cons t j ts js' htj _ =>
          obtain ⟨⟨c0, t0, ht0, hs0, h93, _⟩, _⟩ := htj
          subst ht0
          cases ts with
          | nil => exact ⟨c0, _, rfl, hs0, h93⟩
          | cons t2 ts' => exact ⟨c0, _, rfl, hs0, h93⟩
      obtain ⟨c, t, hct, hsp, h93⟩ := hfirst
      have h2 := json.scanElems_joinComma D texts js hall hne f d' rest
        (by simp [json.encodeArray] at hf; omega) (by omega)
      have hsk : json.skipSpace (json.joinComma texts ++ 93 :: rest) = c :: t := by
        rw [hct]; simp [json.skipSpace, hsp]
      have hs91 : json.skipSpace (91 :: (json.joinComma texts ++ 93 :: rest)) =
          91 :: (json.joinComma texts ++ 93 :: rest) := rfl
      have htext : json.encodeArray texts ++ rest =
          91 :: (json.joinComma texts ++ 93 :: rest) := by simp [json.encodeArray]
      rw [htext, json.scanValue, hs91]
      simp only [show (91 : Nat) ≠ 123 by decide, if_false, if_true, hsk, h2]
      split
      · rename_i heq; simp at heq; exact absurd heq.1 h93
      · rfl

/-- The members of an object written with commas are read one by one. -/
theorem json.scanMembers_joinComma (D : Nat) :
    ∀ ms : List json.Member, (∀ m ∈ ms, m.Good D) → ms ≠ [] →
      ∀ fuel d rest, (json.joinComma (ms.map json.Member.text)).length + 1 ≤ fuel → D ≤ d →
        json.scanMembers fuel d (json.joinComma (ms.map json.Member.text) ++ 125 :: rest) =
          some (ms.map json.Member.pair, rest) := by
  intro ms
  induction ms with
  | nil => intro _ h; exact absurd rfl h
  | cons m ms' ih =>
    intro hall _ fuel d rest hf hd
    obtain ⟨hname, ⟨c0, t0, ht0, _⟩, hscan⟩ := hall m (List.mem_cons_self _ _)
    have hall' : ∀ x ∈ ms', x.Good D := fun x hx => hall x (List.mem_cons_of_mem _ hx)
    have hvlen : 0 < m.2.1.length := by rw [ht0]; simp
    have step : ∀ (f : Nat) (tail : GoString), m.2.1.length ≤ f → json.Delim tail →
        json.scanMembers (f + 1) d (m.text ++ tail) =
          (match tail with
            | c :: rest4 =>
              if c = 44 then (json.scanMembers f d rest4).map fun r => (m.pair :: r.1, r.2)
              else if c = 125 then some ([m.pair], rest4)
              else none
            | [] => none) := by
      intro f tail hfl htail
      obtain ⟨body, hb, hbody⟩ := json.scanString_appendString m.1 hname (58 :: (m.2.1 ++ tail))
      have htext : m.text ++ tail = 34 :: body := by
        rw [← hb]; simp [json.Member.text]
      have hv := hscan f d tail hfl hd htail
      rw [htext, json.scanMembers]
      have hs34 : json.skipSpace (34 :: body) = 34 :: body := rfl
      have hs58 : json.skipSpace (58 :: (m.2.1 ++ tail)) = 58 :: (m.2.1 ++ tail) := rfl
      simp only [hs34, hbody, hs58, hv, htail.skipSpace_eq]
      rfl
    cases fuel with
    | zero => simp at hf
    | succ f =>
      cases ms' with
      | nil =>
        simp only [List.map_cons, List.map_nil, json.joinComma] at hf ⊢
        have hl : m.2.1.length ≤ f := by
          simp only [json.Member.text, List.length_append, List.length_cons] at hf
          omega
        rw [step f (125 :: rest) hl (Or.inr ⟨125, rest, rfl, by simp⟩)]
        simp
      | cons m2 ms'' =>
        simp only [List.map_cons, json.joinComma, List.length_append, List.length_cons] at hf ⊢
        have hl : m.2.1.length ≤ f := by
          simp only [json.Member.text, List.length_append, List.length_cons] at hf
          omega
        have hlt : 0 < m.text.length := by simp [json.Member.text]
        have h2 := ih hall' (by simp) f d rest
          (by simp only [List.map_cons]; omega) hd
        simp only [List.append_assoc, List.cons_append]
        rw [step f _ hl (Or.inr ⟨44, _, rfl, by simp⟩)]
        simp only [List.map_cons] at h2
        simp [h2]

/-- An object written from good members is read as the object of those
members. -/
theorem json.Scans_object (D : Nat) (ms : List json.Member) (hall : ∀ m ∈ ms, m.Good D) :
    json.Scans (json.encodeObject (ms.map json.Member.text)) (.obj (ms.map json.Member.pair))
      (D + 1) := by
  refine ⟨⟨123, _, rfl, by decide, by decide, by decide⟩, ?_⟩
  intro fuel d rest hf hd _
  cases fuel with
  | zero => simp [json.encodeObject] at hf
  | succ f =>
    cases d with
    | zero => omega
    | succ d' =>
      have htext : json.encodeObject (ms.map json.Member.text) ++ rest =
          123 :: (json.joinComma (ms.map json.Member.text) ++ 125 :: rest) := by
        simp [json.encodeObject]
      have hs123 : ∀ x : GoString, json.skipSpace (123 :: x) = 123 :: x := fun _ => rfl
      rw [htext, json.scanValue, hs123]
      cases ms with
      | nil =>
        simp [json.joinComma, json.skipSpace, json.isSpace]
      | cons m ms' =>
        have h2 := json.scanMembers_joinComma D (m :: ms') hall (by simp) f d' rest
          (by simp only [List.map_cons]; simp [json.encodeObject] at hf; omega) (by omega)
        have hfirst : ∃ body, json.joinComma ((m :: ms').map json.Member.text) ++ 125 :: rest =
            34 :: body := by
          cases ms' with
          | nil => exact ⟨_, by simp [json.joinComma, json.Member.text, json.appendString]; rfl⟩
          | cons m2 ms'' =>
            exact ⟨_, by simp [json.joinComma, json.Member.text, json.appendString]; rfl⟩
        obtain ⟨body, hbody⟩ := hfirst
        have hsk : json.skipSpace (json.joinComma ((m :: ms').map json.Member.text) ++
            125 :: rest) = 34 :: body := by rw [hbody]; rfl
        simp only [if_true, hsk, h2]
        rfl

/-- A text read at some depth is read at any greater depth. -/
theorem json.Scans.mono {text : GoString} {j : json.JVal} {D D1 : Nat}
    (h : json.Scans text j D) (hD : D ≤ D1) : json.Scans text j D1 :=
  ⟨h.1, fun fuel d rest hf hd hr => h.2 fuel d rest hf (le_trans hD hd) hr⟩

/-- A good member stays good at a greater depth. -/
theorem json.Member.Good.weaken {m : json.Member} {D D1 : Nat} (h : m.Good D) (hD : D ≤ D1) :
    m.Good D1 := ⟨h.1, h.2.mono hD⟩

/-- A text the scanner reads as a value is a JSON text for that value. -/
theorem json.parse_of_Scans {text : GoString} {j : json.JVal} {D : Nat}
    (h : json.Scans text j D) (hD : D ≤ json.maxNestingDepth) : json.parse text = some j := by
  have := h.2 (2 * text.length + 2) json.maxNestingDepth [] (by omega) hD (Or.inl rfl)
  simp only [List.append_nil] at this
  simp [json.parse, this, json.skipSpace]

/-- Unmarshal on a JSON text whose value decodes without a type error. -/
theorem json.Unmarshal_of_parse {α : Type} (d : json.Dec α) (data : GoString) (cur r : α)
    (j : json.JVal) (hp : json.parse data = some j) (hd : d j cur = (r, false)) :
    json.Unmarshal d data cur = (r, none) := by
  simp [json.Unmarshal, hp, hd]

/-- The member an omitempty string field writes. -/
theorem json.omitString_eq (name : String) (s : GoString) :
    json.omitString name s = (json.memString name s).map json.Member.text := by
  unfold json.omitString json.memString
  split_ifs <;> rfl

/-- The member an omitempty bool field writes. -/
theorem json.omitBool_eq (name : String) (b : Bool) :
    json.omitBool name b = (json.memBool name b).map json.Member.text := by
  unfold json.omitBool json.memBool
  split_ifs <;> rfl

/-- The member an omitempty int field writes. -/
theorem json.omitInt_eq (name : String) (i : Int) :
    json.omitInt name i = (json.memInt name i).map json.Member.text := by
  unfold json.omitInt json.memInt
  split_ifs <;> rfl

/-- The member an omitempty slice field writes. -/
theorem json.omitSlice_eq {α : Type} (name : String) (enc : α → GoString)
    (toJ : α → json.JVal) (s : json.Slice α) :
    json.omitSlice name enc s = (json.memSlice name enc toJ s).map json.Member.text := by
  unfold json.omitSlice json.memSlice
  split <;> rfl

/-- The member of a valid string field is read back by the scanner. -/
theorem json.memString_good (name : String) (hname : ∀ b ∈ ascii name, b < 128) (s : GoString)
    (hs : utf8.Valid s) : ∀ m ∈ json.memString name s, m.Good 0 := by
  intro m hm
  unfold json.memString at hm
  split_ifs at hm
  · simp at hm
  · simp only [List.mem_singleton] at hm
    subst hm
    exact ⟨utf8.Valid_of_ascii _ hname, json.Scans_string s hs⟩

/-- The member of a bool field is read back by the scanner. -/
theorem json.memBool_good (name : String) (hname : ∀ b ∈ ascii name, b < 128) (b : Bool) :
    ∀ m ∈ json.memBool name b, m.Good 0 := by
  intro m hm
  unfold json.memBool at hm
  split_ifs at hm
  · simp only [List.mem_singleton] at hm
    subst hm
    exact ⟨utf8.Valid_of_ascii _ hname, json.Scans_true⟩
  · simp at hm

/-- The member of an int field is read back by the scanner. -/
theorem json.memInt_good (name : String) (hname : ∀ b ∈ ascii name, b < 128) (i : Int) :
    ∀ m ∈ json.memInt name i, m.Good 0 := by
  intro m hm
  unfold json.memInt at hm
  split_ifs at hm
  · simp at hm
  · simp only [List.mem_singleton] at hm
    subst hm
    exact ⟨utf8.Valid_of_ascii _ hname, json.Scans_int i⟩

/-- The member of a slice field is read back by the scanner when its elements are. -/
theorem json.memSlice_good {α : Type} (name : String) (hname : ∀ b ∈ ascii name, b < 128)
    (enc : α → GoString) (toJ : α → json.JVal) (s : json.Slice α) (D : Nat)
    (h : ∀ y ∈ s.getD [], json.Scans (enc y) (toJ y) D) :
    ∀ m ∈ json.memSlice name enc toJ s, m.Good (D + 1) := by
  intro m hm
  unfold json.memSlice at hm
  split at hm
  · simp at hm
  · simp at hm
  · rename_i x xs
    simp only [List.mem_singleton] at hm
    subst hm
    refine ⟨utf8.Valid_of_ascii _ hname, json.Scans_array D _ _ ?_ (by simp)⟩
    rw [List.forall₂_map_left_iff, List.forall₂_map_right_iff]
    exact List.forall₂_same.mpr (fun y hy => h y (by simpa using hy))

/-- Folding the decoder over the member of one field: the field ends up with
result when it started empty, under the conditions listed. -/
theorem json.fold_member {α β : Type} (fields : List (json.Field α)) (name : GoString) (acc : α)
    (dec : json.Dec β) (cur : β) (upd : β → α) (ms : List json.Member) (result : β)
    (h0 : upd cur = acc)
    (hstep : ∀ v, json.decMember fields (acc, false) (name, v) =
      (upd (dec v cur).1, (dec v cur).2))
    (hms : (ms = [] ∧ result = cur) ∨
      ∃ vt j, ms = [(name, vt, j)] ∧ dec j cur = (result, false)) :
    List.foldl (json.decMember fields) (acc, false) (ms.map json.Member.pair) =
      (upd result, false) := by
  rcases hms with ⟨h1, h2⟩ | ⟨vt, j, h1, h2⟩
  · subst h1; subst h2; simp [h0]
  · subst h1
    simp [json.Member.pair, hstep, h2]

/-- Decoding the member of a string field into an empty string. -/
theorem json.memString_dec (name : String) (s : GoString) :
    (json.memString name s = [] ∧ s = []) ∨
      ∃ vt j, json.memString name s = [(ascii name, vt, j)] ∧
        json.decString j [] = (s, false) := by
  unfold json.memString
  split_ifs with h
  · exact Or.inl ⟨rfl, h⟩
  · exact Or.inr ⟨_, _, rfl, rfl⟩

/-- Decoding the member of a bool field into false. -/
theorem json.memBool_dec (name : String) (b : Bool) :
    (json.memBool name b = [] ∧ b = false) ∨
      ∃ vt j, json.memBool name b = [(ascii name, vt, j)] ∧
        json.decBool j false = (b, false) := by
  unfold json.memBool
  cases b
  · exact Or.inl ⟨rfl, rfl⟩
  · exact Or.inr ⟨_, _, rfl, rfl⟩

/-- Decoding the member of an int field into zero. -/
theorem json.memInt_dec (name : String) (i : Int) (hi : json.isInt64 i) :
    (json.memInt name i = [] ∧ i = 0) ∨
      ∃ vt j, json.memInt name i = [(ascii name, vt, j)] ∧ json.decInt j 0 = (i, false) := by
  unfold json.memInt
  split_ifs with h
  · exact Or.inl ⟨rfl, h⟩
  · refine Or.inr ⟨_, _, rfl, ?_⟩
    simp [json.decInt, json.ParseInt_formatInt i hi]

/-- Decoding array values into a target without elements decodes each into a
zero element. -/
theorem json.decElems_nil {α : Type} (zero : α) (d : json.Dec α) (js : List json.JVal) :
    json.decElems zero d js [] = js.map fun j => d j zero := by
  induction js with
  | nil => rfl
  | cons j js ih => simp [json.decElems, ih]

/-- Decoding the member of a slice field into nil. -/
theorem json.memSlice_dec {α : Type} (name : String) (enc : α → GoString)
    (toJ : α → json.JVal) (zero : α) (d : json.Dec α) (normE : α → α) (s : json.Slice α)
    (h : ∀ y ∈ s.getD [], d (toJ y) zero = (normE y, false)) :
    (json.memSlice name enc toJ s = [] ∧ json.normSlice normE s = none) ∨
      ∃ vt j, json.memSlice name enc toJ s = [(ascii name, vt, j)] ∧
        json.decSlice zero d j none = (json.normSlice normE s, false) := by
  unfold json.memSlice json.normSlice
  split
  · exact Or.inl ⟨rfl, rfl⟩
  · exact Or.inl ⟨rfl, rfl⟩
  · rename_i x xs
    refine Or.inr ⟨_, _, rfl, ?_⟩
    have h1 : ∀ y ∈ x :: xs, d (toJ y) zero = (normE y, false) := fun y hy => h y (by simpa using hy)
    simp only [json.decSlice, Option.getD_none, json.decElems_nil, List.map_map, List.any_map]
    congr 1
    · congr 1
      apply List.map_congr_left
      intro y hy
      simp [h1 y hy]
    · rw [List.any_eq_false]
      intro y hy
      obtain ⟨z, hz, rfl⟩ := List.mem_map.mp hy
      simp [h1 z hz]

/-- The name a string field contributes. -/
theorem json.memString_names (name : String) (s : GoString) :
    (json.memString name s).map (fun m => m.pair.1) = if s = [] then [] else [ascii name] := by
  unfold json.memString
  split_ifs <;> rfl

/-- The name a bool field contributes. -/
theorem json.memBool_names (name : String) (b : Bool) :
    (json.memBool name b).map (fun m => m.pair.1) = if b = true then [ascii name] else [] := by
  unfold json.memBool
  split_ifs <;> rfl

/-- The name an int field contributes. -/
theorem json.memInt_names (name : String) (i : Int) :
    (json.memInt name i).map (fun m => m.pair.1) = if i = 0 then [] else [ascii name] := by
  unfold json.memInt
  split_ifs <;> rfl

/-- The name a slice field contributes. -/
theorem json.memSlice_names {α : Type} (name : String) (enc : α → GoString)
    (toJ : α → json.JVal) (s : json.Slice α) :
    (json.memSlice name enc toJ s).map (fun m => m.pair.1) =
      if (s.getD []).isEmpty = true then [] else [ascii name] := by
  unfold json.memSlice
  split <;> rfl

/-- What json.Marshal writes for a GroupPermission is the object of its members. -/
theorem auth.GroupPermission_marshal_eq (p : auth.GroupPermission) :
    auth.marshalGroupPermission p = json.encodeObject (p.members.map json.Member.text) := by
  simp only [auth.marshalGroupPermission, auth.GroupPermission.members, List.map_append, List.append_assoc,
    json.omitString_eq, json.omitBool_eq, json.omitInt_eq, json.omitSlice_eq "collections" json.appendString json.JVal.str]

/-- The members of a valid GroupPermission are read back by the scanner. -/
theorem auth.GroupPermission_members_good (p : auth.GroupPermission) (h : p.Valid) : ∀ m ∈ p.members, m.Good 1 := by
  intro m hm
  obtain ⟨h1, h2⟩ := h
  simp only [auth.GroupPermission.members, List.mem_append] at hm
  rcases hm with hm | hm
  · exact (json.memSlice_good "collections" (by decide) json.appendString json.JVal.str p.Collections 0
      (fun y hy => json.Scans_string y (h1 y hy)) m hm).weaken (by omega)
  · exact (json.memString_good "project" (by decide) p.Project h2 m hm).weaken (by omega)

/-- The scanner reads what json.Marshal writes for a valid GroupPermission. -/
theorem auth.GroupPermission_scans (p : auth.GroupPermission) (h : p.Valid) :
    json.Scans (auth.marshalGroupPermission p) p.toJ 2 := by
  rw [auth.GroupPermission_marshal_eq]
  exact json.Scans_object 1 _ (auth.GroupPermission_members_good p h)

/-- Decoding the value written for a valid GroupPermission into a fresh GroupPermission gives it back,
with nil for its empty slices and without a type error. -/
theorem auth.GroupPermission_dec_toJ (p : auth.GroupPermission) (h : p.Valid) :
    auth.decGroupPermission p.toJ {} = (p.norm, false) := by
  obtain ⟨h1, h2⟩ := h
  simp only [auth.decGroupPermission, auth.GroupPermission.toJ, json.decStruct, auth.GroupPermission.members, List.map_append,
    List.foldl_append]
  rw [json.fold_member auth.fieldsGroupPermission (ascii "collections") ({} : auth.GroupPermission) (json.decSlice [] json.decString) none
    (fun t => { Collections := t }) _ (json.normSlice id p.Collections) rfl (fun _ => rfl)
    (json.memSlice_dec "collections" json.appendString json.JVal.str [] json.decString id p.Collections
      (fun _ _ => rfl))]
  rw [json.fold_member auth.fieldsGroupPermission (ascii "project") ({ Collections := (json.normSlice id p.Collections) } : auth.GroupPermission) json.decString []
    (fun t => { Collections := (json.normSlice id p.Collections), Project := t }) _ p.Project rfl (fun _ => rfl)
    (json.memString_dec "project" p.Project)]
  rfl

/-- Decoding the JSON encoding of a valid GroupPermission into a fresh GroupPermission. -/
theorem auth.GroupPermission_roundtrip (p : auth.GroupPermission) (h : p.Valid) :
    json.Unmarshal auth.decGroupPermission (auth.marshalGroupPermission p) {} = (p.norm, none) :=
  json.Unmarshal_of_parse _ _ _ _ _ (json.parse_of_Scans (auth.GroupPermission_scans p h) (by decide))
    (auth.GroupPermission_dec_toJ p h)

/-- The names of the members written for a GroupPermission are the names of its
non-empty fields. -/
theorem auth.GroupPermission_member_names (p : auth.GroupPermission) :
    p.members.map (fun m => m.pair.1) = p.nonEmptyFields := by
  simp only [auth.GroupPermission.members, auth.GroupPermission.nonEmptyFields, List.map_append, json.memString_names,
    json.memBool_names, json.memInt_names, json.memSlice_names]

/-- What json.Marshal writes for a GroupUser is the object of its members. -/
theorem auth.GroupUser_marshal_eq (u : auth.GroupUser) :
    auth.marshalGroupUser u = json.encodeObject (u.members.map json.Member.text) := by
  simp only [auth.marshalGroupUser, auth.GroupUser.members, List.map_append, List.append_assoc,
    json.omitString_eq, json.omitBool_eq, json.omitInt_eq]

/-- The members of a valid GroupUser are read back by the scanner. -/
theorem auth.GroupUser_members_good (u : auth.GroupUser) (h : u.Valid) : ∀ m ∈ u.members, m.Good 0 := by
  intro m hm
  have h1 := h
  simp only [auth.GroupUser.members] at hm
  · exact (json.memString_good "username" (by decide) u.Username h1 m hm).weaken (by omega)

/-- The scanner reads what json.Marshal writes for a valid GroupUser. -/
theorem auth.GroupUser_scans (u : auth.GroupUser) (h : u.Valid) :
    json.Scans (auth.marshalGroupUser u) u.toJ 1 := by
  rw [auth.GroupUser_marshal_eq]
  exact json.Scans_object 0 _ (auth.GroupUser_members_good u h)

/-- Decoding the value written for a valid GroupUser into a fresh GroupUser gives it back,
with nil for its empty slices and without a type error. -/
theorem auth.GroupUser_dec_toJ (u : auth.GroupUser) (h : u.Valid) :
    auth.decGroupUser u.toJ {} = (u.norm, false) := by
  have h1 := h
  simp only [auth.decGroupUser, auth.GroupUser.toJ, json.decStruct, auth.GroupUser.members, List.map_append,
    List.foldl_append]
  rw [json.fold_member auth.fieldsGroupUser (ascii "username") ({} : auth.GroupUser) json.decString []
    (fun t => { Username := t }) _ u.Username rfl (fun _ => rfl)
    (json.memString_dec "username" u.Username)]
  rfl

/-- Decoding the JSON encoding of a valid GroupUser into a fresh GroupUser. -/
theorem auth.GroupUser_roundtrip (u : auth.GroupUser) (h : u.Valid) :
    json.Unmarshal auth.decGroupUser (auth.marshalGroupUser u) {} = (u.norm, none) :=
  json.Unmarshal_of_parse _ _ _ _ _ (json.parse_of_Scans (auth.GroupUser_scans u h) (by decide))
    (auth.GroupUser_dec_toJ u h)

/-- The names of the members written for a GroupUser are the names of its
non-empty fields. -/
theorem auth.GroupUser_member_names (u : auth.GroupUser) :
    u.members.map (fun m => m.pair.1) = u.nonEmptyFields := by
  simp only [auth.GroupUser.members, auth.GroupUser.nonEmptyFields, List.map_append, json.memString_names,
    json.memBool_names, json.memInt_names, json.memSlice_names]

/-- What json.Marshal writes for a RegistrySpecification is the object of its members. -/
theorem settings.RegistrySpecification_marshal_eq (s : settings.RegistrySpecification) :
    settings.marshalRegistrySpecification s = json.encodeObject (s.members.map json.Member.text) := by
  simp only [settings.marshalRegistrySpecification, settings.RegistrySpecification.members, List.map_append, List.append_assoc,
    json.omitString_eq, json.omitBool_eq, json.omitInt_eq, json.omitSlice_eq "collections" json.appendString json.JVal.str, json.omitSlice_eq "excludedRepositories" json.appendString json.JVal.str, json.omitSlice_eq "excludedTags" json.appendString json.JVal.str, json.omitSlice_eq "jfrogRepoTypes" json.appendString json.JVal.str]

/-- The members of a valid RegistrySpecification are read back by the scanner. -/
theorem settings.RegistrySpecification_members_good (s : settings.RegistrySpecification) (h : s.Valid) : ∀ m ∈ s.members, m.Good 1 := by
  intro m hm
  obtain ⟨h1, h2, h3, h4, h5, h6, h7, h8, h9, h10, h11, h12, h13, h14⟩ := h
  simp only [settings.RegistrySpecification.members, List.mem_append] at hm
  rcases hm with hm | hm | hm | hm | hm | hm | hm | hm | hm | hm | hm | hm | hm | hm | hm
  · exact (json.memInt_good "cap" (by decide) s.Cap m hm).weaken (by omega)
  · exact (json.memSlice_good "collections" (by decide) json.appendString json.JVal.str s.Collections 0
      (fun y hy => json.Scans_string y (h2 y hy)) m hm).weaken (by omega)
  · exact (json.memString_good "credentialID" (by decide) s.Credential h3 m hm).weaken (by omega)
  · exact (json.memSlice_good "excludedRepositories" (by decide) json.appendString json.JVal.str s.ExcludedRepositories 0
      (fun y hy => json.Scans_string y (h4 y hy)) m hm).weaken (by omega)
  · exact (json.memSlice_good "excludedTags" (by decide) json.appendString json.JVal.str s.ExcludedTags 0
      (fun y hy => json.Scans_string y (h5 y hy)) m hm).weaken (by omega)
  · exact (json.memBool_good "harborDeploymentSecurity" (by decide) s.HarborDeploymentSecurity m hm).weaken (by omega)
  · exact (json.memSlice_good "jfrogRepoTypes" (by decide) json.appendString json.JVal.str s.JfrogRepoTypes 0
      (fun y hy => json.Scans_string y (h6 y hy)) m hm).weaken (by omega)
  · exact (json.memString_good "namespace" (by decide) s.Namespace h7 m hm).weaken (by omega)
  · exact (json.memString_good "os" (by decide) s.Os h8 m hm).weaken (by omega)
  · exact (json.memString_good "tag" (by decide) s.Tag h9 m hm).weaken (by omega)
  · exact (json.memString_good "registry" (by decide) s.Registry h10 m hm).weaken (by omega)
  · exact (json.memString_good "repository" (by decide) s.Repository h11 m hm).weaken (by omega)
  · exact (json.memInt_good "scanners" (by decide) s.Scanners m hm).weaken (by omega)
  · exact (json.memString_good "version" (by decide) s.Version h13 m hm).weaken (by omega)
  · exact (json.memString_good "versionPattern" (by decide) s.VersionPattern h14 m hm).weaken (by omega)

/-- The scanner reads what json.Marshal writes for a valid RegistrySpecification. -/
theorem settings.RegistrySpecification_scans (s : settings.RegistrySpecification) (h : s.Valid) :
    json.Scans (settings.marshalRegistrySpecification s) s.toJ 2 := by
  rw [settings.RegistrySpecification_marshal_eq]
  exact json.Scans_object 1 _ (settings.RegistrySpecification_members_good s h)

/-- Decoding the value written for a valid RegistrySpecification into a fresh RegistrySpecification gives it back,
with nil for its empty slices and without a type error. -/
theorem settings.RegistrySpecification_dec_toJ (s : settings.RegistrySpecification) (h : s.Valid) :
    settings.decRegistrySpecification s.toJ {} = (s.norm, false) := by
  obtain ⟨h1, h2, h3, h4, h5, h6, h7, h8, h9, h10, h11, h12, h13, h14⟩ := h
  simp only [settings.decRegistrySpecification, settings.RegistrySpecification.toJ, json.decStruct, settings.RegistrySpecification.members, List.map_append,
    List.foldl_append]
  rw [json.fold_member settings.fieldsRegistrySpecification (ascii "cap") ({} : settings.RegistrySpecification) json.decInt 0
    (fun t => { Cap := t }) _ s.Cap rfl (fun _ => rfl)
    (json.memInt_dec "cap" s.Cap h1)]
  rw [json.fold_member settings.fieldsRegistrySpecification (ascii "collections") ({ Cap := s.Cap } : settings.RegistrySpecification) (json.decSlice [] json.decString) none
    (fun t => { Cap := s.Cap, Collections := t }) _ (json.normSlice id s.Collections) rfl (fun _ => rfl)
    (json.memSlice_dec "collections" json.appendString json.JVal.str [] json.decString id s.Collections
      (fun _ _ => rfl))]
  rw [json.fold_member settings.fieldsRegistrySpecification (ascii "credentialID") ({ Cap := s.Cap, Collections := (json.normSlice id s.Collections) } : settings.RegistrySpecification) json.decString []
    (fun t => { Cap := s.Cap, Collections := (json.normSlice id s.Collections), Credential := t }) _ s.Credential rfl (fun _ => rfl)
    (json.memString_dec "credentialID" s.Credential)]
  rw [json.fold_member settings.fieldsRegistrySpecification (ascii "excludedRepositories") ({ Cap := s.Cap, Collections := (json.normSlice id s.Collections), Credential := s.Credential } : settings.RegistrySpecification) (json.decSlice [] json.decString) none
    (fun t => { Cap := s.Cap, Collections := (json.normSlice id s.Collections), Credential := s.Credential, ExcludedRepositories := t }) _ (json.normSlice id s.ExcludedRepositories) rfl (fun _ => rfl)
    (json.memSlice_dec "excludedRepositories" json.appendString json.JVal.str [] json.decString id s.ExcludedRepositories
      (fun _ _ => rfl))]
  rw [json.fold_member settings.fieldsRegistrySpecification (ascii "excludedTags") ({ Cap := s.Cap, Collections := (json.normSlice id s.Collections), Credential := s.Credential, ExcludedRepositories := (json.normSlice id s.ExcludedRepositories) } : settings.RegistrySpecification) (json.decSlice [] json.decString) none
    (fun t => { Cap := s.Cap, Collections := (json.normSlice id s.Collections), Credential := s.Credential, ExcludedRepositories := (json.normSlice id s.ExcludedRepositories), ExcludedTags := t }) _ (json.normSlice id s.ExcludedTags) rfl (fun _ => rfl)
    (json.memSlice_dec "excludedTags" json.appendString json.JVal.str [] json.decString id s.ExcludedTags
      (fun _ _ => rfl))]
  rw [json.fold_member settings.fieldsRegistrySpecification (ascii "harborDeploymentSecurity") ({ Cap := s.Cap, Collections := (json.normSlice id s.Collections), Credential := s.Credential, ExcludedRepositories := (json.normSlice id s.ExcludedRepositories), ExcludedTags := (json.normSlice id s.ExcludedTags) } : settings.RegistrySpecification) json.decBool false
    (fun t => { Cap := s.Cap, Collections := (json.normSlice id s.Collections), Credential := s.Credential, ExcludedRepositories := (json.normSlice id s.ExcludedRepositories), ExcludedTags := (json.normSlice id s.ExcludedTags), HarborDeploymentSecurity := t }) _ s.HarborDeploymentSecurity rfl (fun _ => rfl)
    (json.memBool_dec "harborDeploymentSecurity" s.HarborDeploymentSecurity)]
  rw [json.fold_member settings.fieldsRegistrySpecification (ascii "jfrogRepoTypes") ({ Cap := s.Cap, Collections := (json.normSlice id s.Collections), Credential := s.Credential, ExcludedRepositories := (json.normSlice id s.ExcludedRepositories), ExcludedTags := (json.normSlice id s.ExcludedTags), HarborDeploymentSecurity := s.HarborDeploymentSecurity } : settings.RegistrySpecification) (json.decSlice [] json.decString) none
    (fun t => { Cap := s.Cap, Collections := (json.normSlice id s.Collections), Credential := s.Credential, ExcludedRepositories := (json.normSlice id s.ExcludedRepositories), ExcludedTags := (json.normSlice id s.ExcludedTags), HarborDeploymentSecurity := s.HarborDeploymentSecurity, JfrogRepoTypes := t }) _ (json.normSlice id s.JfrogRepoTypes) rfl (fun _ => rfl)
    (json.memSlice_dec "jfrogRepoTypes" json.appendString json.JVal.str [] json.decString id s.JfrogRepoTypes
      (fun _ _ => rfl))]
  rw [json.fold_member settings.fieldsRegistrySpecification (ascii "namespace") ({ Cap := s.Cap, Collections := (json.normSlice id s.Collections), Credential := s.Credential, ExcludedRepositories := (json.normSlice id s.ExcludedRepositories), ExcludedTags := (json.normSlice id s.ExcludedTags), HarborDeploymentSecurity := s.HarborDeploymentSecurity, JfrogRepoTypes := (json.normSlice id s.JfrogRepoTypes) } : settings.RegistrySpecification) json.decString []
    (fun t => { Cap := s.Cap, Collections := (json.normSlice id s.Collections), Credential := s.Credential, ExcludedRepositories := (json.normSlice id s.ExcludedRepositories), ExcludedTags := (json.normSlice id s.ExcludedTags), HarborDeploymentSecurity := s.HarborDeploymentSecurity, JfrogRepoTypes := (json.normSlice id s.JfrogRepoTypes), Namespace := t }) _ s.Namespace rfl (fun _ => rfl)
    (json.memString_dec "namespace" s.Namespace)]
  rw [json.fold_member settings.fieldsRegistrySpecification (ascii "os") ({ Cap := s.Cap, Collections := (json.normSlice id s.Collections), Credential := s.Credential, ExcludedRepositories := (json.normSlice id s.ExcludedRepositories), ExcludedTags := (json.normSlice id s.ExcludedTags), HarborDeploymentSecurity := s.HarborDeploymentSecurity, JfrogRepoTypes := (json.normSlice id s.JfrogRepoTypes), Namespace := s.Namespace } : settings.RegistrySpecification) json.decString []
    (fun t => { Cap := s.Cap, Collections := (json.normSlice id s.Collections), Credential := s.Credential, ExcludedRepositories := (json.normSlice id s.ExcludedRepositories), ExcludedTags := (json.normSlice id s.ExcludedTags), HarborDeploymentSecurity := s.HarborDeploymentSecurity, JfrogRepoTypes := (json.normSlice id s.JfrogRepoTypes), Namespace := s.Namespace, Os := t }) _ s.Os rfl (fun _ => rfl)
    (json.memString_dec "os" s.Os)]
  rw [json.fold_member settings.fieldsRegistrySpecification (ascii "tag") ({ Cap := s.Cap, Collections := (json.normSlice id s.Collections), Credential := s.Credential, ExcludedRepositories := (json.normSlice id s.ExcludedRepositories), ExcludedTags := (json.normSlice id s.ExcludedTags), HarborDeploymentSecurity := s.HarborDeploymentSecurity, JfrogRepoTypes := (json.normSlice id s.JfrogRepoTypes), Namespace := s.Namespace, Os := s.Os } : settings.RegistrySpecification) json.decString []
    (fun t => { Cap := s.Cap, Collections := (json.normSlice id s.Collections), Credential := s.Credential, ExcludedRepositories := (json.normSlice id s.ExcludedRepositories), ExcludedTags := (json.normSlice id s.ExcludedTags), HarborDeploymentSecurity := s.HarborDeploymentSecurity, JfrogRepoTypes := (json.normSlice id s.JfrogRepoTypes), Namespace := s.Namespace, Os := s.Os, Tag := t }) _ s.Tag rfl (fun _ => rfl)
    (json.memString_dec "tag" s.Tag)]
  rw [json.fold_member settings.fieldsRegistrySpecification (ascii "registry") ({ Cap := s.Cap, Collections := (json.normSlice id s.Collections), Credential := s.Credential, ExcludedRepositories := (json.normSlice id s.ExcludedRepositories), ExcludedTags := (json.normSlice id s.ExcludedTags), HarborDeploymentSecurity := s.HarborDeploymentSecurity, JfrogRepoTypes := (json.normSlice id s.JfrogRepoTypes), Namespace := s.Namespace, Os := s.Os, Tag := s.Tag } : settings.RegistrySpecification) json.decString []
    (fun t => { Cap := s.Cap, Collections := (json.normSlice id s.Collections), Credential := s.Credential, ExcludedRepositories := (json.normSlice id s.ExcludedRepositories), ExcludedTags := (json.normSlice id s.ExcludedTags), HarborDeploymentSecurity := s.HarborDeploymentSecurity, JfrogRepoTypes := (json.normSlice id s.JfrogRepoTypes), Namespace := s.Namespace, Os := s.Os, Tag := s.Tag, Registry := t }) _ s.Registry rfl (fun _ => rfl)
    (json.memString_dec "registry" s.Registry)]
  rw [json.fold_member settings.fieldsRegistrySpecification (ascii "repository") ({ Cap := s.Cap, Collections := (json.normSlice id s.Collections), Credential := s.Credential, ExcludedRepositories := (json.normSlice id s.ExcludedRepositories), ExcludedTags := (json.normSlice id s.ExcludedTags), HarborDeploymentSecurity := s.HarborDeploymentSecurity, JfrogRepoTypes := (json.normSlice id s.JfrogRepoTypes), Namespace := s.Namespace, Os := s.Os, Tag := s.Tag, Registry := s.Registry } : settings.RegistrySpecification) json.decString []
    (fun t => { Cap := s.Cap, Collections := (json.normSlice id s.Collections), Credential := s.Credential, ExcludedRepositories := (json.normSlice id s.ExcludedRepositories), ExcludedTags := (json.normSlice id s.ExcludedTags), HarborDeploymentSecurity := s.HarborDeploymentSecurity, JfrogRepoTypes := (json.normSlice id s.JfrogRepoTypes), Namespace := s.Namespace, Os := s.Os, Tag := s.Tag, Registry := s.Registry, Repository := t }) _ s.Repository rfl (fun _ => rfl)
    (json.memString_dec "repository" s.Repository)]
  rw [json.fold_member settings.fieldsRegistrySpecification (ascii "scanners") ({ Cap := s.Cap, Collections := (json.normSlice id s.Collections), Credential := s.Credential, ExcludedRepositories := (json.normSlice id s.ExcludedRepositories), ExcludedTags := (json.normSlice id s.ExcludedTags), HarborDeploymentSecurity := s.HarborDeploymentSecurity, JfrogRepoTypes := (json.normSlice id s.JfrogRepoTypes), Namespace := s.Namespace, Os := s.Os, Tag := s.Tag, Registry := s.Registry, Repository := s.Repository } : settings.RegistrySpecification) json.decInt 0
    (fun t => { Cap := s.Cap, Collections := (json.normSlice id s.Collections), Credential := s.Credential, ExcludedRepositories := (json.normSlice id s.ExcludedRepositories), ExcludedTags := (json.normSlice id s.ExcludedTags), HarborDeploymentSecurity := s.HarborDeploymentSecurity, JfrogRepoTypes := (json.normSlice id s.JfrogRepoTypes), Namespace := s.Namespace, Os := s.Os, Tag := s.Tag, Registry := s.Registry, Repository := s.Repository, Scanners := t }) _ s.Scanners rfl (fun _ => rfl)
    (json.memInt_dec "scanners" s.Scanners h12)]
  rw [json.fold_member settings.fieldsRegistrySpecification (ascii "version") ({ Cap := s.Cap, Collections := (json.normSlice id s.Collections), Credential := s.Credential, ExcludedRepositories := (json.normSlice id s.ExcludedRepositories), ExcludedTags := (json.normSlice id s.ExcludedTags), HarborDeploymentSecurity := s.HarborDeploymentSecurity, JfrogRepoTypes := (json.normSlice id s.JfrogRepoTypes), Namespace := s.Namespace, Os := s.Os, Tag := s.Tag, Registry := s.Registry, Repository := s.Repository, Scanners := s.Scanners } : settings.RegistrySpecification) json.decString []
    (fun t => { Cap := s.Cap, Collections := (json.normSlice id s.Collections), Credential := s.Credential, ExcludedRepositories := (json.normSlice id s.ExcludedRepositories), ExcludedTags := (json.normSlice id s.ExcludedTags), HarborDeploymentSecurity := s.HarborDeploymentSecurity, JfrogRepoTypes := (json.normSlice id s.JfrogRepoTypes), Namespace := s.Namespace, Os := s.Os, Tag := s.Tag, Registry := s.Registry, Repository := s.Repository, Scanners := s.Scanners, Version := t }) _ s.Version rfl (fun _ => rfl)
    (json.memString_dec "version" s.Version)]
  rw [json.fold_member settings.fieldsRegistrySpecification (ascii "versionPattern") ({ Cap := s.Cap, Collections := (json.normSlice id s.Collections), Credential := s.Credential, ExcludedRepositories := (json.normSlice id s.ExcludedRepositories), ExcludedTags := (json.normSlice id s.ExcludedTags), HarborDeploymentSecurity := s.HarborDeploymentSecurity, JfrogRepoTypes := (json.normSlice id s.JfrogRepoTypes), Namespace := s.Namespace, Os := s.Os, Tag := s.Tag, Registry := s.Registry, Repository := s.Repository, Scanners := s.Scanners, Version := s.Version } : settings.RegistrySpecification) json.decString []
    (fun t => { Cap := s.Cap, Collections := (json.normSlice id s.Collections), Credential := s.Credential, ExcludedRepositories := (json.normSlice id s.ExcludedRepositories), ExcludedTags := (json.normSlice id s.ExcludedTags), HarborDeploymentSecurity := s.HarborDeploymentSecurity, JfrogRepoTypes := (json.normSlice id s.JfrogRepoTypes), Namespace := s.Namespace, Os := s.Os, Tag := s.Tag, Registry := s.Registry, Repository := s.Repository, Scanners := s.Scanners, Version := s.Version, VersionPattern := t }) _ s.VersionPattern rfl (fun _ => rfl)
    (json.memString_dec "versionPattern" s.VersionPattern)]
  rfl

/-- Decoding the JSON encoding of a valid RegistrySpecification into a fresh RegistrySpecification. -/
theorem settings.RegistrySpecification_roundtrip (s : settings.RegistrySpecification) (h : s.Valid) :
    json.Unmarshal settings.decRegistrySpecification (settings.marshalRegistrySpecification s) {} = (s.norm, none) :=
  json.Unmarshal_of_parse _ _ _ _ _ (json.parse_of_Scans (settings.RegistrySpecification_scans s h) (by decide))
    (settings.RegistrySpecification_dec_toJ s h)

/-- The names of the members written for a RegistrySpecification are the names of its
non-empty fields. -/
theorem settings.RegistrySpecification_member_names (s : settings.RegistrySpecification) :
    s.members.map (fun m => m.pair.1) = s.nonEmptyFields := by
  simp only [settings.RegistrySpecification.members, settings.RegistrySpecification.nonEmptyFields, List.map_append, json.memString_names,
    json.memBool_names, json.memInt_names, json.memSlice_names]

/-- C4: for a non-empty username and password and any token t, when the login
request is answered with status 200 and a body that is a JSON text for the
object whose one member, token, is the string t, authenticate returns no error
and the stored token is t; and for a token t that is valid UTF-8 the compact
text that json.Marshal writes for that object is such a body. -/
theorem authenticate_token (do_ : http.Transport) (c : Client) (hc : http.Client)
    (req : http.Request) (t body : GoString) (hu : c.Username ≠ []) (hp : c.Password ≠ [])
    (hclient : c.HTTPClient = some hc) (hsent : (c.authenticate do_).sent = [req])
    (hanswer : do_ hc req = .ok ⟨200, .ok body⟩)
    (hbody : json.parse body = some (.obj [(ascii "token", .str t)])) :
    (c.authenticate do_).outcome = .returned none ∧
    (c.authenticate do_).client = { c with JWT := t } ∧
    (utf8.Valid t →
      json.parse (json.encodeObject [json.member "token" (json.appendString t)]) =
        some (.obj [(ascii "token", .str t)])) := by
  have hun : json.Unmarshal decAuthResponse body {} = ({ Token := t }, none) :=
    json.Unmarshal_of_parse _ _ _ _ _ hbody rfl
  have hne : body.length > 0 := by
    cases body with
    | nil => exact absurd hbody (by simp [show json.parse [] = none from rfl])
    | cons b bs => simp
  refine ⟨?_, ?_, ?_⟩
  rotate_left 2
  · intro ht
    exact json.parse_of_Scans (D := 1)
      (json.Scans_object 0 [(ascii "token", json.appendString t, .str t)]
        (fun m hm => by
          simp only [List.mem_singleton] at hm
          subst hm
          exact ⟨utf8.Valid_of_ascii (ascii "token") (by decide), json.Scans_string t ht⟩))
      (by decide)
  all_goals
    unfold Client.authenticate at hsent ⊢
    rw [if_pos ⟨hu, hp⟩] at hsent ⊢
    generalize hr : c.Request do_ (fun a => Except.ok (marshalAuthRequest a))
      (json.Unmarshal decAuthResponse) (ascii "POST") (ascii "/api/v1/authenticate") none
      (some (⟨c.Username, c.Password⟩ : AuthRequest)) (some ({} : AuthResponse)) = r at hsent ⊢
    have hrs : r.sent = [req] := by
      revert hsent
      dsimp only
      cases r.outcome with
      | panicked => exact id
      | returned e => cases e <;> exact id
    obtain ⟨hc1, h5, _, _, _, heq⟩ := Request_reached _ _ _ _ _ _ _ _ _ req (hr ▸ hrs)
    have : hc1 = hc := by rw [h5] at hclient; exact Option.some.inj hclient
    subst this
    rw [hr, hanswer] at heq
    have hr2 : r = ⟨.returned none, some { Token := t }, [req], c⟩ := by
      rw [heq]
      simp [Client.receive, hne, hun]
    subst hr2
    rfl

/-- Cut on a text without the separator. -/
theorem cut_not_mem (s : GoString) (sep : Nat) (h : sep ∉ s) : cut s sep = (s, [], false) := by
  induction s with
  | nil => rfl
  | cons b s ih =>
    have hb : b ≠ sep := fun e => h (by simp [e])
    have := ih (fun hm => h (List.mem_cons_of_mem _ hm))
    simp [cut, hb, this]

/-- Cut at the first separator. -/
theorem cut_append (a b : GoString) (sep : Nat) (h : sep ∉ a) :
    cut (a ++ sep :: b) sep = (a, b, true) := by
  induction a with
  | nil => simp [cut]
  | cons x a ih =>
    have hx : x ≠ sep := fun e => h (by simp [e])
    have := ih (fun hm => h (List.mem_cons_of_mem _ hm))
    simp [cut, hx, this]

/-- No last separator in a text without the separator. -/
theorem cutLast_not_mem (s : GoString) (sep : Nat) (h : sep ∉ s) : cutLast s sep = none := by
  induction s with
  | nil => rfl
  | cons b s ih =>
    have hb : b ≠ sep := fun e => h (by simp [e])
    have := ih (fun hm => h (List.mem_cons_of_mem _ hm))
    simp [cutLast, hb, this]

/-- The split at the last separator. -/
theorem cutLast_append (a b : GoString) (sep : Nat) (h : sep ∉ b) :
    cutLast (a ++ sep :: b) sep = some (a, sep :: b) := by
  induction a with
  | nil => simp [cutLast, cutLast_not_mem b sep h]
  | cons x a ih => simp [cutLast, ih]

/-- A text without a byte does not end with it. -/
theorem hasSuffix_not_mem (s : GoString) (c : Nat) (h : c ∉ s) : hasSuffix s [c] = false := by
  unfold hasSuffix
  cases hr : s.reverse with
  | nil => rfl
  | cons a t =>
    have ha : a ∈ s := by
      have : a ∈ s.reverse := by rw [hr]; simp
      simpa using this
    have : a ≠ c := fun e => h (e ▸ ha)
    simp [hasPrefix, this]

/-- Whether a text ends with a byte, by its last byte. -/
theorem hasSuffix_singleton (s : GoString) (c : Nat) :
    hasSuffix s [c] = true ↔ s.getLast? = some c := by
  unfold hasSuffix
  rw [List.getLast?_eq_head?_reverse]
  cases s.reverse with
  | nil => simp [hasPrefix]
  | cons a t => simp [hasPrefix]

/-- A text with a byte appended ends with that byte. -/
theorem hasSuffix_append_singleton (s : GoString) (c : Nat) : hasSuffix (s ++ [c]) [c] = true := by
  simp [hasSuffix, hasPrefix]

/-- Unescaping a text without percent signs, and in a host without bytes a
host cannot hold, changes nothing. -/
theorem url.unescape_clean (mode : url.encoding) (s : GoString)
    (h : ∀ c ∈ s, c ≠ 37 ∧ (c = 43 → mode ≠ .encodeQueryComponent) ∧
      ¬ ((mode = .encodeHost ∨ mode = .encodeZone) ∧ c < 128 ∧
        url.shouldEscape c .encodeHost = true)) :
    url.unescape s mode = some s := by
  induction s with
  | nil => rfl
  | cons c s ih =>
    obtain ⟨h1, h2, h3⟩ := h c (List.mem_cons_self _ _)
    have ih' := ih (fun x hx => h x (List.mem_cons_of_mem _ hx))
    unfold url.unescape
    split
    · rename_i heq; simp at heq
    · rename_i heq; simp at heq; exact absurd heq.1 h1
    · rename_i c' rest' _ heq
      simp only [List.cons.injEq] at heq
      obtain ⟨rfl, rfl⟩ := heq
      by_cases h43 : c = 43
      · subst h43
        simp [h2 rfl, ih']
      · simp [h1, h43, h3, ih']

/-- Escaping a text of bytes that need no escaping changes nothing. -/
theorem url.escape_clean (mode : url.encoding) (s : GoString)
    (h : ∀ c ∈ s, url.shouldEscape c mode = false) : url.escape s mode = s := by
  induction s with
  | nil => rfl
  | cons c s ih =>
    have h1 := h c (List.mem_cons_self _ _)
    have ih' := ih (fun x hx => h x (List.mem_cons_of_mem _ hx))
    have h2 : ¬ (c = 32 ∧ mode = .encodeQueryComponent) := by
      rintro ⟨rfl, rfl⟩
      simp [url.shouldEscape, isAlnum, isLower, isUpper, isDigit] at h1
    simp [url.escape, h1, h2, ih']

/-- The three values url.parse takes from a text with an optional query:
whether the query is forced, the text before the query, and the query. -/
theorem url.query_split (a : GoString) (q : Option GoString) (ha : 63 ∉ a) :
    (hasSuffix (a ++ url.queryText q) [63] && (a ++ url.queryText q).count 63 == 1) =
        decide (q = some []) ∧
      (if decide (q = some []) = true
        then (a ++ url.queryText q).dropLast else (cut (a ++ url.queryText q) 63).1) = a ∧
      (if decide (q = some []) = true
        then [] else (cut (a ++ url.queryText q) 63).2.1) = q.getD [] := by
  have hcount : a.count 63 = 0 := List.count_eq_zero.mpr ha
  cases q with
  | none =>
    simp only [url.queryText, List.append_nil, hasSuffix_not_mem a 63 ha, Bool.false_and,
      cut_not_mem a 63 ha]
    simp
  | some t =>
    cases t with
    | nil =>
      have h1 : (hasSuffix (a ++ [63]) [63] && (a ++ [63]).count 63 == 1) = true := by
        simp [hasSuffix_append_singleton, List.count_append, hcount]
      simp only [url.queryText, h1]
      simp
    | cons x xs =>
      have h1 : (hasSuffix (a ++ 63 :: x :: xs) [63] && (a ++ 63 :: x :: xs).count 63 == 1) =
          false := by
        by_cases hm : 63 ∈ x :: xs
        · have : 0 < (x :: xs).count 63 := List.count_pos_iff.mpr hm
          have hc : (a ++ 63 :: x :: xs).count 63 = 1 + (x :: xs).count 63 := by
            rw [List.count_append, hcount, List.count_cons_self]; omega
          rw [hc]
          have : (1 + (x :: xs).count 63 == 1) = false := by
            simp only [beq_eq_false_iff_ne]; omega
          simp [this]
        · have : hasSuffix (a ++ 63 :: x :: xs) [63] = false := by
            rw [Bool.eq_false_iff]
            intro h
            rw [hasSuffix_singleton] at h
            have hl : (a ++ 63 :: x :: xs).getLast? = (x :: xs).getLast? := by
              rw [show a ++ 63 :: x :: xs = (a ++ [63]) ++ (x :: xs) by simp]
              rw [List.getLast?_append]
              cases hx : (x :: xs).getLast? with
              | none => simp at hx
              | some v => rfl
            rw [hl] at h
            exact hm (List.mem_of_getLast?_eq_some h)
          simp [this]
      simp only [url.queryText, h1, cut_append a (x :: xs) 63 ha]
      simp

/-- What a path byte is not, and that url.validEncoded accepts it. -/
theorem url.pathByte_facts (c : Nat) (h : url.isPathByte c = true) :
    c ≠ 35 ∧ c ≠ 63 ∧ 32 ≤ c ∧ c ≠ 127 ∧
      (c ∈ [33, 36, 38, 39, 40, 41, 42, 43, 44, 59, 61, 58, 64, 91, 93, 37] ∨
        url.shouldEscape c .encodePath = false) := by
  simp only [url.isPathByte, url.isSegmentByte, url.isPchar, url.isUnreserved, url.isSubDelim,
    isAlnum, isLower, isUpper, isDigit, Bool.or_eq_true, Bool.and_eq_true, decide_eq_true_eq,
    beq_iff_eq] at h
  refine ⟨by omega, by omega, by omega, by omega, ?_⟩
  by_cases ha : isAlnum c = true
  · right; simp [url.shouldEscape, ha]
  · have hc : c = 45 ∨ c = 95 ∨ c = 46 ∨ c = 126 ∨ c = 47 ∨ c = 33 ∨ c = 36 ∨ c = 38 ∨ c = 39 ∨
        c = 40 ∨ c = 41 ∨ c = 42 ∨ c = 43 ∨ c = 44 ∨ c = 59 ∨ c = 61 ∨ c = 58 ∨ c = 64 ∨
        c = 37 ∨ c = 91 ∨ c = 93 := by
      simp only [isAlnum, isLower, isUpper, isDigit, Bool.or_eq_true, Bool.and_eq_true,
        decide_eq_true_eq] at ha
      omega
    rcases hc with hc | hc | hc | hc | hc | hc | hc | hc | hc | hc | hc | hc | hc | hc | hc |
      hc | hc | hc | hc | hc | hc <;> subst hc <;> first | (right; rfl) | (left; decide)

/-- What a fragment byte is not, and that url.validEncoded accepts it. -/
theorem url.fragmentByte_facts (c : Nat) (h : url.isFragmentByte c = true ∨ c = 37) :
    c ≠ 35 ∧ 32 ≤ c ∧ c ≠ 127 ∧
      (c ∈ [33, 36, 38, 39, 40, 41, 42, 43, 44, 59, 61, 58, 64, 91, 93, 37] ∨
        url.shouldEscape c .encodeFragment = false) := by
  simp only [url.isFragmentByte, url.isSegmentByte, url.isPchar, url.isUnreserved,
    url.isSubDelim, isAlnum, isLower, isUpper, isDigit, Bool.or_eq_true, Bool.and_eq_true,
    decide_eq_true_eq, beq_iff_eq] at h
  refine ⟨by omega, by omega, by omega, ?_⟩
  by_cases ha : isAlnum c = true
  · right; simp [url.shouldEscape, ha]
  · have hc : c = 45 ∨ c = 95 ∨ c = 46 ∨ c = 126 ∨ c = 47 ∨ c = 33 ∨ c = 36 ∨ c = 38 ∨ c = 39 ∨
        c = 40 ∨ c = 41 ∨ c = 42 ∨ c = 43 ∨ c = 44 ∨ c = 59 ∨ c = 61 ∨ c = 58 ∨ c = 64 ∨
        c = 37 ∨ c = 91 ∨ c = 93 ∨ c = 63 := by
      simp only [isAlnum, isLower, isUpper, isDigit, Bool.or_eq_true, Bool.and_eq_true,
        decide_eq_true_eq] at ha
      omega
    rcases hc with hc | hc | hc | hc | hc | hc | hc | hc | hc | hc | hc | hc | hc | hc | hc |
      hc | hc | hc | hc | hc | hc | hc <;> subst hc <;> first | (right; rfl) | (left; decide)

/-- The three shapes of a text with percent escapes: empty, a percent escape
and such a text, or an accepted byte and such a text. -/
theorem url.escapedText_cases (ok : Nat → Bool) (s : GoString)
    (h : url.escapedText ok s = true) :
    s = [] ∨
      (∃ h1 h2 rest, s = 37 :: h1 :: h2 :: rest ∧ url.ishex h1 = true ∧ url.ishex h2 = true ∧
        url.escapedText ok rest = true) ∨
      (∃ c rest, s = c :: rest ∧ ok c = true ∧ url.escapedText ok rest = true) := by
  unfold url.escapedText at h
  split at h
  · exact Or.inl rfl
  · rename_i h1 h2 rest
    simp only [Bool.and_eq_true] at h
    exact Or.inr (Or.inl ⟨h1, h2, rest, rfl, h.1.1, h.1.2, h.2⟩)
  · rename_i c rest _
    simp only [Bool.and_eq_true] at h
    exact Or.inr (Or.inr ⟨c, rest, rfl, h.1, h.2⟩)

/-- The bytes of a text with percent escapes: accepted bytes, the percent
sign, and hex digits. -/
theorem url.escapedText_bytes (ok : Nat → Bool) :
    ∀ (n : Nat) (s : GoString), s.length ≤ n → url.escapedText ok s = true →
      ∀ b ∈ s, ok b = true ∨ b = 37 ∨ url.ishex b = true := by
  intro n
  induction n with
  | zero =>
    intro s hl _ b hb
    have : s = [] := List.length_eq_zero.mp (by omega)
    subst this
    simp at hb
  | succ n ih =>
    intro s hl hs b hb
    rcases url.escapedText_cases ok s hs with h | ⟨h1, h2, rest, h, hh1, hh2, hrest⟩ |
      ⟨c, rest, h, hc, hrest⟩
    · subst h; simp at hb
    · subst h
      simp only [List.mem_cons] at hb
      rcases hb with hb | hb | hb | hb
      · exact Or.inr (Or.inl hb)
      · subst hb; exact Or.inr (Or.inr hh1)
      · subst hb; exact Or.inr (Or.inr hh2)
      · exact ih rest (by simp at hl; omega) hrest b hb
    · subst h
      rcases List.mem_cons.mp hb with hb | hb
      · subst hb; exact Or.inl hc
      · exact ih rest (by simp at hl; omega) hrest b hb

/-- A hex digit is a segment byte. -/
theorem url.ishex_segmentByte (x : Nat) (hx : url.ishex x = true) :
    url.isSegmentByte x = true := by
  simp only [url.ishex, isDigit, Bool.or_eq_true, Bool.and_eq_true, decide_eq_true_eq] at hx
  simp only [url.isSegmentByte, url.isPchar, url.isUnreserved, isAlnum, isLower, isUpper,
    isDigit, Bool.or_eq_true, Bool.and_eq_true, decide_eq_true_eq, beq_iff_eq]
  omega

/-- The bytes of a segment are path bytes other than the slash. -/
theorem url.isSegment_bytes (s : GoString) (h : url.isSegment s = true) :
    ∀ b ∈ s, url.isPathByte b = true ∧ b ≠ 47 := by
  intro b hb
  rcases url.escapedText_bytes _ s.length s (le_refl _) h b hb with h1 | h1 | h1
  · refine ⟨by simp [url.isPathByte, h1], ?_⟩
    intro h47; subst h47; exact absurd h1 (by decide)
  · subst h1; exact ⟨by decide, by decide⟩
  · have := url.ishex_segmentByte b h1
    refine ⟨by simp [url.isPathByte, this], ?_⟩
    intro h47; subst h47; exact absurd h1 (by decide)

/-- Unescaping, outside a host, goes past a byte that is not the percent
sign. -/
theorem url.unescape_cons (m : url.encoding) (hm : m ≠ .encodeHost ∧ m ≠ .encodeZone) (c : Nat)
    (t : GoString) (hc : c ≠ 37) (ht : ∃ r, url.unescape t m = some r) :
    ∃ r, url.unescape (c :: t) m = some r := by
  obtain ⟨r, hr⟩ := ht
  unfold url.unescape
  split
  · rename_i heq; simp at heq
  · rename_i heq; simp at heq; exact absurd heq.1 hc
  · rename_i c1 rest1 _ heq
    simp only [List.cons.injEq] at heq
    obtain ⟨rfl, rfl⟩ := heq
    by_cases h43 : c = 43
    · subst h43; simp [hr]
    · simp [hc, h43, hr, hm.1, hm.2]

/-- Unescaping, outside a host, goes past a text with percent escapes. -/
theorem url.unescape_escapedText (m : url.encoding) (hm : m ≠ .encodeHost ∧ m ≠ .encodeZone)
    (ok : Nat → Bool) (hok : ok 37 = false) (t : GoString)
    (ht : ∃ r, url.unescape t m = some r) :
    ∀ (n : Nat) (s : GoString), s.length ≤ n → url.escapedText ok s = true →
      ∃ r, url.unescape (s ++ t) m = some r := by
  intro n
  induction n with
  | zero =>
    intro s hl _
    have : s = [] := List.length_eq_zero.mp (by omega)
    subst this
    simpa using ht
  | succ n ih =>
    intro s hl hs
    rcases url.escapedText_cases ok s hs with h | ⟨h1, h2, rest, h, hh1, hh2, hrest⟩ |
      ⟨c, rest, h, hc, hrest⟩
    · subst h; simpa using ht
    · subst h
      obtain ⟨r, hr⟩ := ih rest (by simp at hl; omega) hrest
      refine ⟨(url.unhex h1 * 16 + url.unhex h2) :: r, ?_⟩
      simp [url.unescape, hh1, hh2, hr, hm.1, hm.2]
    · subst h
      have hc37 : c ≠ 37 := by
        intro h; subst h; rw [hok] at hc; exact absurd hc (by decide)
      exact url.unescape_cons m hm c (rest ++ t) hc37 (ih rest (by simp at hl; omega) hrest)

/-- Unescaping goes past a segment. -/
theorem url.unescape_segment (t : GoString) (ht : ∃ r, url.unescape t .encodePath = some r)
    (s : GoString) (hs : url.isSegment s = true) :
    ∃ r, url.unescape (s ++ t) .encodePath = some r :=
  url.unescape_escapedText .encodePath (by decide) _ (by decide) t ht s.length s (le_refl _) hs

/-- A path of segments unescapes. -/
theorem url.slashed_unescape (segs : List GoString) (h : ∀ s ∈ segs, url.isSegment s = true) :
    ∃ r, url.unescape (url.slashed segs) .encodePath = some r := by
  induction segs with
  | nil => exact ⟨[], rfl⟩
  | cons s segs ih =>
    have ih' := ih (fun x hx => h x (List.mem_cons_of_mem _ hx))
    have h1 := url.unescape_segment (url.slashed segs) ih' s (h s (List.mem_cons_self _ _))
    have h2 := url.unescape_cons .encodePath (by decide) 47 (s ++ url.slashed segs) (by decide) h1
    simpa [url.slashed] using h2

/-- A path of segments is of path bytes. -/
theorem url.slashed_bytes (segs : List GoString) (h : ∀ s ∈ segs, url.isSegment s = true) :
    ∀ b ∈ url.slashed segs, url.isPathByte b = true := by
  intro b hb
  simp only [url.slashed, List.mem_flatMap, List.mem_cons] at hb
  obtain ⟨s, hs, hb⟩ := hb
  rcases hb with hb | hb
  · subst hb; rfl
  · exact (url.isSegment_bytes s (h s hs) b hb).1

/-- A text of path bytes is a valid encoding of a path. -/
theorem url.validEncoded_bytes (p : GoString) (h : ∀ b ∈ p, url.isPathByte b = true) :
    url.validEncoded p .encodePath = true := by
  unfold url.validEncoded
  rw [List.all_eq_true]
  intro b hb
  rcases (url.pathByte_facts b (h b hb)).2.2.2.2 with h1 | h1
  · simp only [Bool.or_eq_true, decide_eq_true_eq]; exact Or.inl h1
  · simp [h1]

/-- Setting a path that unescapes and is a valid encoding, other than "%2A":
the escaped path of the result is that path, and nothing else changes. -/
theorem url.setPath_EscapedPath (u : url.URL) (p : GoString)
    (hun : ∃ r, url.unescape p .encodePath = some r)
    (hv : url.validEncoded p .encodePath = true) (hstar : p ≠ ascii "%2A") :
    ∃ path raw, u.setPath p = some { u with Path := path, RawPath := raw } ∧
      ({ u with Path := path, RawPath := raw } : url.URL).EscapedPath = p := by
  obtain ⟨path, hpath⟩ := hun
  by_cases hesc : p = url.escape path .encodePath
  · refine ⟨path, [], by simp [url.URL.setPath, hpath, ← hesc], ?_⟩
    have hne : path ≠ [42] := by
      intro h
      rw [h] at hesc
      exact hstar hesc
    simp [url.URL.EscapedPath, hne, ← hesc]
  · refine ⟨path, p, by simp [url.URL.setPath, hpath, hesc], ?_⟩
    have hp : p ≠ [] := by
      intro h
      subst h
      simp only [url.unescape, Option.some.injEq] at hpath
      subst hpath
      exact hesc rfl
    simp [url.URL.EscapedPath, hp, hv, hpath]

/-- What unescaping gives for a text that is not empty is not empty. -/
theorem url.unescape_ne_nil (m : url.encoding) (s r : GoString) (hs : s ≠ [])
    (h : url.unescape s m = some r) : r ≠ [] := by
  unfold url.unescape at h
  split at h
  · exact absurd rfl hs
  · split_ifs at h
    all_goals
      cases hx : url.unescape _ m with
      | none => rw [hx] at h; simp at h
      | some t => rw [hx] at h; simp at h; rw [← h]; simp
  · split_ifs at h
    all_goals
      cases hx : url.unescape _ m with
      | none => rw [hx] at h; simp at h
      | some t => rw [hx] at h; simp at h; rw [← h]; simp

/-- Setting a fragment: the escaped fragment of the result is that fragment,
the fragment of the result is not empty, and nothing else changes. -/
theorem url.setFragment_fields (u : url.URL) (f : GoString) (hf : url.IsFragment f) :
    ∃ v, u.setFragment f = some v ∧ v.EscapedFragment = f ∧ v.Fragment ≠ [] ∧
      v.EscapedPath = u.EscapedPath ∧ v.Scheme = u.Scheme ∧ v.Opaque = u.Opaque ∧
      v.User = u.User ∧ v.Host = u.Host ∧ v.OmitHost = u.OmitHost ∧
      v.ForceQuery = u.ForceQuery ∧ v.RawQuery = u.RawQuery := by
  obtain ⟨hne, htext⟩ := hf
  have hun : ∃ r, url.unescape f .encodeFragment = some r := by
    have := url.unescape_escapedText .encodeFragment (by decide) url.isFragmentByte (by decide)
      [] ⟨[], rfl⟩ f.length f (le_refl _) htext
    simpa using this
  obtain ⟨frag, hfrag⟩ := hun
  have hfne := url.unescape_ne_nil _ f frag hne hfrag
  have hv : url.validEncoded f .encodeFragment = true := by
    unfold url.validEncoded
    rw [List.all_eq_true]
    intro b hb
    have hb' : url.isFragmentByte b = true ∨ b = 37 := by
      rcases url.escapedText_bytes _ f.length f (le_refl _) htext b hb with h1 | h1 | h1
      · exact Or.inl h1
      · exact Or.inr h1
      · left
        have := url.ishex_segmentByte b h1
        simp [url.isFragmentByte, this]
    rcases (url.fragmentByte_facts b hb').2.2.2 with h1 | h1
    · simp only [Bool.or_eq_true, decide_eq_true_eq]; exact Or.inl h1
    · simp [h1]
  by_cases hesc : f = url.escape frag .encodeFragment
  · refine ⟨{ u with Fragment := frag, RawFragment := [] }, by
      simp [url.URL.setFragment, hfrag, ← hesc], ?_, hfne, rfl, rfl, rfl, rfl, rfl, rfl, rfl, rfl⟩
    simp [url.URL.EscapedFragment, ← hesc]
  · refine ⟨{ u with Fragment := frag, RawFragment := f }, by
      simp [url.URL.setFragment, hfrag, hesc], ?_, hfne, rfl, rfl, rfl, rfl, rfl, rfl, rfl, rfl⟩
    simp [url.URL.EscapedFragment, hne, hv, hfrag]

/-- The bytes url.shouldEscape escapes in a host. -/
theorem url.shouldEscape_host_true (c : Nat)
    (h : c = 47 ∨ c = 64 ∨ c = 63 ∨ c = 35 ∨ c = 37 ∨ c < 32 ∨ c = 127) :
    url.shouldEscape c .encodeHost = true := by
  rcases h with h | h | h | h | h | h | h
  · subst h; rfl
  · subst h; rfl
  · subst h; rfl
  · subst h; rfl
  · subst h; rfl
  · interval_cases c <;> rfl
  · subst h; rfl

/-- What a byte that is not escaped in a host is not. -/
theorem url.hostByte_facts (c : Nat) (h : url.shouldEscape c .encodeHost = false) :
    c ≠ 47 ∧ c ≠ 64 ∧ c ≠ 63 ∧ c ≠ 35 ∧ c ≠ 37 ∧ 32 ≤ c ∧ c ≠ 127 := by
  have key : ¬ (c = 47 ∨ c = 64 ∨ c = 63 ∨ c = 35 ∨ c = 37 ∨ c < 32 ∨ c = 127) := by
    intro hc
    rw [url.shouldEscape_host_true c hc] at h
    exact absurd h (by decide)
  omega

/-- The bytes of a registered name, the colon and the square brackets are not
escaped in a host. -/
theorem url.shouldEscape_host_false (c : Nat)
    (h : url.isRegNameByte c = true ∨ c = 58 ∨ c = 91 ∨ c = 93) :
    url.shouldEscape c .encodeHost = false := by
  by_cases ha : isAlnum c = true
  · simp [url.shouldEscape, ha]
  · have hc : c = 45 ∨ c = 95 ∨ c = 46 ∨ c = 126 ∨ c = 33 ∨ c = 36 ∨ c = 38 ∨ c = 39 ∨
        c = 40 ∨ c = 41 ∨ c = 42 ∨ c = 43 ∨ c = 44 ∨ c = 59 ∨ c = 61 ∨ c = 58 ∨ c = 91 ∨
        c = 93 := by
      simp only [url.isRegNameByte, url.isUnreserved, url.isSubDelim, isAlnum, isLower, isUpper,
        isDigit, Bool.or_eq_true, Bool.and_eq_true, decide_eq_true_eq, beq_iff_eq] at h ha
      omega
    rcases hc with hc | hc | hc | hc | hc | hc | hc | hc | hc | hc | hc | hc | hc | hc | hc |
      hc | hc | hc <;> subst hc <;> rfl

/-- Joined groups are of hex digits and colons. -/
theorem url.joinColon_bytes (gs : List GoString) (h : ∀ g ∈ gs, url.isGroup g = true) :
    ∀ b ∈ url.joinColon gs, url.ishex b = true ∨ b = 58 := by
  have hg : ∀ g, url.isGroup g = true → ∀ b ∈ g, url.ishex b = true := by
    intro g hg b hb
    simp only [url.isGroup, Bool.and_eq_true] at hg
    exact List.all_eq_true.mp hg.2 b hb
  induction gs with
  | nil => intro b hb; simp [url.joinColon] at hb
  | cons g rest ih =>
    have ih' := ih (fun x hx => h x (List.mem_cons_of_mem _ hx))
    have hg1 := hg g (h g (List.mem_cons_self _ _))
    cases rest with
    | nil => intro b hb; exact Or.inl (hg1 b (by simpa [url.joinColon] using hb))
    | cons g2 rest2 =>
      intro b hb
      simp only [url.joinColon, List.mem_append, List.mem_cons] at hb
      rcases hb with hb | hb | hb
      · exact Or.inl (hg1 b hb)
      · exact Or.inr hb
      · exact ih' b hb

/-- An IP literal is hex digits and colons between square brackets. -/
theorem url.IPLiteral_bytes (h : GoString) (hl : url.IPLiteral h) :
    ∃ body, h = 91 :: (body ++ [93]) ∧ ∀ b ∈ body, url.ishex b = true ∨ b = 58 ∨ b = 46 := by
  obtain ⟨a, ha, gs, hs, hg, hcase⟩ := hl
  refine ⟨a, ha, ?_⟩
  have h1 := url.joinColon_bytes gs (fun g hx => hg g (List.mem_append.mpr (Or.inl hx)))
  have h2 := url.joinColon_bytes hs (fun g hx => hg g (List.mem_append.mpr (Or.inr hx)))
  intro b hb
  rcases hcase with ⟨_, _, e⟩ | ⟨_, e⟩
  · rw [e] at hb
    rcases h1 b hb with h | h
    · exact Or.inl h
    · exact Or.inr (Or.inl h)
  · rw [e] at hb
    simp only [List.mem_append, List.mem_cons] at hb
    rcases hb with hb | hb | hb | hb
    · rcases h1 b hb with h | h
      · exact Or.inl h
      · exact Or.inr (Or.inl h)
    · exact Or.inr (Or.inl hb)
    · exact Or.inr (Or.inl hb)
    · rcases h2 b hb with h | h
      · exact Or.inl h
      · exact Or.inr (Or.inl h)

/-- No occurrence of a text whose first byte the text does not hold. -/
theorem cutAt_not_mem (s : GoString) (x : Nat) (sub : GoString) (h : x ∉ s) :
    cutAt s (x :: sub) = none := by
  induction s with
  | nil => simp [cutAt, hasPrefix]
  | cons b s ih =>
    have hb : b ≠ x := fun e => h (by simp [e])
    have := ih (fun hm => h (List.mem_cons_of_mem _ hm))
    simp [cutAt, hasPrefix, hb, this]

/-- A host with an optional port, as url.Parse and http.NewRequest treat it:
it is not empty, none of its bytes is escaped, url.parseHost returns it, and
http.removeEmptyPort leaves it alone. -/
theorem url.host_facts (host port : GoString) (hhost : url.IsHost host)
    (hp : url.CleanPort port) :
    host ++ port ≠ [] ∧
      (∀ b ∈ host ++ port, url.shouldEscape b .encodeHost = false) ∧
      url.parseHost (host ++ port) = some (host ++ port) ∧
      http.removeEmptyPort (host ++ port) = host ++ port := by
  have hh : url.RegName host ∨
      ∃ body, host = 91 :: (body ++ [93]) ∧ ∀ b ∈ body, url.ishex b = true ∨ b = 58 ∨ b = 46 :=
    hhost.imp id (url.IPLiteral_bytes host)
  -- the port
  have hportb : ∀ b ∈ port, b = 58 ∨ isDigit b = true := by
    intro b hb
    rcases hp with h | ⟨d, ds, h, hds⟩
    · subst h; simp at hb
    · subst h
      rcases List.mem_cons.mp hb with hb | hb
      · exact Or.inl hb
      · exact Or.inr (List.all_eq_true.mp hds b hb)
  have hportesc : ∀ b ∈ port, url.shouldEscape b .encodeHost = false := by
    intro b hb
    rcases hportb b hb with h | h
    · exact url.shouldEscape_host_false b (Or.inr (Or.inl h))
    · simp [url.shouldEscape, isAlnum, h]
  have hvalid : url.validOptionalPort port = true := by
    rcases hp with h | ⟨d, ds, h, hds⟩
    · subst h; rfl
    · subst h; simp only [url.validOptionalPort, hds]; rfl
  have h93 : 93 ∉ port := by
    intro hm
    rcases hportb 93 hm with h | h
    · exact absurd h (by decide)
    · exact absurd h (by decide)
  -- the host
  have hhostesc : ∀ b ∈ host, url.shouldEscape b .encodeHost = false := by
    intro b hb
    rcases hh with ⟨_, h⟩ | ⟨body, h, hbody⟩
    · exact url.shouldEscape_host_false b (Or.inl (h b hb))
    · subst h
      simp only [List.mem_cons, List.mem_append, List.mem_singleton] at hb
      rcases hb with hb | hb | hb
      · exact url.shouldEscape_host_false b (Or.inr (Or.inr (Or.inl hb)))
      · rcases hbody b hb with h1 | h1 | h1
        · have : isAlnum b = true := by
            simp only [url.ishex, isDigit, Bool.or_eq_true, Bool.and_eq_true,
              decide_eq_true_eq] at h1
            simp only [isAlnum, isLower, isUpper, isDigit, Bool.or_eq_true, Bool.and_eq_true,
              decide_eq_true_eq]
            omega
          simp [url.shouldEscape, this]
        · exact url.shouldEscape_host_false b (Or.inr (Or.inl h1))
        · subst h1; rfl
      · have hb' : b = 93 := by simpa using hb
        exact url.shouldEscape_host_false b (Or.inr (Or.inr (Or.inr hb')))
  have hne : host ≠ [] := by
    rcases hh with ⟨h, _⟩ | ⟨body, h, _⟩
    · exact h
    · subst h; simp
  have hesc : ∀ b ∈ host ++ port, url.shouldEscape b .encodeHost = false := by
    intro b hb
    rcases List.mem_append.mp hb with hb | hb
    · exact hhostesc b hb
    · exact hportesc b hb
  have hunh : url.unescape (host ++ port) .encodeHost = some (host ++ port) := by
    apply url.unescape_clean
    intro c hc
    have h1 := hesc c hc
    refine ⟨(url.hostByte_facts c h1).2.2.2.2.1, fun _ => by decide, ?_⟩
    rintro ⟨_, _, h3⟩
    rw [h1] at h3
    exact absurd h3 (by decide)
  -- the last byte is not a colon
  have hlast : hasSuffix (host ++ port) [58] = false := by
    rw [Bool.eq_false_iff]
    intro h
    rw [hasSuffix_singleton] at h
    rcases hp with h0 | ⟨d, ds, h0, hds⟩
    · subst h0
      rw [List.append_nil] at h
      have hm := List.mem_of_getLast?_eq_some h
      rcases hh with ⟨_, h1⟩ | ⟨body, h1, _⟩
      · have := h1 58 hm
        simp [url.isRegNameByte, url.isUnreserved, url.isSubDelim, isAlnum, isLower, isUpper, isDigit] at this
      · subst h1
        have h2 : (91 :: (body ++ [93]) : GoString).getLast? = some 93 := by
          rw [show (91 :: (body ++ [93]) : GoString) = (91 :: body) ++ [93] by simp]
          exact List.getLast?_concat _
        rw [h2] at h
        exact absurd h (by decide)
    · subst h0
      rw [List.getLast?_append] at h
      have h2 : (58 :: d :: ds : GoString).getLast? = (d :: ds).getLast? := by
        simp [List.getLast?_cons_cons]
      rw [h2] at h
      cases hx : (d :: ds).getLast? with
      | none => simp at hx
      | some v =>
        rw [hx] at h
        simp only [Option.or_some, Option.some.injEq] at h
        have := List.all_eq_true.mp hds v (List.mem_of_getLast?_eq_some hx)
        rw [h] at this
        exact absurd this (by decide)
  refine ⟨by simp [hne], hesc, ?_, ?_⟩
  · unfold url.parseHost
    rcases hh with ⟨_, h1⟩ | ⟨body, h1, hbody⟩
    · have hbr : hasPrefix (host ++ port) [91] = false := by
        cases host with
        | nil => exact absurd rfl hne
        | cons b host1 =>
          have := h1 b (List.mem_cons_self _ _)
          have hb : b ≠ 91 := by
            intro e; subst e
            simp [url.isRegNameByte, url.isUnreserved, url.isSubDelim, isAlnum, isLower, isUpper, isDigit] at this
          simp [hasPrefix, hb]
      have h58 : 58 ∉ host := by
        intro hm
        have := h1 58 hm
        simp [url.isRegNameByte, url.isUnreserved, url.isSubDelim, isAlnum, isLower, isUpper, isDigit] at this
      rw [hbr]
      simp only [Bool.false_eq_true, if_false]
      rcases hp with h0 | ⟨d, ds, h0, hds⟩
      · subst h0
        rw [List.append_nil] at hunh ⊢
        rw [cutLast_not_mem _ _ h58]
        exact hunh
      · subst h0
        have h58' : 58 ∉ d :: ds := by
          intro hm
          have := List.all_eq_true.mp hds 58 hm
          simp [isDigit] at this
        rw [cutLast_append _ _ _ h58']
        simp only [hvalid, Bool.not_true, Bool.false_eq_true, if_false]
        exact hunh
    · subst h1
      have hshape : (91 :: (body ++ [93]) ++ port : GoString) = (91 :: body) ++ 93 :: port := by
        simp
      have h37 : 37 ∉ (91 :: body : GoString) := by
        intro hm
        rcases List.mem_cons.mp hm with hm | hm
        · exact absurd hm (by decide)
        · rcases hbody 37 hm with h | h | h
          · exact absurd h (by decide)
          · exact absurd h (by decide)
          · exact absurd h (by decide)
      rw [hshape] at hunh ⊢
      simp only [List.cons_append, hasPrefix, beq_self_eq_true, Bool.and_self, if_true]
      have hcl := cutLast_append (91 :: body) port 93 h93
      simp only [List.cons_append] at hcl
      rw [hcl]
      simp only [List.drop_succ_cons, List.drop_zero, hvalid, Bool.not_true, Bool.false_eq_true,
        if_false]
      rw [show ascii "%25" = 37 :: [50, 53] from rfl, cutAt_not_mem _ _ _ h37]
      simpa using hunh
  · unfold http.removeEmptyPort trimSuffix
    rw [hlast]
    simp

/-- What a byte of a user name or password is not, and that it is written
without escaping. -/
theorem url.userByte_facts (c : Nat) (h : url.isUserByte c = true) :
    c ≠ 37 ∧ c ≠ 47 ∧ c ≠ 63 ∧ c ≠ 35 ∧ c ≠ 64 ∧ c ≠ 58 ∧ 32 ≤ c ∧ c ≠ 127 ∧
      url.shouldEscape c .encodeUserPassword = false ∧
      (isAlnum c = true ∨
        c ∈ [45, 46, 95, 58, 126, 33, 36, 38, 39, 40, 41, 42, 43, 44, 59, 61, 37, 64]) := by
  have h0 := h
  simp only [url.isUserByte, url.isUnreserved, isAlnum, isLower, isUpper, isDigit,
    Bool.or_eq_true, Bool.and_eq_true, decide_eq_true_eq, beq_iff_eq] at h
  refine ⟨by omega, by omega, by omega, by omega, by omega, by omega, by omega, by omega, ?_⟩
  by_cases ha : isAlnum c = true
  · exact ⟨by simp [url.shouldEscape, ha], Or.inl ha⟩
  · have hc : c = 45 ∨ c = 95 ∨ c = 46 ∨ c = 126 ∨ c = 36 ∨ c = 38 ∨ c = 43 ∨ c = 44 ∨ c = 59 ∨
        c = 61 := by
      simp only [isAlnum, isLower, isUpper, isDigit, Bool.or_eq_true, Bool.and_eq_true,
        decide_eq_true_eq] at ha
      omega
    rcases hc with hc | hc | hc | hc | hc | hc | hc | hc | hc | hc <;> subst hc <;>
      exact ⟨rfl, Or.inr (by decide)⟩

/-- A user name or a password unescapes to itself and is written as it is. -/
theorem url.user_clean (s : GoString) (h : ∀ b ∈ s, url.isUserByte b = true) :
    url.unescape s .encodeUserPassword = some s ∧ url.escape s .encodeUserPassword = s ∧
      58 ∉ s ∧ 64 ∉ s := by
  refine ⟨?_, ?_, ?_, ?_⟩
  · apply url.unescape_clean
    intro c hc
    exact ⟨(url.userByte_facts c (h c hc)).1, fun _ => by decide, by simp⟩
  · apply url.escape_clean
    intro c hc
    exact (url.userByte_facts c (h c hc)).2.2.2.2.2.2.2.2.1
  · intro hm; exact (url.userByte_facts 58 (h 58 hm)).2.2.2.2.2.1 rfl
  · intro hm; exact (url.userByte_facts 64 (h 64 hm)).2.2.2.2.1 rfl

/-- An authority, as url.Parse and URL.String treat it: an optional user, a
host and an optional port.  It has no slash, question mark, number sign or
control byte; url.parseAuthority splits it into the user and the host with the
port; and URL.String writes the user as it was. -/
theorem url.authority_facts (user : Option (GoString × Option GoString)) (host port : GoString)
    (hu : ∀ u ∈ user, url.IsUser u) (hh : url.IsHost host) (hp : url.CleanPort port) :
    (∀ b ∈ url.userText user ++ (host ++ port),
        b ≠ 47 ∧ b ≠ 63 ∧ b ≠ 35 ∧ 32 ≤ b ∧ b ≠ 127) ∧
      url.parseAuthority (url.userText user ++ (host ++ port)) =
        some (url.userOf user, host ++ port) ∧
      (match url.userOf user with
        | some ui => ui.String ++ [64]
        | none => []) = url.userText user := by
  obtain ⟨_, hesc, hparse, _⟩ := url.host_facts host port hh hp
  have hhb : ∀ b ∈ host ++ port, b ≠ 47 ∧ b ≠ 63 ∧ b ≠ 35 ∧ 32 ≤ b ∧ b ≠ 127 ∧ b ≠ 64 := by
    intro b hb
    have := url.hostByte_facts b (hesc b hb)
    omega
  have h64 : 64 ∉ host ++ port := fun hm => (hhb 64 hm).2.2.2.2.2 rfl
  cases user with
  | none =>
    refine ⟨?_, ?_, rfl⟩
    · intro b hb
      have := hhb b (by simpa [url.userText] using hb)
      omega
    · simp only [url.userText, List.nil_append, url.parseAuthority, cutLast_not_mem _ _ h64,
        hparse, url.userOf]
      rfl
  | some u =>
    obtain ⟨name, pw⟩ := u
    obtain ⟨hname, hpw⟩ := hu (name, pw) rfl
    obtain ⟨hn1, hn2, hn3, hn4⟩ := url.user_clean name hname
    have hnb : ∀ b ∈ name, b ≠ 47 ∧ b ≠ 63 ∧ b ≠ 35 ∧ 32 ≤ b ∧ b ≠ 127 := by
      intro b hb
      have := url.userByte_facts b (hname b hb)
      omega
    have hnv : ∀ b ∈ name, (isAlnum b || decide (b ∈
        [45, 46, 95, 58, 126, 33, 36, 38, 39, 40, 41, 42, 43, 44, 59, 61, 37, 64])) = true := by
      intro b hb
      rcases (url.userByte_facts b (hname b hb)).2.2.2.2.2.2.2.2.2 with h | h
      · simp [h]
      · simp only [Bool.or_eq_true, decide_eq_true_eq]; exact Or.inr h
    cases pw with
    | none =>
      refine ⟨?_, ?_, ?_⟩
      · intro b hb
        simp only [url.userText, List.mem_append, List.mem_singleton] at hb
        rcases hb with (hb | hb) | hb
        · exact hnb b hb
        · subst hb; decide
        · have := hhb b (List.mem_append.mpr hb); omega
      · have hcl := cutLast_append name (host ++ port) 64 h64
        have hshape : url.userText (some (name, none)) ++ (host ++ port) =
            name ++ 64 :: (host ++ port) := by simp [url.userText]
        have hval : url.validUserinfo name = true := by
          unfold url.validUserinfo
          rw [List.all_eq_true]
          exact hnv
        have hcon : name.contains 58 = false := by
          rw [List.contains_eq_any_beq, List.any_eq_false]
          intro b hb hb2
          have : 58 = b := by simpa using hb2
          exact hn3 (this ▸ hb)
        rw [hshape]
        simp only [url.parseAuthority, hcl, List.drop_succ_cons, List.drop_zero, hparse, hval,
          hcon, hn1, url.userOf]
        rfl
      · simp [url.userOf, url.userText, url.Userinfo.String, hn2]
    | some pw =>
      have hpw' := hpw pw rfl
      obtain ⟨hp1, hp2, hp3, hp4⟩ := url.user_clean pw hpw'
      have hpb : ∀ b ∈ pw, b ≠ 47 ∧ b ≠ 63 ∧ b ≠ 35 ∧ 32 ≤ b ∧ b ≠ 127 := by
        intro b hb
        have := url.userByte_facts b (hpw' b hb)
        omega
      refine ⟨?_, ?_, ?_⟩
      · intro b hb
        simp only [url.userText, List.mem_append, List.mem_cons, List.mem_singleton] at hb
        rcases hb with (hb | hb | hb | hb) | hb
        · exact hnb b hb
        · subst hb; decide
        · exact hpb b hb
        · have hb' : b = 64 := by simpa using hb
          subst hb'; decide
        · have := hhb b (List.mem_append.mpr hb); omega
      · have hcl := cutLast_append (name ++ 58 :: pw) (host ++ port) 64 h64
        have hshape : url.userText (some (name, some pw)) ++ (host ++ port) =
            (name ++ 58 :: pw) ++ 64 :: (host ++ port) := by simp [url.userText]
        have hval : url.validUserinfo (name ++ 58 :: pw) = true := by
          unfold url.validUserinfo
          rw [List.all_eq_true]
          intro b hb
          simp only [List.mem_append, List.mem_cons] at hb
          rcases hb with hb | hb | hb
          · exact hnv b hb
          · subst hb; decide
          · rcases (url.userByte_facts b (hpw' b hb)).2.2.2.2.2.2.2.2.2 with h | h
            · simp [h]
            · simp only [Bool.or_eq_true, decide_eq_true_eq]; exact Or.inr h
        have hcon : (name ++ 58 :: pw).contains 58 = true := by simp
        have hcut : cut (name ++ 58 :: pw) 58 = (name, pw, true) := cut_append _ _ _ hn3
        rw [hshape]
        simp only [url.parseAuthority, hcl, List.drop_succ_cons, List.drop_zero, hparse, hval,
          hcon, hcut, hn1, hp1, url.userOf]
        rfl
      · simp [url.userOf, url.userText, url.Userinfo.String, hn2, hp2]

/-- The scheme of a text that goes on with scheme bytes and a colon. -/
theorem url.getSchemeFrom_scheme (whole rest : GoString) :
    ∀ (sch acc : GoString),
      (∀ b ∈ sch, isLower b = true ∨ isDigit b = true ∨ b = 43 ∨ b = 45 ∨ b = 46) → acc ≠ [] →
      url.getSchemeFrom whole acc (sch ++ 58 :: rest) = some (acc.reverse ++ sch, rest) := by
  intro sch
  induction sch with
  | nil =>
    intro acc _ h
    have hi : acc.isEmpty = false := by cases acc; exact absurd rfl h; rfl
    simp [url.getSchemeFrom, isLower, isUpper, isDigit, hi]
  | cons c sch ih =>
    intro acc hl hacc
    have hc := hl c (List.mem_cons_self _ _)
    have ih' := ih (c :: acc) (fun x hx => hl x (List.mem_cons_of_mem _ hx)) (by simp)
    have hi : acc.isEmpty = false := by cases acc; exact absurd rfl hacc; rfl
    by_cases h1 : isLower c = true
    · simp [url.getSchemeFrom, h1, ih']
    · have h2 : isDigit c = true ∨ c = 43 ∨ c = 45 ∨ c = 46 := by
        rcases hc with h | h
        · exact absurd h h1
        · exact h
      have h3 : isUpper c = false := by
        simp only [isUpper, isDigit, Bool.and_eq_true, decide_eq_true_eq] at h2 ⊢
        rw [Bool.eq_false_iff]
        simp only [ne_eq, Bool.and_eq_true, decide_eq_true_eq]
        omega
      have h4 : (isDigit c || c == 43 || c == 45 || c == 46) = true := by
        simp only [Bool.or_eq_true, beq_iff_eq]
        tauto
      have h1' : isLower c = false := by simpa using h1
      rw [List.cons_append]
      unfold url.getSchemeFrom
      simp only [h1', h3, Bool.or_self, Bool.false_eq_true, if_false, h4, if_true, hi, ih']
      simp

/-- The scheme of an absolute URL in lower case. -/
theorem url.getScheme_scheme (scheme rest : GoString) (hs : url.IsScheme scheme) :
    url.getScheme (scheme ++ 58 :: rest) = some (scheme, rest) ∧ toLower scheme = scheme ∧
      scheme ≠ [] ∧ ∀ b ∈ scheme, 43 ≤ b ∧ b ≤ 122 ∧ b ≠ 47 ∧ b ≠ 63 := by
  obtain ⟨c, r, h, hc, hr⟩ := hs
  subst h
  have hbytes : ∀ b ∈ c :: r, isUpper b = false ∧ 43 ≤ b ∧ b ≤ 122 ∧ b ≠ 47 ∧ b ≠ 63 := by
    intro b hb
    have hb' : isLower b = true ∨ isDigit b = true ∨ b = 43 ∨ b = 45 ∨ b = 46 := by
      rcases List.mem_cons.mp hb with h | h
      · subst h; exact Or.inl hc
      · exact hr b h
    simp only [isLower, isDigit, Bool.and_eq_true, decide_eq_true_eq] at hb'
    refine ⟨?_, by omega, by omega, by omega, by omega⟩
    rw [Bool.eq_false_iff]
    simp only [isUpper, ne_eq, Bool.and_eq_true, decide_eq_true_eq]
    omega
  refine ⟨?_, ?_, by simp, fun b hb => (hbytes b hb).2⟩
  · unfold url.getScheme
    have := url.getSchemeFrom_scheme (c :: r ++ 58 :: rest) rest r [c] hr (by simp)
    simp only [List.cons_append, url.getSchemeFrom, hc, Bool.true_or, if_true]
    simpa using this
  · unfold toLower
    conv_rhs => rw [← List.map_id (c :: r)]
    apply List.map_congr_left
    intro b hb
    simp [(hbytes b hb).1]

/-- A query has no control byte. -/
theorem url.queryText_bytes (q : Option GoString) (hq : ∀ t ∈ q, url.IsQuery t) :
    ∀ b ∈ url.queryText q, 32 ≤ b ∧ b ≠ 127 ∧ b ≠ 35 := by
  intro b hb
  cases q with
  | none => simp [url.queryText] at hb
  | some t =>
    simp only [url.queryText, List.mem_cons] at hb
    rcases hb with hb | hb
    · subst hb; decide
    · exact hq t rfl b hb

/-- Setting a path as in setPath_EscapedPath, with what stays of the URL
listed field by field. -/
theorem url.setPath_fields (u : url.URL) (p : GoString)
    (hun : ∃ r, url.unescape p .encodePath = some r)
    (hv : url.validEncoded p .encodePath = true) (hstar : p ≠ ascii "%2A") :
    ∃ v, u.setPath p = some v ∧ v.EscapedPath = p ∧ v.Scheme = u.Scheme ∧
      v.Opaque = u.Opaque ∧ v.User = u.User ∧ v.Host = u.Host ∧ v.OmitHost = u.OmitHost ∧
      v.ForceQuery = u.ForceQuery ∧ v.RawQuery = u.RawQuery ∧ v.Fragment = u.Fragment ∧
      v.RawFragment = u.RawFragment := by
  obtain ⟨path, raw, h1, h2⟩ := url.setPath_EscapedPath u p hun hv hstar
  exact ⟨_, h1, h2, rfl, rfl, rfl, rfl, rfl, rfl, rfl, rfl, rfl⟩

/-- The escaped fragment of a URL depends on its fragment fields only. -/
theorem url.EscapedFragment_congr (u v : url.URL) (h1 : v.Fragment = u.Fragment)
    (h2 : v.RawFragment = u.RawFragment) : v.EscapedFragment = u.EscapedFragment := by
  simp only [url.URL.EscapedFragment, h1, h2]

/-- A fragment has no control byte. -/
theorem url.fragmentText_bytes (frag : Option GoString) (hf : ∀ f ∈ frag, url.IsFragment f) :
    ∀ b ∈ url.fragmentText frag, 32 ≤ b ∧ b ≠ 127 := by
  intro b hb
  cases frag with
  | none => simp [url.fragmentText] at hb
  | some f =>
    simp only [url.fragmentText, List.mem_cons] at hb
    rcases hb with hb | hb
    · subst hb; decide
    · have hb' : url.isFragmentByte b = true ∨ b = 37 := by
        rcases url.escapedText_bytes _ f.length f (le_refl _) (hf f rfl).2 b hb with h1 | h1 | h1
        · exact Or.inl h1
        · exact Or.inr h1
        · left
          have := url.ishex_segmentByte b h1
          simp [url.isFragmentByte, this]
      have := url.fragmentByte_facts b hb'
      omega

/-- The last step of url.Parse: the fragment, if there is one, is set on the
URL that url.parse gave for the text before it. -/
theorem url.Parse_fragment (a : GoString) (frag : Option GoString) (v : url.URL)
    (h35 : 35 ∉ a) (hparse : url.parse a = some v) (hv : v.Fragment = [])
    (hf : ∀ f ∈ frag, url.IsFragment f) :
    ∃ u, url.Parse (a ++ url.fragmentText frag) = .ok u ∧ u.EscapedPath = v.EscapedPath ∧
      u.Scheme = v.Scheme ∧ u.Opaque = v.Opaque ∧ u.User = v.User ∧ u.Host = v.Host ∧
      u.OmitHost = v.OmitHost ∧ u.ForceQuery = v.ForceQuery ∧ u.RawQuery = v.RawQuery ∧
      (frag = none → u.Fragment = []) ∧
      (if u.Fragment ≠ [] then 35 :: u.EscapedFragment else []) = url.fragmentText frag := by
  cases frag with
  | none =>
    refine ⟨v, ?_, rfl, rfl, rfl, rfl, rfl, rfl, rfl, rfl, fun _ => hv, by
      simp [hv, url.fragmentText]⟩
    unfold url.Parse
    simp only [url.fragmentText, List.append_nil]
    rw [cut_not_mem _ _ h35]
    dsimp only
    rw [hparse]
    simp
  | some f =>
    obtain ⟨w, hset, hw1, hw2, hw3, hw4, hw5, hw6, hw7, hw8, hw9, hw10⟩ :=
      url.setFragment_fields v f (hf f rfl)
    refine ⟨w, ?_, hw3, hw4, hw5, hw6, hw7, hw8, hw9, hw10, by simp, by
      simp [hw2, hw1, url.fragmentText]⟩
    unfold url.Parse
    simp only [url.fragmentText]
    rw [cut_append _ _ _ h35]
    dsimp only
    rw [hparse]
    simp [(hf f rfl).1, hset]

/-- Parsing an absolute URL: a scheme in lower case, an authority that
parseAuthority splits into a user and a host, a path of path bytes that starts
with a slash and unescapes, an optional query and an optional fragment. -/
theorem url.Parse_absolute (scheme authority hostport p : GoString)
    (user : Option url.Userinfo) (q frag : Option GoString) (hs : url.IsScheme scheme)
    (hab : ∀ b ∈ authority, b ≠ 47 ∧ b ≠ 63 ∧ b ≠ 35 ∧ 32 ≤ b ∧ b ≠ 127)
    (hpa : url.parseAuthority authority = some (user, hostport))
    (hp0 : p.head? = some 47) (hpb : ∀ b ∈ p, url.isPathByte b = true)
    (hun : ∃ r, url.unescape p .encodePath = some r) (hq : ∀ t ∈ q, url.IsQuery t)
    (hf : ∀ f ∈ frag, url.IsFragment f) :
    ∃ u, url.Parse (scheme ++ 58 :: 47 :: 47 :: (authority ++ p ++ url.queryText q) ++
        url.fragmentText frag) = .ok u ∧
      u.EscapedPath = p ∧ u.Scheme = scheme ∧ u.Opaque = [] ∧ u.User = user ∧
      u.Host = hostport ∧ u.OmitHost = false ∧ u.ForceQuery = decide (q = some []) ∧
      u.RawQuery = q.getD [] ∧ (frag = none → u.Fragment = []) ∧
      (if u.Fragment ≠ [] then 35 :: u.EscapedFragment else []) = url.fragmentText frag := by
  obtain ⟨hget, hlow, hsne, hsb⟩ := url.getScheme_scheme scheme
    (47 :: 47 :: (authority ++ p ++ url.queryText q)) hs
  obtain ⟨p1, hp1⟩ : ∃ p1, p = 47 :: p1 := by
    cases p with
    | nil => simp at hp0
    | cons x p1 => simp at hp0; exact ⟨p1, by rw [hp0]⟩
  have hqb := url.queryText_bytes q hq
  have hall : ∀ b ∈ scheme ++ 58 :: 47 :: 47 :: (authority ++ p ++ url.queryText q),
      b ≠ 35 ∧ 32 ≤ b ∧ b ≠ 127 := by
    intro b hb
    simp only [List.mem_append, List.mem_cons] at hb
    rcases hb with hb | hb | hb | hb | (hb | hb) | hb
    · have := hsb b hb; omega
    · omega
    · omega
    · omega
    · have := hab b hb; omega
    · have := url.pathByte_facts b (hpb b hb); omega
    · have := hqb b hb; omega
  have h35 : 35 ∉ scheme ++ 58 :: 47 :: 47 :: (authority ++ p ++ url.queryText q) :=
    fun hm => (hall 35 hm).1 rfl
  have hctl : url.stringContainsCTLByte
      (scheme ++ 58 :: 47 :: 47 :: (authority ++ p ++ url.queryText q)) = false := by
    unfold url.stringContainsCTLByte
    rw [List.any_eq_false]
    intro b hb
    have := hall b hb
    simp; omega
  have hstar : scheme ++ 58 :: 47 :: 47 :: (authority ++ p ++ url.queryText q) ≠ [42] := by
    intro h
    have h1 := congrArg List.length h
    simp at h1
    omega
  have h63 : 63 ∉ (47 :: 47 :: (authority ++ p) : GoString) := by
    intro hm
    simp only [List.mem_cons, List.mem_append] at hm
    rcases hm with hm | hm | hm | hm
    · omega
    · omega
    · have := hab 63 hm; omega
    · have := url.pathByte_facts 63 (hpb 63 hm); omega
  obtain ⟨hq1, hq2, hq3⟩ := url.query_split (47 :: 47 :: (authority ++ p)) q h63
  have hrest : (47 :: 47 :: (authority ++ p ++ url.queryText q) : GoString) =
      47 :: 47 :: (authority ++ p) ++ url.queryText q := by simp
  have h47 : 47 ∉ authority := by
    intro hm
    have := hab 47 hm; omega
  have hcut : cut (authority ++ p) 47 = (authority, p1, true) := by
    rw [hp1]; exact cut_append _ _ _ h47
  have hv := url.validEncoded_bytes p hpb
  have hpstar : p ≠ ascii "%2A" := by
    intro h; rw [h] at hp0; exact absurd hp0 (by decide)
  obtain ⟨v, hset, hv1, hv2, hv3, hv4, hv5, hv6, hv7, hv8, hv9, hv10⟩ := url.setPath_fields
    { Scheme := scheme, User := user, Host := hostport, ForceQuery := decide (q = some []),
      RawQuery := q.getD [] } p hun hv hpstar
  have hparse : url.parse (scheme ++ 58 :: 47 :: 47 :: (authority ++ p ++ url.queryText q)) =
      some v := by
    unfold url.parse
    rw [hctl]
    simp only [Bool.false_eq_true, if_false]
    rw [if_neg hstar, hget]
    simp only [hlow, hrest, hq1]
    simp only [hq2, hq3]
    simp only [Bool.false_eq_true, if_false, hasPrefix, beq_self_eq_true, Bool.and_self,
      Bool.not_true, Bool.false_and, List.drop_succ_cons, List.drop_zero, hcut, hpa,
      Bool.true_and, Bool.and_true, Bool.or_true, if_true, hsne, ne_eq, not_false_eq_true,
      decide_True, Bool.true_or, ← hp1]
    exact hset
  obtain ⟨u, hu, hu1, hu2, hu3, hu4, hu5, hu6, hu7, hu8, hu9, hu10⟩ :=
    url.Parse_fragment _ frag v h35 hparse hv9 hf
  exact ⟨u, hu, hu1.trans hv1, hu2.trans hv2, hu3.trans hv3, hu4.trans hv4, hu5.trans hv5,
    hu6.trans hv6, hu7.trans hv7, hu8.trans hv8, hu9, hu10⟩

/-- The text of an absolute URL with a host that needs no escaping and a path
that starts with a slash. -/
theorem url.String_absolute (u : url.URL) (utext p : GoString) (q frag : Option GoString)
    (hs : u.Scheme ≠ []) (hop : u.Opaque = [])
    (hu : (match u.User with
      | some ui => ui.String ++ [64]
      | none => []) = utext)
    (hh : u.Host ≠ [])
    (hesc : ∀ b ∈ u.Host, url.shouldEscape b .encodeHost = false) (hp : u.EscapedPath = p)
    (hp0 : p.head? = some 47) (hfq : u.ForceQuery = decide (q = some []))
    (hrq : u.RawQuery = q.getD [])
    (hf : (if u.Fragment ≠ [] then 35 :: u.EscapedFragment else []) = url.fragmentText frag) :
    u.String = u.Scheme ++ 58 :: 47 :: 47 :: (utext ++ u.Host ++ p ++ url.queryText q) ++
      url.fragmentText frag := by
  have he : url.escape u.Host .encodeHost = u.Host := url.escape_clean _ _ hesc
  have hpne : p ≠ [] := by intro h; rw [h] at hp0; simp at hp0
  have hquery : (if u.ForceQuery = true ∨ u.RawQuery ≠ [] then 63 :: u.RawQuery else []) =
      url.queryText q := by
    rw [hfq, hrq]
    cases q with
    | none => simp [url.queryText]
    | some t =>
      cases t with
      | nil => simp [url.queryText]
      | cons x xs => simp [url.queryText]
  simp only [url.URL.String, hquery, hp, hf, hu]
  simp [hs, hop, hh, he, hp0, hpne]

/-- A text is what cut finds before the separator, the separator if there is
one, and what comes after it. -/
theorem cut_spec (s : GoString) (sep : Nat) :
    s = (cut s sep).1 ++ (if (cut s sep).2.2 = true then sep :: (cut s sep).2.1 else []) ∧
      sep ∉ (cut s sep).1 := by
  induction s with
  | nil => simp [cut]
  | cons b s ih =>
    unfold cut
    by_cases hb : b = sep
    · simp [hb]
    · simp only [hb, if_false, List.cons_append, List.mem_cons, not_or]
      exact ⟨by rw [← ih.1], fun h => hb h.symm, ih.2⟩

/-- A text has no scheme when a slash, a question mark or its end comes before
any colon. -/
theorem url.getSchemeFrom_none (whole tail : GoString)
    (htail : tail = [] ∨ ∃ t, tail = 47 :: t ∨ tail = 63 :: t) :
    ∀ (a acc : GoString), 58 ∉ a →
      url.getSchemeFrom whole acc (a ++ tail) = some ([], whole) := by
  intro a
  induction a with
  | nil =>
    intro acc _
    rcases htail with h | ⟨t, h | h⟩ <;> subst h <;>
      simp [url.getSchemeFrom, isLower, isUpper, isDigit]
  | cons c a ih =>
    intro acc h
    have hc : c ≠ 58 := fun e => h (by simp [e])
    have ih' := fun x => ih x (fun hm => h (List.mem_cons_of_mem _ hm))
    rw [List.cons_append]
    unfold url.getSchemeFrom
    split_ifs <;> simp_all

/-- Parsing a relative reference: a path of path bytes that unescapes, is not
"%2A", and does not start with two slashes, with no colon in its first segment
unless it starts with a slash; an optional query and an optional fragment. -/
theorem url.Parse_relative (p : GoString) (q frag : Option GoString)
    (hpb : ∀ b ∈ p, url.isPathByte b = true)
    (hun : ∃ r, url.unescape p .encodePath = some r) (hstar : p ≠ ascii "%2A")
    (hslash : hasPrefix p [47, 47] = false)
    (hcolon : hasPrefix p [47] = true ∨ 58 ∉ (cut p 47).1) (hq : ∀ t ∈ q, url.IsQuery t)
    (hf : ∀ f ∈ frag, url.IsFragment f) :
    ∃ u, url.Parse (p ++ url.queryText q ++ url.fragmentText frag) = .ok u ∧
      u.EscapedPath = p ∧ u.Scheme = [] ∧
      u.Opaque = [] ∧ u.User = none ∧ u.Host = [] ∧ u.ForceQuery = decide (q = some []) ∧
      u.RawQuery = q.getD [] ∧ (frag = none → u.Fragment = []) ∧
      (if u.Fragment ≠ [] then 35 :: u.EscapedFragment else []) = url.fragmentText frag := by
  have hqb := url.queryText_bytes q hq
  have hall : ∀ b ∈ p ++ url.queryText q, b ≠ 35 ∧ 32 ≤ b ∧ b ≠ 127 := by
    intro b hb
    rcases List.mem_append.mp hb with hb | hb
    · have := url.pathByte_facts b (hpb b hb); omega
    · have := hqb b hb; omega
  have h35 : 35 ∉ p ++ url.queryText q := fun hm => (hall 35 hm).1 rfl
  have hctl : url.stringContainsCTLByte (p ++ url.queryText q) = false := by
    unfold url.stringContainsCTLByte
    rw [List.any_eq_false]
    intro b hb
    have := hall b hb
    simp; omega
  have h63 : 63 ∉ p := by
    intro hm
    have := url.pathByte_facts 63 (hpb 63 hm); omega
  have hqtail : url.queryText q = [] ∨ ∃ t, url.queryText q = 47 :: t ∨ url.queryText q = 63 :: t := by
    cases q with
    | none => exact Or.inl rfl
    | some t => exact Or.inr ⟨t, Or.inr rfl⟩
  have hget : url.getScheme (p ++ url.queryText q) = some ([], p ++ url.queryText q) := by
    unfold url.getScheme
    rcases hcolon with h | h
    · cases p with
      | nil => simp [hasPrefix] at h
      | cons x p1 =>
        have hx : x = 47 := by simpa [hasPrefix] using h
        subst hx
        have := url.getSchemeFrom_none (47 :: p1 ++ url.queryText q)
          (47 :: p1 ++ url.queryText q) (Or.inr ⟨p1 ++ url.queryText q, Or.inl rfl⟩) [] []
          (by simp)
        simpa using this
    · obtain ⟨hsplit, _⟩ := cut_spec p 47
      have htail : (if (cut p 47).2.2 = true then 47 :: (cut p 47).2.1 else []) ++
          url.queryText q = [] ∨ ∃ t,
          (if (cut p 47).2.2 = true then 47 :: (cut p 47).2.1 else []) ++ url.queryText q =
            47 :: t ∨
          (if (cut p 47).2.2 = true then 47 :: (cut p 47).2.1 else []) ++ url.queryText q =
            63 :: t := by
        by_cases hf : (cut p 47).2.2 = true
        · simp only [hf, if_true, List.cons_append]
          exact Or.inr ⟨_, Or.inl rfl⟩
        · simp only [hf, if_false, List.nil_append]
          exact hqtail
      have := url.getSchemeFrom_none (p ++ url.queryText q) _ htail (cut p 47).1 [] h
      rw [← List.append_assoc, ← hsplit] at this
      exact this
  obtain ⟨hq1, hq2, hq3⟩ := url.query_split p q h63
  have hv := url.validEncoded_bytes p hpb
  obtain ⟨v, hset, hv1, hv2, hv3, hv4, hv5, _, hv7, hv8, hv9, _⟩ := url.setPath_fields
    { ForceQuery := decide (q = some []), RawQuery := q.getD [] } p hun hv hstar
  have hparse : ∃ w, url.parse (p ++ url.queryText q) = some w ∧ w.EscapedPath = p ∧
      w.Scheme = [] ∧ w.Opaque = [] ∧ w.User = none ∧ w.Host = [] ∧
      w.ForceQuery = decide (q = some []) ∧ w.RawQuery = q.getD [] ∧ w.Fragment = [] := by
    by_cases hone : p ++ url.queryText q = [42]
    · have hp : p = [42] := by
        cases q with
        | none => simpa [url.queryText] using hone
        | some t =>
          cases p with
          | nil => simp [url.queryText] at hone
          | cons x p1 => simp [url.queryText] at hone
      have hqn : q = none := by
        cases q with
        | none => rfl
        | some t => rw [hp] at hone; simp [url.queryText] at hone
      subst hp; subst hqn
      exact ⟨{ Path := [42] }, rfl, by decide, rfl, rfl, rfl, rfl, rfl, rfl, rfl⟩
    · refine ⟨v, ?_, hv1, hv2, hv3, hv4, hv5, hv7, hv8, hv9⟩
      unfold url.parse
      rw [hctl]
      simp only [Bool.false_eq_true, if_false]
      rw [if_neg hone, hget]
      simp only [hq1]
      simp only [hq2, hq3]
      have hc2 : (!hasPrefix p [47] && (cut p 47).1.contains 58) = false := by
        rcases hcolon with h | h
        · simp [h]
        · have : (cut p 47).1.contains 58 = false := by
            rw [List.contains_eq_any_beq, List.any_eq_false]
            intro b hb hb2
            have : 58 = b := by simpa using hb2
            exact h (this ▸ hb)
          rw [this, Bool.and_false]
      simp only [toLower, List.map_nil, ne_eq, not_true_eq_false, decide_False, Bool.and_false,
        Bool.false_eq_true, if_false, hc2, hslash, Bool.false_or]
      exact hset
  obtain ⟨w, hw, hw1, hw2, hw3, hw4, hw5, hw6, hw7, hw8⟩ := hparse
  obtain ⟨u, hu, hu1, hu2, hu3, hu4, hu5, _, hu7, hu8, hu9, hu10⟩ :=
    url.Parse_fragment _ frag w h35 hw hw8 hf
  exact ⟨u, hu, hu1.trans hw1, hu2.trans hw2, hu3.trans hw3, hu4.trans hw4, hu5.trans hw5,
    hu7.trans hw6, hu8.trans hw7, hu9, hu10⟩

/-- Splitting gives at least one element. -/
theorem splitBy_ne_nil (s : GoString) (sep : Nat) : splitBy s sep ≠ [] := by
  induction s with
  | nil => simp [splitBy]
  | cons b s ih =>
    unfold splitBy
    split
    · simp
    · split_ifs <;> simp

/-- Splitting a text that starts with bytes other than the separator. -/
theorem splitBy_append_clean (s t : GoString) (sep : Nat) (h : sep ∉ s) (x : GoString)
    (xs : List GoString) (ht : splitBy t sep = x :: xs) :
    splitBy (s ++ t) sep = (s ++ x) :: xs := by
  induction s with
  | nil => simpa using ht
  | cons b s ih =>
    have hb : b ≠ sep := fun e => h (by simp [e])
    have := ih (fun hm => h (List.mem_cons_of_mem _ hm))
    simp [splitBy, this, hb]

/-- Splitting a path of segments at its slashes. -/
theorem url.splitBy_slashed (segs : List GoString) (h : ∀ s ∈ segs, 47 ∉ s) :
    splitBy (url.slashed segs) 47 = [] :: segs := by
  induction segs with
  | nil => rfl
  | cons s segs ih =>
    have ih' := ih (fun x hx => h x (List.mem_cons_of_mem _ hx))
    have h1 := splitBy_append_clean s (url.slashed segs) 47 (h s (List.mem_cons_self _ _)) []
      segs ih'
    simp only [url.slashed, List.flatMap_cons, List.cons_append] at h1 ⊢
    simp [splitBy, h1]

/-- The loop of resolvePath on segments that are not dot segments. -/
theorem url.foldl_resolveStep (segs : List GoString)
    (h : ∀ s ∈ segs, s ≠ [46] ∧ s ≠ [46, 46]) (dst : GoString) :
    List.foldl url.resolveStep (dst, false) segs = (dst ++ url.slashed segs, false) := by
  induction segs generalizing dst with
  | nil => simp [url.slashed]
  | cons s segs ih =>
    have hs := h s (List.mem_cons_self _ _)
    have ih' := ih (fun x hx => h x (List.mem_cons_of_mem _ hx))
    simp only [List.foldl_cons, url.resolveStep, hs.1, hs.2, if_false, Bool.false_eq_true]
    rw [ih']
    simp [url.slashed]

/-- The loop of url.resolvePath gives back a path without dot segments. -/
theorem url.removeDots_slashed (segs : List GoString) (hne : segs ≠ [])
    (h47 : ∀ s ∈ segs, 47 ∉ s) (hdots : ∀ s ∈ segs, s ≠ [46] ∧ s ≠ [46, 46]) :
    url.removeDots (url.slashed segs) = url.slashed segs := by
  have hlast : ([] :: segs).getLast?.getD [] ≠ [46] ∧ ([] :: segs).getLast?.getD [] ≠ [46, 46] := by
    have hmem : ([] :: segs).getLast?.getD [] ∈ segs := by
      cases segs with
      | nil => exact absurd rfl hne
      | cons s t =>
        rw [List.getLast?_cons_cons]
        have := List.getLast?_eq_getLast (s :: t) (by simp)
        rw [this]
        exact List.getLast_mem _
    exact hdots _ hmem
  have hfold : List.foldl url.resolveStep ([47], true) ([] :: segs) =
      (47 :: url.slashed segs, false) := by
    have : url.resolveStep ([47], true) [] = ([47], false) := by decide
    rw [List.foldl_cons, this, url.foldl_resolveStep segs hdots]
    rfl
  have hhead : ∃ t, url.slashed segs = 47 :: t := by
    cases segs with
    | nil => exact absurd rfl hne
    | cons s t => exact ⟨_, rfl⟩
  obtain ⟨t, ht⟩ := hhead
  simp only [url.removeDots, url.splitBy_slashed segs h47, hfold, hlast.1, hlast.2, or_self,
    if_false]
  rw [ht]
  simp

/-- The slashed form of two lists of segments. -/
theorem url.slashed_append (a b : List GoString) :
    url.slashed (a ++ b) = url.slashed a ++ url.slashed b := by
  simp [url.slashed]

/-- Segments with a slash in front of each are a slash and the joined segments. -/
theorem url.slashed_eq_joinPath (segs : List GoString) (hne : segs ≠ []) :
    url.slashed segs = 47 :: url.joinPath segs := by
  induction segs with
  | nil => exact absurd rfl hne
  | cons s t ih =>
    cases t with
    | nil => simp [url.slashed, url.joinPath]
    | cons t1 t2 =>
      have := ih (by simp)
      simp only [url.slashed, List.flatMap_cons] at this ⊢
      simp [url.joinPath, this]

/-- A plain segment has no slash. -/
theorem url.PlainSegment_slash (s : GoString) (h : url.PlainSegment s) : 47 ∉ s :=
  fun hm => (url.isSegment_bytes s h.1 47 hm).2 rfl

/-- Resolving a relative path of plain segments against a base path of plain
segments that ends with a slash appends it to the base path; after a leading
slash it takes the place of the base path. -/
theorem url.resolvePath_plain (bsegs esegs : List GoString) (lead : GoString)
    (hb : ∀ s ∈ bsegs, url.PlainSegment s) (he : ∀ s ∈ esegs, url.PlainSegment s)
    (hfirst : ∀ s ∈ esegs.head?, s ≠ []) (hlead : lead = [] ∨ lead = [47]) :
    ∃ segs, segs ≠ [] ∧ (∀ s ∈ segs, url.PlainSegment s) ∧
      url.resolvePath (url.slashed bsegs ++ [47]) (lead ++ url.joinPath esegs) =
        url.slashed segs ∧
      url.slashed segs =
        (if lead = [] then url.slashed bsegs ++ [47] else [47]) ++ url.joinPath esegs := by
  have hempty : url.PlainSegment [] := ⟨rfl, by decide, by decide⟩
  have hrm : ∀ segs, segs ≠ [] → (∀ s ∈ segs, url.PlainSegment s) →
      url.removeDots (url.slashed segs) = url.slashed segs := fun segs hne h =>
    url.removeDots_slashed segs hne (fun s hs => url.PlainSegment_slash s (h s hs))
      (fun s hs => (h s hs).2)
  have hne0 : ∀ segs : List GoString, segs ≠ [] → url.slashed segs ≠ [] := by
    intro segs hne
    rw [url.slashed_eq_joinPath segs hne]; simp
  cases esegs with
  | nil =>
    rcases hlead with h | h <;> subst h
    · -- the empty reference
      refine ⟨bsegs ++ [[]], by simp, ?_, ?_, ?_⟩
      · intro s hs
        rcases List.mem_append.mp hs with h | h
        · exact hb s h
        · rw [List.mem_singleton.mp h]; exact hempty
      · have hs : url.slashed (bsegs ++ [[]]) = url.slashed bsegs ++ [47] := by
          rw [url.slashed_append]; rfl
        have hne : url.slashed bsegs ++ [47] ≠ [] := by simp
        simp only [url.resolvePath, url.joinPath, List.append_nil, if_true, hne, if_false]
        rw [← hs]
        exact hrm _ (by simp) (by
          intro s hs
          rcases List.mem_append.mp hs with h | h
          · exact hb s h
          · rw [List.mem_singleton.mp h]; exact hempty)
      · simp [url.slashed_append, url.joinPath, url.slashed]
    · -- the slash alone
      refine ⟨[[]], by simp, ?_, ?_, ?_⟩
      · intro s hs; rw [List.mem_singleton.mp hs]; exact hempty
      · have := hrm [[]] (by simp) (by intro s hs; rw [List.mem_singleton.mp hs]; exact hempty)
        simpa [url.resolvePath, url.joinPath, url.slashed] using this
      · simp [url.joinPath, url.slashed]
  | cons e rest =>
    have hj := url.slashed_eq_joinPath (e :: rest) (by simp)
    have he1 : e ≠ [] := hfirst e rfl
    have he47 : 47 ∉ e := url.PlainSegment_slash e (he e (List.mem_cons_self _ _))
    obtain ⟨x, t, hxt, hx⟩ : ∃ x t, url.joinPath (e :: rest) = x :: t ∧ x ≠ 47 := by
      cases e with
      | nil => exact absurd rfl he1
      | cons x e1 =>
        have hx : x ≠ 47 := fun h => he47 (by simp [h])
        cases rest with
        | nil => exact ⟨x, _, rfl, hx⟩
        | cons r1 r2 => exact ⟨x, _, rfl, hx⟩
    rcases hlead with h | h <;> subst h
    · have hall : ∀ s ∈ bsegs ++ e :: rest, url.PlainSegment s := by
        intro s hs
        rcases List.mem_append.mp hs with h | h
        · exact hb s h
        · exact he s h
      have hfe : url.slashed bsegs ++ [47] ++ url.joinPath (e :: rest) =
          url.slashed (bsegs ++ e :: rest) := by
        rw [url.slashed_append, hj]; simp
      refine ⟨bsegs ++ e :: rest, by simp, hall, ?_, by simp [hfe]⟩
      have hcl : cutLast (url.slashed bsegs ++ [47]) 47 = some (url.slashed bsegs, [47]) :=
        cutLast_append _ [] 47 (by simp)
      have hjne : url.joinPath (e :: rest) ≠ [] := by rw [hxt]; simp
      have hhd : (url.joinPath (e :: rest)).head? ≠ some 47 := by rw [hxt]; simpa using hx
      have hfull := hne0 (bsegs ++ e :: rest) (by simp)
      unfold url.resolvePath
      simp only [List.nil_append, hcl, hjne, hhd, if_false, ne_eq, not_false_eq_true, if_true,
        hfe, hfull]
      exact hrm _ (by simp) hall
    · refine ⟨e :: rest, by simp, he, ?_, by simp [hj]⟩
      unfold url.resolvePath
      simp only [List.singleton_append, List.head?_cons, ne_eq, not_true_eq_false, if_false,
        reduceCtorEq]
      rw [← hj]
      exact hrm _ (by simp) he

/-- Resolving a relative reference against an absolute URL without query and
fragment: the scheme, the user and the host are those of the base, the query
and the fragment are those of the reference, and the path is the resolved
path. -/
theorem url.Resolve_fields (ub ur : url.URL) (full : GoString)
    (hb1 : ub.Opaque = []) (hb2 : ub.RawQuery = []) (hb3 : ub.Fragment = [])
    (hr1 : ur.Scheme = []) (hr2 : ur.Opaque = []) (hr3 : ur.User = none) (hr4 : ur.Host = [])
    (hres : url.resolvePath ub.EscapedPath ur.EscapedPath = full)
    (hun : ∃ r, url.unescape full .encodePath = some r)
    (hv : url.validEncoded full .encodePath = true) (hstar : full ≠ ascii "%2A") :
    (ub.ResolveReference ur).EscapedPath = full ∧
      (ub.ResolveReference ur).Scheme = ub.Scheme ∧ (ub.ResolveReference ur).Opaque = [] ∧
      (ub.ResolveReference ur).User = ub.User ∧ (ub.ResolveReference ur).Host = ub.Host ∧
      (ub.ResolveReference ur).ForceQuery = ur.ForceQuery ∧
      (ub.ResolveReference ur).RawQuery = ur.RawQuery ∧
      (if (ub.ResolveReference ur).Fragment ≠ [] then
          35 :: (ub.ResolveReference ur).EscapedFragment else []) =
        (if ur.Fragment ≠ [] then 35 :: ur.EscapedFragment else []) := by
  have key : ∀ u2 : url.URL, u2.Scheme = ub.Scheme → u2.Opaque = [] → u2.User = ub.User →
      u2.Host = ub.Host → u2.ForceQuery = ur.ForceQuery → u2.RawQuery = ur.RawQuery →
      (if u2.Fragment ≠ [] then 35 :: u2.EscapedFragment else []) =
        (if ur.Fragment ≠ [] then 35 :: ur.EscapedFragment else []) →
      ((u2.setPath full).getD u2).EscapedPath = full ∧
      ((u2.setPath full).getD u2).Scheme = ub.Scheme ∧
      ((u2.setPath full).getD u2).Opaque = [] ∧
      ((u2.setPath full).getD u2).User = ub.User ∧
      ((u2.setPath full).getD u2).Host = ub.Host ∧
      ((u2.setPath full).getD u2).ForceQuery = ur.ForceQuery ∧
      ((u2.setPath full).getD u2).RawQuery = ur.RawQuery ∧
      (if ((u2.setPath full).getD u2).Fragment ≠ [] then
          35 :: ((u2.setPath full).getD u2).EscapedFragment else []) =
        (if ur.Fragment ≠ [] then 35 :: ur.EscapedFragment else []) := by
    intro u2 h1 h2 h3 h4 h5 h6 h7
    obtain ⟨v, hset, hv1, hv2, hv3, hv4, hv5, _, hv7, hv8, hv9, hv10⟩ :=
      url.setPath_fields u2 full hun hv hstar
    rw [hset]
    simp only [Option.getD_some]
    refine ⟨hv1, hv2.trans h1, hv3.trans h2, hv4.trans h3, hv5.trans h4, hv7.trans h5,
      hv8.trans h6, ?_⟩
    rw [hv9, url.EscapedFragment_congr u2 v hv9 hv10]
    exact h7
  unfold url.URL.ResolveReference
  simp only [hr1, hr2, hr3, hr4, hb1, hres, ne_eq, not_true_eq_false, or_self, if_false,
    if_true, and_false]
  by_cases hc : ur.Path = [] ∧ ur.ForceQuery = false ∧ ur.RawQuery = []
  · rw [if_pos hc]
    by_cases hfr : ur.Fragment = []
    · rw [if_pos hfr]
      refine key _ ?_ ?_ ?_ ?_ ?_ ?_ ?_ <;> simp [hb2, hb3, hc.2.2, hfr]
    · rw [if_neg hfr]
      refine key _ ?_ ?_ ?_ ?_ ?_ ?_ ?_ <;> simp [hb2, hc.2.2, hfr]
      exact url.EscapedFragment_congr _ _ rfl rfl
  · rw [if_neg hc]
    refine key _ ?_ ?_ ?_ ?_ ?_ ?_ ?_ <;> simp
    split_ifs
    · rfl
    · congr 1

/-- Request never changes the client. -/
theorem Request_client {D T : Type} (do_ : http.Transport)
    (marshal : D → Except GoError GoString) (unmarshal : GoString → T → T × Option GoError)
    (c : Client) (method endpoint : GoString) (query : Option Unit) (data : Option D)
    (response : Option T) :
    (c.Request do_ marshal unmarshal method endpoint query data response).client = c := by
  cases h1 : url.Parse c.ConsoleURL with
  | error e => simp [Client.Request, h1]
  | ok parsedURL =>
  cases h2 : url.Parse endpoint with
  | error e => simp [Client.Request, h1, h2]
  | ok parsedEndpoint =>
  cases h3 : payload marshal data with
  | error e => simp [Client.Request, h1, h2, h3]
  | ok buf =>
  cases h4 : http.NewRequest method (parsedURL.ResolveReference parsedEndpoint).String buf with
  | error e => simp [Client.Request, h1, h2, h3, h4]
  | ok req0 =>
  cases h5 : c.HTTPClient with
  | none => simp [Client.Request, h1, h2, h3, h4, h5]
  | some hc =>
  simp only [Client.Request, h1, h2, h3, h4, h5]
  exact (receive_sent _ _ _ _ _).2

/-- Authenticating changes at most the token of the client. -/
theorem authenticate_ConsoleURL (do_ : http.Transport) (c : Client) :
    (c.authenticate do_).client.ConsoleURL = c.ConsoleURL := by
  unfold Client.authenticate
  by_cases hcred : c.Username ≠ [] ∧ c.Password ≠ []
  · rw [if_pos hcred]
    generalize hr : c.Request do_ (fun a => Except.ok (marshalAuthRequest a))
      (json.Unmarshal decAuthResponse) (ascii "POST") (ascii "/api/v1/authenticate") none
      (some (⟨c.Username, c.Password⟩ : AuthRequest)) (some ({} : AuthResponse)) = r
    have hcl : r.client = c := by rw [← hr]; exact Request_client _ _ _ _ _ _ _ _ _
    dsimp only
    cases r.outcome with
    | panicked => exact congrArg Client.ConsoleURL hcl
    | returned e =>
      cases e with
      | none => show r.client.ConsoleURL = c.ConsoleURL; rw [hcl]
      | some e => exact congrArg Client.ConsoleURL hcl
  · rw [if_neg hcred]

/-- Joined segments unescape. -/
theorem url.joinPath_unescape (segs : List GoString) (h : ∀ s ∈ segs, url.isSegment s = true) :
    ∃ r, url.unescape (url.joinPath segs) .encodePath = some r := by
  induction segs with
  | nil => exact ⟨[], rfl⟩
  | cons s rest ih =>
    have hs := h s (List.mem_cons_self _ _)
    cases rest with
    | nil =>
      have := url.unescape_segment [] ⟨[], rfl⟩ s hs
      simpa [url.joinPath] using this
    | cons t rest1 =>
      have ih' := ih (fun x hx => h x (List.mem_cons_of_mem _ hx))
      have h1 := url.unescape_cons .encodePath (by decide) 47 _ (by decide) ih'
      exact url.unescape_segment _ h1 s hs

/-- Joined segments are of path bytes. -/
theorem url.joinPath_bytes (segs : List GoString) (h : ∀ s ∈ segs, url.isSegment s = true) :
    ∀ b ∈ url.joinPath segs, url.isPathByte b = true := by
  intro b hb
  cases segs with
  | nil => simp [url.joinPath] at hb
  | cons s rest =>
    apply url.slashed_bytes (s :: rest) h
    rw [url.slashed_eq_joinPath (s :: rest) (by simp)]
    exact List.mem_cons_of_mem _ hb

/-- The first segment of joined segments. -/
theorem url.cut_joinPath (s : GoString) (rest : List GoString) (h : 47 ∉ s) :
    (cut (url.joinPath (s :: rest)) 47).1 = s := by
  cases rest with
  | nil => simp [url.joinPath, cut_not_mem s 47 h]
  | cons t rest1 => simp [url.joinPath, cut_append s _ 47 h]

/-- What Request sends for a base URL and an endpoint of the shapes of C6: one
request, to the scheme, user, host and port of the base, then the path of the
base followed by the path of the endpoint, or the path of the endpoint alone
when it starts with a slash, then the query and the fragment of the
endpoint. -/
theorem Request_sends {D T : Type} (do_ : http.Transport)
    (marshal : D → Except GoError GoString) (unmarshal : GoString → T → T × Option GoError)
    (c : Client) (method endpoint : GoString) (query : Option Unit) (data : Option D)
    (response : Option T) (scheme host port lead : GoString)
    (user : Option (GoString × Option GoString)) (bsegs esegs : List GoString)
    (q frag : Option GoString) (hc : http.Client) (buf : GoString)
    (hscheme : url.IsScheme scheme) (huser : ∀ u ∈ user, url.IsUser u)
    (hhost : url.IsHost host) (hport : url.CleanPort port)
    (hb : ∀ s ∈ bsegs, url.PlainSegment s) (he : ∀ s ∈ esegs, url.PlainSegment s)
    (hfirst : ∀ s ∈ esegs.head?, s ≠ [] ∧ (lead = [] → 58 ∉ s))
    (hstar : lead ++ url.joinPath esegs ≠ ascii "%2A") (hq : ∀ t ∈ q, url.IsQuery t)
    (hfrag : ∀ f ∈ frag, url.IsFragment f) (hlead : lead = [] ∨ lead = [47])
    (hbase : c.ConsoleURL =
      scheme ++ ascii "://" ++ url.userText user ++ host ++ port ++ url.slashed bsegs ++ [47])
    (hend : endpoint = lead ++ url.joinPath esegs ++ url.queryText q ++ url.fragmentText frag)
    (hmethod : http.validMethod (if method = [] then ascii "GET" else method) = true)
    (hpayload : payload marshal data = .ok buf) (hclient : c.HTTPClient = some hc) :
    ∃ req, (c.Request do_ marshal unmarshal method endpoint query data response).sent = [req] ∧
      req.URL.String = scheme ++ ascii "://" ++ url.userText user ++ host ++ port ++
        (if lead = [] then url.slashed bsegs ++ [47] else [47]) ++ url.joinPath esegs ++
        url.queryText q ++ url.fragmentText frag := by
  obtain ⟨hhne, hhesc, _, hhremove⟩ := url.host_facts host port hhost hport
  obtain ⟨hab, hpa, hustr⟩ := url.authority_facts user host port huser hhost hport
  have hbseg : ∀ s ∈ bsegs ++ [[]], url.isSegment s = true := by
    intro s hs
    rcases List.mem_append.mp hs with h | h
    · exact (hb s h).1
    · rw [List.mem_singleton.mp h]; rfl
  have heseg : ∀ s ∈ esegs, url.isSegment s = true := fun s hs => (he s hs).1
  have hsne : scheme ≠ [] := by
    obtain ⟨x, r, h, _⟩ := hscheme; rw [h]; simp
  -- the base
  have hpb : url.slashed (bsegs ++ [[]]) = url.slashed bsegs ++ [47] := by
    rw [url.slashed_append]; rfl
  have hpb0 : (url.slashed bsegs ++ [47]).head? = some 47 := by
    cases bsegs with
    | nil => rfl
    | cons s t => rfl
  obtain ⟨ub, hU, hub1, hub2, hub3, hub4, hub5, _, _, hub8, hub9, _⟩ :=
    url.Parse_absolute scheme (url.userText user ++ (host ++ port)) (host ++ port)
      (url.slashed bsegs ++ [47]) (url.userOf user) none none hscheme hab hpa hpb0
      (by rw [← hpb]; exact url.slashed_bytes _ hbseg)
      (by rw [← hpb]; exact url.slashed_unescape _ hbseg) (by simp) (by simp)
  have hbase' : c.ConsoleURL = scheme ++ 58 :: 47 :: 47 ::
      (url.userText user ++ (host ++ port) ++ (url.slashed bsegs ++ [47]) ++
        url.queryText none) ++ url.fragmentText none := by
    rw [hbase]; simp [ascii, url.queryText, url.fragmentText]
  rw [← hbase'] at hU
  -- the endpoint
  have hleadb : ∀ b ∈ lead, url.isPathByte b = true := by
    intro b hb'
    rcases hlead with h | h <;> subst h
    · simp at hb'
    · rw [List.mem_singleton.mp hb']; rfl
  have hepb : ∀ b ∈ lead ++ url.joinPath esegs, url.isPathByte b = true := by
    intro b hb'
    rcases List.mem_append.mp hb' with h | h
    · exact hleadb b h
    · exact url.joinPath_bytes esegs heseg b h
  have hjun := url.joinPath_unescape esegs heseg
  have hepun : ∃ r, url.unescape (lead ++ url.joinPath esegs) .encodePath = some r := by
    rcases hlead with h | h <;> subst h
    · simpa using hjun
    · exact url.unescape_cons .encodePath (by decide) 47 _ (by decide) hjun
  have hjhead : url.joinPath esegs = [] ∨ ∃ x t, url.joinPath esegs = x :: t ∧ x ≠ 47 := by
    cases esegs with
    | nil => exact Or.inl rfl
    | cons e rest =>
      right
      have he1 : e ≠ [] := (hfirst e rfl).1
      have he47 : 47 ∉ e := url.PlainSegment_slash e (he e (List.mem_cons_self _ _))
      cases e with
      | nil => exact absurd rfl he1
      | cons x e1 =>
        have hx : x ≠ 47 := fun h => he47 (by simp [h])
        cases rest with
        | nil => exact ⟨x, _, rfl, hx⟩
        | cons r1 r2 => exact ⟨x, _, rfl, hx⟩
  have hslash : hasPrefix (lead ++ url.joinPath esegs) [47, 47] = false := by
    rcases hjhead with h1 | ⟨x, t, h1, hx⟩
    · rw [h1]
      rcases hlead with h | h <;> subst h <;> simp [hasPrefix]
    · rw [h1]
      rcases hlead with h | h <;> subst h <;> simp [hasPrefix, hx]
  have hcolon : hasPrefix (lead ++ url.joinPath esegs) [47] = true ∨
      58 ∉ (cut (lead ++ url.joinPath esegs) 47).1 := by
    rcases hlead with h | h <;> subst h
    · right
      cases esegs with
      | nil => simp [url.joinPath, cut]
      | cons e rest =>
        rw [List.nil_append, url.cut_joinPath e rest
          (url.PlainSegment_slash e (he e (List.mem_cons_self _ _)))]
        exact (hfirst e rfl).2 rfl
    · left; simp [hasPrefix]
  obtain ⟨ur, hR, hur1, hur2, hur3, hur4, hur5, hur6, hur7, _, hur9⟩ :=
    url.Parse_relative (lead ++ url.joinPath esegs) q frag hepb hepun hstar hslash hcolon hq
      hfrag
  rw [← hend] at hR
  -- the resolved URL
  obtain ⟨segs, hsegne, hsegs, hres, hfull⟩ := url.resolvePath_plain bsegs esegs lead hb he
    (fun s hs => (hfirst s hs).1) hlead
  have hfseg : ∀ s ∈ segs, url.isSegment s = true := fun s hs => (hsegs s hs).1
  have hf0 : (url.slashed segs).head? = some 47 := by
    cases segs with
    | nil => exact absurd rfl hsegne
    | cons s t => rfl
  have hfb := url.slashed_bytes segs hfseg
  have hfun := url.slashed_unescape segs hfseg
  have hfstar : url.slashed segs ≠ ascii "%2A" := by
    intro h; rw [h] at hf0; exact absurd hf0 (by decide)
  obtain ⟨hr1, hr2, hr3, hr4, hr5, hr6, hr7, hr8⟩ := url.Resolve_fields ub ur (url.slashed segs)
    hub3 (by rw [hub8]; rfl) (hub9 rfl) hur2 hur3 hur4 hur5 (by rw [hub1, hur1]; exact hres)
    hfun (url.validEncoded_bytes _ hfb) hfstar
  have hstr := url.String_absolute (ub.ResolveReference ur) (url.userText user)
    (url.slashed segs) q frag (by rw [hr2, hub2]; exact hsne) hr3
    (by rw [hr4, hub4]; exact hustr) (by rw [hr5, hub5]; exact hhne)
    (by rw [hr5, hub5]; exact hhesc) hr1 hf0 (by rw [hr6, hur6]) (by rw [hr7, hur7])
    (by rw [hr8]; exact hur9)
  rw [hr2, hub2, hr5, hub5] at hstr
  -- the request
  obtain ⟨un, hN, hun1, hun2, hun3, hun4, hun5, _, hun7, hun8, _, hun10⟩ :=
    url.Parse_absolute scheme (url.userText user ++ (host ++ port)) (host ++ port)
      (url.slashed segs) (url.userOf user) q frag hscheme hab hpa hf0 hfb hfun hq hfrag
  have hshape : scheme ++ 58 :: 47 :: 47 ::
      (url.userText user ++ (host ++ port) ++ url.slashed segs ++ url.queryText q) ++
        url.fragmentText frag = (ub.ResolveReference ur).String := by
    rw [hstr]
  rw [hshape] at hN
  have hurl : ({ un with Host := http.removeEmptyPort un.Host } : url.URL) = un := by
    rw [hun5, hhremove, ← hun5]
  have hnew : http.NewRequest method (ub.ResolveReference ur).String buf =
      .ok { Method := if method = [] then ascii "GET" else method, URL := un,
            Host := host ++ port, Header := [], Body := buf } := by
    simp only [http.NewRequest, hmethod, hN, hurl]
    simp [hun5, hhremove]
  have hstrn := url.String_absolute un (url.userText user) (url.slashed segs) q frag
    (by rw [hun2]; exact hsne) hun3 (by rw [hun4]; exact hustr)
    (by rw [hun5]; exact hhne) (by rw [hun5]; exact hhesc) hun1 hf0 hun7 hun8 hun10
  refine ⟨((http.Request.mk (if method = [] then ascii "GET" else method) un (host ++ port)
      [] buf).setHeader (ascii "Authorization") (ascii "Bearer " ++ c.JWT)).setHeader
      (ascii "Content-Type") (ascii "application/json"), ?_, ?_⟩
  · simp only [Client.Request, hU, hR, hpayload, hnew, hclient]
    exact (receive_sent _ _ _ _ _).1
  · simp only [http.Request.setHeader]
    rw [hstrn, hun2, hun5, hfull]
    simp [ascii]

/-- C6, as amended: APIClient stores a base URL that ends with a slash, the
console URL itself when that already ends with one, and a client it returns
has that base URL.  Let the base URL be a scheme in lower case, "://", an
optional user (a name and an optional password of bytes that are written
without escaping), a host (a registered name without escapes or an IPv6
address in square brackets) with an optional port of one or more digits, and a
path that ends with a slash, of segments (segment bytes and percent escapes,
possibly empty) none of which is "." or "..".  Let the endpoint be such
segments joined by slashes, the first one not empty and without a colon, and
not the text "%2A" alone, followed by an optional query without control bytes
and number signs and an optional fragment that is not empty.  Then a call with
a valid method, a body that serializes and an HTTP client sends exactly one
request, to the base URL followed by the endpoint; when the endpoint has a
slash in front, to the scheme, user, host and port of the base URL followed by
the endpoint. -/
theorem base_URL_and_request_URL {D T : Type} (do_ : http.Transport)
    (marshal : D → Except GoError GoString) (unmarshal : GoString → T → T × Option GoError)
    (c : Client) (method endpoint : GoString) (query : Option Unit) (data : Option D)
    (response : Option T) (console_url username password : GoString)
    (skip_cert_verification : Bool) (scheme host port lead : GoString)
    (user : Option (GoString × Option GoString)) (bsegs esegs : List GoString)
    (q frag : Option GoString) (hc : http.Client) (buf : GoString)
    (hscheme : url.IsScheme scheme) (huser : ∀ u ∈ user, url.IsUser u)
    (hhost : url.IsHost host) (hport : url.CleanPort port)
    (hb : ∀ s ∈ bsegs, url.PlainSegment s) (he : ∀ s ∈ esegs, url.PlainSegment s)
    (hfirst : ∀ s ∈ esegs.head?, s ≠ [] ∧ (lead = [] → 58 ∉ s))
    (hstar : lead ++ url.joinPath esegs ≠ ascii "%2A") (hq : ∀ t ∈ q, url.IsQuery t)
    (hfrag : ∀ f ∈ frag, url.IsFragment f) (hlead : lead = [] ∨ lead = [47])
    (hbase : c.ConsoleURL =
      scheme ++ ascii "://" ++ url.userText user ++ host ++ port ++ url.slashed bsegs ++ [47])
    (hend : endpoint = lead ++ url.joinPath esegs ++ url.queryText q ++ url.fragmentText frag)
    (hmethod : http.validMethod (if method = [] then ascii "GET" else method) = true)
    (hpayload : payload marshal data = .ok buf) (hclient : c.HTTPClient = some hc) :
    (hasSuffix (newClient console_url username password skip_cert_verification).ConsoleURL
        [47] = true ∧
      (hasSuffix console_url [47] = true →
        (newClient console_url username password skip_cert_verification).ConsoleURL =
          console_url) ∧
      (hasSuffix console_url [47] = false →
        (newClient console_url username password skip_cert_verification).ConsoleURL =
          console_url ++ [47]) ∧
      ∀ cl, (APIClient do_ console_url username password skip_cert_verification).client =
          some cl →
        cl.ConsoleURL =
          (newClient console_url username password skip_cert_verification).ConsoleURL) ∧
    ∃ req, (c.Request do_ marshal unmarshal method endpoint query data response).sent = [req] ∧
      (lead = [] → req.URL.String = c.ConsoleURL ++ endpoint) ∧
      (lead = [47] →
        req.URL.String = scheme ++ ascii "://" ++ url.userText user ++ host ++ port ++
          endpoint) := by
  constructor
  · refine ⟨?_, ?_, ?_, ?_⟩
    · unfold newClient
      by_cases h : hasSuffix console_url [47] = true
      · simp [h]
      · simp [h, hasSuffix_append_singleton]
    · intro h; simp [newClient, h]
    · intro h; simp [newClient, h]
    · intro cl hcl
      unfold APIClient at hcl
      have hurl := authenticate_ConsoleURL do_
        (newClient console_url username password skip_cert_verification)
      revert hcl
      dsimp only
      cases ((newClient console_url username password skip_cert_verification).authenticate
        do_).outcome with
      | panicked => intro hcl; simp at hcl
      | returned e =>
        cases e with
        | none => intro hcl; simp only [Option.some.injEq] at hcl; rw [← hcl, hurl]
        | some e => intro hcl; simp at hcl
  · obtain ⟨req, h1, h2⟩ := Request_sends do_ marshal unmarshal c method endpoint query data
      response scheme host port lead user bsegs esegs q frag hc buf hscheme huser hhost hport
      hb he hfirst hstar hq hfrag hlead hbase hend hmethod hpayload hclient
    refine ⟨req, h1, ?_, ?_⟩
    · intro hl
      rw [h2, hbase, hend, hl]
      simp
    · intro hl
      rw [h2, hend, hl]
      simp

/-- C6 fails as stated: a relative endpoint is not always appended to the
base URL.  UpdateGroup for a group named "dev team" sends to
https://console.example.com/api/v1/groups/dev%20team, and DeleteGroup for the
name ".." to https://console.example.com/api/v1/; the endpoint %2A goes to
https://console.example.com/*; against the base URL https://console.example.com:/
with an empty port the endpoint api/v1/groups goes to
https://console.example.com/api/v1/groups; and against the base URL
https://console.example.com:8083/tenant/ the login endpoint, which starts with
a slash, goes to https://console.example.com:8083/api/v1/authenticate. -/
theorem request_URL_not_joined :
    (¬ ∀ (do_ : http.Transport) (c : Client) (endpoint : GoString) (req : http.Request),
      hasSuffix c.ConsoleURL [47] = true → endpoint.head? ≠ some 47 →
      (c.Request do_ auth.noMarshal auth.noUnmarshal (ascii "PUT") endpoint none none
        auth.noTarget).sent = [req] →
      req.URL.String = c.ConsoleURL ++ endpoint) ∧
    (auth.UpdateGroup (http.answering 200 []) sampleClient
        { Name := ascii "dev team" }).sent.map (fun r => r.URL.String) =
      [ascii "https://console.example.com/api/v1/groups/dev%20team"] ∧
    (auth.DeleteGroup (http.answering 200 []) sampleClient
        (ascii "..")).sent.map (fun r => r.URL.String) =
      [ascii "https://console.example.com/api/v1/"] ∧
    (sampleClient.Request (http.answering 200 []) auth.noMarshal auth.noUnmarshal (ascii "GET")
        (ascii "%2A") none none auth.noTarget).sent.map (fun r => r.URL.String) =
      [ascii "https://console.example.com/*"] ∧
    (({ sampleClient with ConsoleURL := ascii "https://console.example.com:/" } : Client).Request
        (http.answering 200 []) auth.noMarshal auth.noUnmarshal (ascii "GET")
        auth.GroupsEndpoint none none auth.noTarget).sent.map (fun r => r.URL.String) =
      [ascii "https://console.example.com/api/v1/groups"] ∧
    (tenantClient.authenticate (http.answering 200 [])).sent.map (fun r => r.URL.String) =
      [ascii "https://console.example.com:8083/api/v1/authenticate"] := by
  refine ⟨?_, by rfl, by rfl, by rfl, by rfl, by rfl⟩
  intro h
  have := h (http.answering 200 []) sampleClient (ascii "api/v1/groups/dev team")
    { Method := ascii "PUT",
      URL := { Scheme := ascii "https", Host := ascii "console.example.com",
               Path := ascii "/api/v1/groups/dev team" },
      Host := ascii "console.example.com",
      Header := [(ascii "Authorization", ascii "Bearer tok"),
                 (ascii "Content-Type", ascii "application/json")],
      Body := [] } (by rfl) (by decide) (by rfl)
  exact absurd this (by decide)

/-- A witness for C1: a 404 answer with a body to a GET of the groups leaves
the target alone and gives the error "Non-OK status: 404". -/
theorem Request_non_OK_status_witness :
    ((sampleClient.Request (http.answering 404 (ascii "\x7b\"err\":\"no such page\"\x7d"))
        (fun g => .ok (auth.marshalGroup g)) (json.Unmarshal auth.decGroupUser) (ascii "POST")
        auth.GroupsEndpoint none (some sampleGroup)
        (some ({ Username := ascii "kept" } : auth.GroupUser))).sent = [sampleCreateRequest] ∧
      sampleClient.HTTPClient = some ⟨false⟩ ∧ (404 : Int) ≠ 200) ∧
    (sampleClient.Request (http.answering 404 (ascii "\x7b\"err\":\"no such page\"\x7d"))
        (fun g => .ok (auth.marshalGroup g)) (json.Unmarshal auth.decGroupUser) (ascii "POST")
        auth.GroupsEndpoint none (some sampleGroup)
        (some ({ Username := ascii "kept" } : auth.GroupUser))).outcome =
      .returned (some (.errorf "Non-OK status: 404")) ∧
    (sampleClient.Request (http.answering 404 (ascii "\x7b\"err\":\"no such page\"\x7d"))
        (fun g => .ok (auth.marshalGroup g)) (json.Unmarshal auth.decGroupUser) (ascii "POST")
        auth.GroupsEndpoint none (some sampleGroup)
        (some ({ Username := ascii "kept" } : auth.GroupUser))).response =
      some { Username := ascii "kept" } :=
  have h := Request_non_OK_status (http.answering 404 (ascii "\x7b\"err\":\"no such page\"\x7d"))
    (fun g => .ok (auth.marshalGroup g)) (json.Unmarshal auth.decGroupUser) sampleClient
    (ascii "POST") auth.GroupsEndpoint none (some sampleGroup)
    (some ({ Username := ascii "kept" } : auth.GroupUser)) ⟨false⟩ sampleCreateRequest
    ⟨404, .ok (ascii "\x7b\"err\":\"no such page\"\x7d")⟩ rfl rfl rfl (by decide)
  ⟨⟨rfl, rfl, by decide⟩, h.1, h.2.1⟩

/-- A witness for C2: a 200 answer without a body to the same call. -/
theorem Request_OK_empty_body_witness :
    ((sampleClient.Request (http.answering 200 []) (fun g => .ok (auth.marshalGroup g))
        (json.Unmarshal auth.decGroupUser) (ascii "POST") auth.GroupsEndpoint none
        (some sampleGroup) (some ({ Username := ascii "kept" } : auth.GroupUser))).sent =
        [sampleCreateRequest] ∧ sampleClient.HTTPClient = some ⟨false⟩) ∧
    (sampleClient.Request (http.answering 200 []) (fun g => .ok (auth.marshalGroup g))
        (json.Unmarshal auth.decGroupUser) (ascii "POST") auth.GroupsEndpoint none
        (some sampleGroup) (some ({ Username := ascii "kept" } : auth.GroupUser))).outcome =
      .returned none ∧
    (sampleClient.Request (http.answering 200 []) (fun g => .ok (auth.marshalGroup g))
        (json.Unmarshal auth.decGroupUser) (ascii "POST") auth.GroupsEndpoint none
        (some sampleGroup) (some ({ Username := ascii "kept" } : auth.GroupUser))).response =
      some { Username := ascii "kept" } :=
  have h := Request_OK_empty_body (http.answering 200 []) (fun g => .ok (auth.marshalGroup g))
    (json.Unmarshal auth.decGroupUser) sampleClient (ascii "POST") auth.GroupsEndpoint none
    (some sampleGroup) (some ({ Username := ascii "kept" } : auth.GroupUser)) ⟨false⟩
    sampleCreateRequest ⟨200, .ok []⟩ rfl rfl rfl rfl rfl
  ⟨⟨rfl, rfl⟩, h.1, h.2.1⟩

/-- A witness for C7: the request CreateGroup sends for sampleGroup. -/
theorem Request_outbound_witness :
    (auth.CreateGroup (http.answering 200 []) sampleClient sampleGroup).sent =
      [sampleCreateRequest] ∧
    sampleCreateRequest.getHeader (ascii "Authorization") = some (ascii "Bearer tok") ∧
    sampleCreateRequest.getHeader (ascii "Content-Type") = some (ascii "application/json") ∧
    sampleCreateRequest.Body = auth.marshalGroup sampleGroup :=
  have h := Request_outbound (http.answering 200 []) (fun g => .ok (auth.marshalGroup g))
    auth.noUnmarshal sampleClient (ascii "POST") auth.GroupsEndpoint none (some sampleGroup)
    auth.noTarget sampleCreateRequest rfl
  ⟨rfl, h.1, h.2.1, (Except.ok.inj (h.2.2.1 sampleGroup rfl)).symm⟩

/-- A witness for C3: sampleClient without a password. -/
theorem authenticate_missing_credentials_witness :
    (({ sampleClient with Password := [] } : Client).Username = [] ∨
      ({ sampleClient with Password := [] } : Client).Password = []) ∧
    (({ sampleClient with Password := [] } : Client).authenticate (http.answering 200 [])).sent =
      [] ∧
    (APIClient (http.answering 200 []) (ascii "https://console.example.com") (ascii "admin") []
      false).client = none :=
  have h := authenticate_missing_credentials (http.answering 200 [])
    { sampleClient with Password := [] } (Or.inr rfl)
  ⟨Or.inr rfl, h.2.1, (h.2.2.2 (ascii "https://console.example.com") false).2.1⟩

/-- A witness for C5 as amended: a login answered with a token. -/
theorem authenticate_success_token_witness :
    (sampleClient.Username ≠ [] ∧ sampleClient.Password ≠ [] ∧
      (({ sampleClient with JWT := [] } : Client).authenticate
        (http.answering 200 (ascii "\x7b\"token\":\"abc\"\x7d"))).outcome = .returned none) ∧
    ∃ hc req res body, ({ sampleClient with JWT := [] } : Client).HTTPClient = some hc ∧
      (({ sampleClient with JWT := [] } : Client).authenticate
        (http.answering 200 (ascii "\x7b\"token\":\"abc\"\x7d"))).sent = [req] ∧
      http.answering 200 (ascii "\x7b\"token\":\"abc\"\x7d") hc req = .ok res ∧
      res.StatusCode = 200 ∧ res.Body = .ok body ∧
      (body ≠ [] → (json.Unmarshal decAuthResponse body {}).2 = none) ∧
      (({ sampleClient with JWT := [] } : Client).authenticate
        (http.answering 200 (ascii "\x7b\"token\":\"abc\"\x7d"))).client =
        { ({ sampleClient with JWT := [] } : Client) with JWT :=
            if body = [] then [] else (json.Unmarshal decAuthResponse body {}).1.Token } :=
  ⟨⟨by decide, by decide, rfl⟩,
    authenticate_success_token (http.answering 200 (ascii "\x7b\"token\":\"abc\"\x7d"))
      { sampleClient with JWT := [] } (by decide) (by decide) rfl⟩

/-- A witness for C10: CreateGroup, UpdateGroup, DeleteGroup and
UpdateRegistrySettings, each answered with 200 and the body "\x7b\x7d", send
their request and return an error. -/
theorem Request_nil_target_witness :
    ((auth.CreateGroup (http.answering 200 (ascii "\x7b\x7d")) sampleClient sampleGroup).sent =
        [sampleCreateRequest] ∧
      ∃ err, (auth.CreateGroup (http.answering 200 (ascii "\x7b\x7d")) sampleClient
        sampleGroup).outcome = .returned (some err)) ∧
    ((auth.UpdateGroup (http.answering 200 (ascii "\x7b\x7d")) sampleClient sampleGroup).sent =
        [sampleUpdateRequest] ∧
      ∃ err, (auth.UpdateGroup (http.answering 200 (ascii "\x7b\x7d")) sampleClient
        sampleGroup).outcome = .returned (some err)) ∧
    ((auth.DeleteGroup (http.answering 200 (ascii "\x7b\x7d")) sampleClient (ascii "devs")).sent =
        [sampleDeleteRequest] ∧
      ∃ err, (auth.DeleteGroup (http.answering 200 (ascii "\x7b\x7d")) sampleClient
        (ascii "devs")).outcome = .returned (some err)) ∧
    ((settings.UpdateRegistrySettings (http.answering 200 (ascii "\x7b\x7d")) sampleClient
        sampleRegistry).sent = [sampleRegistryRequest] ∧
      ∃ err, (settings.UpdateRegistrySettings (http.answering 200 (ascii "\x7b\x7d")) sampleClient
        sampleRegistry).outcome = .returned (some err)) :=
  have h (req : http.Request) := Request_nil_target (http.answering 200 (ascii "\x7b\x7d"))
    sampleClient ⟨false⟩ req ⟨200, .ok (ascii "\x7b\x7d")⟩ (ascii "\x7b\x7d") rfl rfl rfl rfl
  have s1 : (auth.CreateGroup (http.answering 200 (ascii "\x7b\x7d")) sampleClient
      sampleGroup).sent = [sampleCreateRequest] := by decide
  have s2 : (auth.UpdateGroup (http.answering 200 (ascii "\x7b\x7d")) sampleClient
      sampleGroup).sent = [sampleUpdateRequest] := by decide
  have s3 : (auth.DeleteGroup (http.answering 200 (ascii "\x7b\x7d")) sampleClient
      (ascii "devs")).sent = [sampleDeleteRequest] := by decide
  have s4 : (settings.UpdateRegistrySettings (http.answering 200 (ascii "\x7b\x7d")) sampleClient
      sampleRegistry).sent = [sampleRegistryRequest] := by decide
  ⟨⟨s1, ((h sampleCreateRequest).1 _ _ _ _ _ _ _ _ s1).2.1 (by decide)⟩,
   ⟨s2, ((h sampleUpdateRequest).1 _ _ _ _ _ _ _ _ s2).2.1 (by decide)⟩,
   ⟨s3, ((h sampleDeleteRequest).1 _ _ _ _ _ _ _ _ s3).2.1 (by decide)⟩,
   ⟨s4, ((h sampleRegistryRequest).1 _ _ _ _ _ _ _ _ s4).2.1 (by decide)⟩⟩

/-- A witness for C4: the body with the token "abc". -/
theorem authenticate_token_witness :
    (sampleClient.Username ≠ [] ∧ sampleClient.Password ≠ [] ∧
      (({ sampleClient with JWT := [] } : Client).authenticate
        (http.answering 200 (ascii "\x7b\"token\":\"abc\"\x7d"))).sent = [sampleLoginRequest] ∧
      json.parse (ascii "\x7b\"token\":\"abc\"\x7d") =
        some (.obj [(ascii "token", .str (ascii "abc"))])) ∧
    (({ sampleClient with JWT := [] } : Client).authenticate
        (http.answering 200 (ascii "\x7b\"token\":\"abc\"\x7d"))).outcome = .returned none ∧
    (({ sampleClient with JWT := [] } : Client).authenticate
        (http.answering 200 (ascii "\x7b\"token\":\"abc\"\x7d"))).client =
      { sampleClient with JWT := ascii "abc" } :=
  have h := authenticate_token (http.answering 200 (ascii "\x7b\"token\":\"abc\"\x7d"))
    { sampleClient with JWT := [] } ⟨false⟩ sampleLoginRequest (ascii "abc")
    (ascii "\x7b\"token\":\"abc\"\x7d") (by decide) (by decide) rfl rfl rfl rfl
  ⟨⟨by decide, by decide, rfl, rfl⟩, h.1, h.2.1⟩

/-- A witness for C6 as amended: CreateGroup against a base URL with a port and
a path; and a call against a base URL with a user and an IP literal as host,
for an endpoint with a percent escape, sub-delims, an empty last segment, a
query and a fragment. -/
theorem base_URL_and_request_URL_witness :
    (newClient (ascii "https://console.example.com:8083/tenant") (ascii "admin")
        (ascii "secret") false).ConsoleURL = tenantClient.ConsoleURL ∧
    (∃ req, (auth.CreateGroup (http.answering 200 []) tenantClient sampleGroup).sent = [req] ∧
      req.URL.String = ascii "https://console.example.com:8083/tenant/api/v1/groups") ∧
    ∃ req, (({ sampleClient with ConsoleURL := ascii "http://ann:pw@[::1]:8083/" } : Client).Request
        (http.answering 200 []) auth.noMarshal auth.noUnmarshal (ascii "GET")
        (ascii "api/v1/groups/dev%20team;v=1/?limit=10#top") none none auth.noTarget).sent =
          [req] ∧
      req.URL.String =
        ascii "http://ann:pw@[::1]:8083/api/v1/groups/dev%20team;v=1/?limit=10#top" :=
  have h1 := base_URL_and_request_URL (http.answering 200 [])
    (fun g => .ok (auth.marshalGroup g)) auth.noUnmarshal tenantClient (ascii "POST")
    auth.GroupsEndpoint none (some sampleGroup) auth.noTarget
    (ascii "https://console.example.com:8083/tenant") (ascii "admin") (ascii "secret") false
    (ascii "https") (ascii "console.example.com") (ascii ":8083") [] none
    [ascii "tenant"] [ascii "api", ascii "v1", ascii "groups"] none none ⟨false⟩
    (auth.marshalGroup sampleGroup) ⟨104, ascii "ttps", rfl, by decide, by decide⟩ (by simp)
    (Or.inl ⟨by decide, by decide⟩) (Or.inr ⟨56, ascii "083", rfl, by decide⟩)
    (by unfold url.PlainSegment; decide) (by unfold url.PlainSegment; decide)
    (by decide) (by decide) (by simp) (by simp) (Or.inl rfl) rfl rfl (by decide) rfl rfl
  have h2 := base_URL_and_request_URL (http.answering 200 []) auth.noMarshal auth.noUnmarshal
    ({ sampleClient with ConsoleURL := ascii "http://ann:pw@[::1]:8083/" } : Client)
    (ascii "GET") (ascii "api/v1/groups/dev%20team;v=1/?limit=10#top") none
    (none : Option Unit) auth.noTarget
    (ascii "http://ann:pw@[::1]:8083") (ascii "admin") (ascii "secret") false
    (ascii "http") (ascii "[::1]") (ascii ":8083") [] (some (ascii "ann", some (ascii "pw")))
    [] [ascii "api", ascii "v1", ascii "groups", ascii "dev%20team;v=1", []]
    (some (ascii "limit=10")) (some (ascii "top")) ⟨false⟩ []
    ⟨104, ascii "ttp", rfl, by decide, by decide⟩ (by unfold url.IsUser; decide)
    (Or.inr ⟨ascii "::1", rfl, [], [ascii "1"], by decide, Or.inr ⟨by decide, rfl⟩⟩) (Or.inr ⟨56, ascii "083", rfl, by decide⟩)
    (by simp) (by unfold url.PlainSegment; decide)
    (by decide) (by decide) (by unfold url.IsQuery; decide) (by unfold url.IsFragment; decide)
    (Or.inl rfl) rfl rfl (by decide) rfl rfl
  ⟨h1.1.2.2.1 (by decide), h1.2.elim fun req hr => ⟨req, hr.1, hr.2.1 rfl⟩,
    h2.2.elim fun req hr => ⟨req, hr.1, hr.2.1 rfl⟩⟩

end Pcc
